import Mathlib

/-!
Verification of the sago mini-ORM core (session / relation / attribute
machinery) against its natural-language specification.

The development shallowly embeds the relevant JavaScript source modules:

- types.js        : attribute type machinery and the stock types
                    (boolean, integer, float, string, uuid, datetime);
- attributes.js   : AttributeIdentity and AttributeProxy (assignment with
                    validation, dirty tracking and relational side effects);
- relations.js    : OneSideRelationProxy / ManySideRelationProxy,
                    setupForeignKeyBetween, the re-sort comparator;
- session.js      : sortRelationGraph, Session.add / delete / commit,
                    model resolution and the emit pipeline;
- query.js        : the chainable Query builder.

JavaScript values are modelled by the inductive JSValue; JavaScript object
identity is modelled by addressing entities with natural-number ids inside
an explicit heap.  Functions that can recurse unboundedly in the source
(the relational graph expansion and depth-first search, and everything
that can reach them) are embedded with an explicit fuel parameter; a
result of none means the source computation did not terminate within the
given budget.  Thrown JavaScript errors are modelled with an error
component carried next to the (already mutated) state, because a thrown
error in the source leaves all mutations made before the throw visible.
-/

/-! ## JavaScript values -/

/-- The error taxonomy of errors.js, plus the generic runtime failures the
source can raise (plain Error, TypeError from the JS runtime). -/
inductive SagoError where
  | attributeTypeError
  | attributeValueError
  | attributeKeyError
  | relationalAttributeError
  | modelStateError
  | schemaError
  | queryError
  | parameterError
  | nativeQueryError
  | internalError
  | typeError
  deriving Repr, DecidableEq

/-- Broken-down UTC time, the model of a valid JavaScript Date. A Date for
which isNaN(getTime()) holds is represented by the absence of a JSValue.date
value, never by an invalid component record. -/
structure DateRec where
  year : Nat
  month : Nat
  day : Nat
  hour : Nat
  minute : Nat
  second : Nat
  milli : Nat
  deriving Repr, DecidableEq

/-- Model of the JavaScript values the library manipulates. -/
inductive JSValue where
  | null
  | undef
  | bool (b : Bool)
  | num (q : ℚ)
  | str (s : String)
  | date (d : DateRec)
  deriving Repr, DecidableEq

/-- JavaScript truthiness on the modelled values. -/
def truthy : JSValue → Bool
  | .null => false
  | .undef => false
  | .bool b => b
  | .num q => q != 0
  | .str s => s ≠ ""
  | .date _ => true

/-- The result of the JavaScript typeof operator on the modelled values. -/
def typeofStr : JSValue → String
  | .null => "object"
  | .undef => "undefined"
  | .bool _ => "boolean"
  | .num _ => "number"
  | .str _ => "string"
  | .date _ => "object"

/-- Strict equality (triple equals) on the modelled values. -/
def jsStrictEq (a b : JSValue) : Bool := a == b

/-- Loose equality (double equals) on the modelled values: null and
undefined are mutually equal, same-type operands compare structurally, and
the numeric coercions between distinct types are not modelled (no claim in
scope compares values of distinct types loosely). -/
def jsLooseEq : JSValue → JSValue → Bool
  | .null, .null => true
  | .null, .undef => true
  | .undef, .null => true
  | .undef, .undef => true
  | .bool a, .bool b => a == b
  | .num a, .num b => a == b
  | .str a, .str b => a == b
  | .date a, .date b => a == b
  | _, _ => false

/-- Flatten broken-down time to a single strictly monotone key, so that
comparing two valid Dates through it agrees with comparing their epoch
values. -/
def dateKey (d : DateRec) : Nat :=
  ((((((d.year * 13 + d.month) * 32 + d.day) * 24 + d.hour) * 60
    + d.minute) * 60 + d.second) * 1000 + d.milli)

/-- JavaScript greater-than on the modelled values, as used by the stock
compareValues: numeric and string comparison, Date comparison through the
epoch value (lexicographic on the components for valid dates), boolean
comparison through numeric coercion; comparisons involving null, undefined
or mismatched types yield false. -/
def jsGt : JSValue → JSValue → Bool
  | .num a, .num b => a > b
  | .str a, .str b => b < a
  | .bool a, .bool b => a && !b
  | .date a, .date b => dateKey b < dateKey a
  | _, _ => false

/-- Render a JSValue with the JavaScript String() coercion, as used when a
primary key value is interpolated into a session state key. -/
def jsToString : JSValue → String
  | .null => "null"
  | .undef => "undefined"
  | .bool b => if b then "true" else "false"
  | .num q => toString q
  | .str s => s
  | .date _ => "[Date]"

/-! ## Attribute types (types.js)

One AttributeType instance exists per attribute per schema.  The stock
type map is: boolean and integer and float are bare AttributeType
instances differing only in their native type string, while string, uuid
and datetime are subclasses.  The subclass dispatch of validate,
validateOrDie, serialize and deserialize is embedded as a match on the
kind field. -/

/-- Which stock type an attribute carries; the base constructor also
covers boolean (native type "boolean") and integer and float (native type
"number"). -/
inductive TypeKind where
  | base (nativeType : String)
  | strT
  | uuidT
  | datetimeT
  deriving Repr, DecidableEq

/-- An attribute type together with its resolved options, as they stand
after schema construction (options are resolved once and immutable
afterwards; the uuid subclass has already rewritten its default option
when it is a primary key). -/
structure AttrType where
  kind : TypeKind
  nullable : Bool := false
  fkDest : Option (String × String) := none
  pk : Bool := false
  dbDefault : Option String := none
  length : Option Nat := none
  deriving Repr, DecidableEq

/-- Whether the foreign-key option is set (the isForeignKey getter). -/
def AttrType.isFK (t : AttrType) : Bool := t.fkDest.isSome

/-- Truthiness of the length option as the source tests it. -/
def AttrType.hasLength (t : AttrType) : Bool :=
  match t.length with
  | some (_ + 1) => true
  | _ => false

/-- Membership in the character class of the 36-character alternative of
the uuid validation pattern. -/
def isHexDashChar (c : Char) : Bool :=
  ('0' ≤ c && c ≤ '9') || ('a' ≤ c && c ≤ 'f') || c = '-'

/-- Membership in the character class of the 32-character alternative of
the uuid validation pattern. -/
def isHexChar (c : Char) : Bool :=
  ('0' ≤ c && c ≤ '9') || ('a' ≤ c && c ≤ 'f')

/-- Semantics of UUID_PATTERN.test on a string.  The pattern anchors the
start only to its 36-character alternative and the end only to its
32-character alternative, and test searches at every position, so a
string matches exactly when its first 36 characters are all in the
hex-or-dash class, or its last 32 characters are all in the hex class. -/
def uuidPatternTest (s : String) : Bool :=
  (decide (36 ≤ s.data.length) && (s.data.take 36).all isHexDashChar) ||
  (decide (32 ≤ s.data.length) &&
    (s.data.drop (s.data.length - 32)).all isHexChar)

/-- The string length check of StringAttributeType.validateLength: vacuous
when no (truthy) length option is configured. -/
def validateLength (t : AttrType) (s : String) : Bool :=
  match t.length with
  | some (n + 1) => decide (s.data.length ≤ n + 1)
  | _ => true

/-- The per-kind validate method.  Every variant lets any falsy value
through (the source tests the value for truthiness, not for null). -/
def validateT (t : AttrType) (v : JSValue) : Bool :=
  match t.kind with
  | .base nt => !truthy v || typeofStr v == nt
  | .strT => !truthy v ||
      (typeofStr v == "string" &&
        (match v with | .str s => validateLength t s | _ => false))
  | .uuidT => !truthy v ||
      (typeofStr v == "string" &&
        (match v with | .str s => uuidPatternTest s | _ => false))
  | .datetimeT => !truthy v || (match v with | .date _ => true | _ => false)

/-- The per-kind validateOrDie method; a result of some e is a thrown
error.  The string and uuid subclasses return silently on any falsy value
and then distinguish a wrong native type (AttributeTypeError) from a
failed length or format check (AttributeValueError); the base class and
the datetime type throw AttributeTypeError whenever validate fails. -/
def validateOrDieT (t : AttrType) (v : JSValue) : Option SagoError :=
  match t.kind with
  | .base _ => if validateT t v then none else some .attributeTypeError
  | .strT =>
      if !truthy v then none
      else if !(typeofStr v == "string") then some .attributeTypeError
      else match v with
        | .str s => if validateLength t s then none
            else some .attributeValueError
        | _ => some .attributeTypeError
  | .uuidT =>
      if !truthy v then none
      else if !(typeofStr v == "string") then some .attributeTypeError
      else match v with
        | .str s => if uuidPatternTest s then none
            else some .attributeValueError
        | _ => some .attributeTypeError
  | .datetimeT => if validateT t v then none else some .attributeTypeError

/-- The stock comparison used for in-memory ordering of many-side
relations; no stock subclass overrides it. -/
def compareValuesT (_t : AttrType) (a b : JSValue) : Int :=
  if jsGt a b then 1 else -1

/-! ## Datetime serialization (toISOString and ISO parsing) -/

/-- The decimal digit character for n below ten. -/
def digitChar (n : Nat) : Char := Char.ofNat (48 + n)

/-- Two-digit zero-padded decimal rendering. -/
def pad2 (n : Nat) : List Char := [digitChar (n / 10 % 10), digitChar (n % 10)]

/-- Three-digit zero-padded decimal rendering. -/
def pad3 (n : Nat) : List Char :=
  [digitChar (n / 100 % 10), digitChar (n / 10 % 10), digitChar (n % 10)]

/-- Four-digit zero-padded decimal rendering. -/
def pad4 (n : Nat) : List Char :=
  [digitChar (n / 1000 % 10), digitChar (n / 100 % 10),
   digitChar (n / 10 % 10), digitChar (n % 10)]

/-- Model of Date.prototype.toISOString for dates in the four-digit-year
range: YYYY-MM-DDTHH:MM:SS.mmmZ. -/
def formatISO (d : DateRec) : String :=
  String.mk (pad4 d.year ++ '-' :: pad2 d.month ++ '-' :: pad2 d.day
    ++ 'T' :: pad2 d.hour ++ ':' :: pad2 d.minute ++ ':' :: pad2 d.second
    ++ '.' :: pad3 d.milli ++ ['Z'])

/-- Days in a month of the proleptic Gregorian calendar. -/
def daysInMonth (year month : Nat) : Nat :=
  if month = 2 then
    if year % 4 = 0 && (year % 100 ≠ 0 || year % 400 = 0) then 29 else 28
  else if month = 4 || month = 6 || month = 9 || month = 11 then 30
  else 31

/-- Component validity: exactly the broken-down times that denote a real
instant renderable by toISOString with a four-digit year. -/
def validDate (d : DateRec) : Bool :=
  decide (d.year ≤ 9999) && decide (1 ≤ d.month) && decide (d.month ≤ 12) &&
  decide (1 ≤ d.day) && decide (d.day ≤ daysInMonth d.year d.month) &&
  decide (d.hour ≤ 23) && decide (d.minute ≤ 59) && decide (d.second ≤ 59) &&
  decide (d.milli ≤ 999)

/-- Numeric value of a digit character. -/
def digitVal (c : Char) : Nat := c.toNat - 48

/-- Model of new Date(s) restricted to the canonical toISOString format:
the components are read back from their fixed positions and a date that
would have NaN as its time value (malformed or out-of-range input) parses
to none.  Laxer textual formats that the JavaScript Date constructor also
accepts are outside the serialization contract and parse to none here. -/
def parseISO (s : String) : Option DateRec :=
  match s.data with
  | [y1, y2, y3, y4, '-', m1, m2, '-', d1, d2, 'T', h1, h2, ':', i1, i2,
     ':', s1, s2, '.', f1, f2, f3, 'Z'] =>
      if ([y1, y2, y3, y4, m1, m2, d1, d2, h1, h2, i1, i2, s1, s2, f1, f2,
          f3]).all Char.isDigit then
        let d : DateRec :=
          { year := digitVal y1 * 1000 + digitVal y2 * 100 +
              digitVal y3 * 10 + digitVal y4,
            month := digitVal m1 * 10 + digitVal m2,
            day := digitVal d1 * 10 + digitVal d2,
            hour := digitVal h1 * 10 + digitVal h2,
            minute := digitVal i1 * 10 + digitVal i2,
            second := digitVal s1 * 10 + digitVal s2,
            milli := digitVal f1 * 100 + digitVal f2 * 10 + digitVal f3 }
        if validDate d then some d else none
      else none
  | _ => none

/-- The per-kind serialize method: the identity except for datetime, which
renders an ISO string (and, faithfully to calling toISOString on a
non-Date receiver, fails on any non-Date value). -/
def serializeT (t : AttrType) (v : JSValue) : Except SagoError JSValue :=
  match t.kind with
  | .datetimeT =>
      match v with
      | .date d => .ok (.str (formatISO d))
      | _ => .error .typeError
  | _ => .ok v

/-- The per-kind deserialize method: the base implementation (also used by
the string and uuid subclasses through their overridden validateOrDie)
validates and returns the value unchanged, while datetime requires a
string and parses it as a date, throwing AttributeValueError when the
parse produces an invalid date. -/
def deserializeT (t : AttrType) (v : JSValue) : Except SagoError JSValue :=
  match t.kind with
  | .datetimeT =>
      match v with
      | .str s =>
          match parseISO s with
          | some d => .ok (.date d)
          | none => .error .attributeValueError
      | _ => .error .attributeTypeError
  | _ =>
      match validateOrDieT t v with
      | some e => .error e
      | none => .ok v

/-! ## The relational creation-ordering graph (session.js, sortRelationGraph)

Models are addressed by natural-number ids.  The fields the function
reads are the per-model relationship-intent list (manySide.intents, whose
elements name the one-side model holding the foreign key) and its
converse (oneSide.inboundIntentModels); both are maintained in tandem by
setupForeignKeyBetween.  The visit-state marks are mutated on the models
themselves and persist after the call, so they are threaded explicitly.
The source recursion is unguarded across intent edges, so the embedding
carries fuel; none models a computation that exhausts every budget. -/

/-- One registered relationship intent, as stored on the many-side model:
the one-side model that must receive the many-side model's destination
attribute value into its source (foreign key) attribute at creation
time. -/
structure IntentRec where
  oneSideModel : Nat
  sourceAttribute : String
  destinationAttribute : String
  deriving Repr, DecidableEq

/-- The slice of the model heap that sortRelationGraph reads. -/
structure RelGraph where
  intents : Nat → List IntentRec
  inbound : Nat → List Nat

/-- Mutable state of the breadth-first expansion: the (shared, mutated)
input array and the accumulator of models reachable across an intent
edge. -/
structure ExpState where
  models : List Nat
  reachableByIntents : List Nat
  deriving Repr, DecidableEq

mutual

/-- Embedding of expandFrom: register the model, walk its inbound
intent edges guarded by membership in the shared models array, then walk
its intent edges unconditionally, recording each traversed one-side model
as reachable by intents. -/
def expandFrom (g : RelGraph) (fuel : Nat) (st : ExpState) (model : Nat) :
    Option ExpState :=
  match fuel with
  | 0 => none
  | fuel + 1 =>
    let st1 : ExpState :=
      if model ∈ st.models then st
      else { st with models := st.models ++ [model] }
    match expandInbound g fuel st1 (g.inbound model) with
    | none => none
    | some st2 => expandIntents g fuel st2 (g.intents model)
termination_by (fuel, 0)

/-- The forEach over inboundIntentModels inside expandFrom, whose
recursive call is guarded by membership in the shared models array. -/
def expandInbound (g : RelGraph) (fuel : Nat) (st : ExpState)
    (ms : List Nat) : Option ExpState :=
  match ms with
  | [] => some st
  | m :: rest =>
    if m ∈ st.models then expandInbound g fuel st rest
    else
      match expandFrom g fuel st m with
      | none => none
      | some st' => expandInbound g fuel st' rest
termination_by (fuel, ms.length + 1)

/-- The forEach over intents inside expandFrom: the recursive call is
unconditional, and the traversed one-side model is pushed onto
reachableByIntents after the call returns. -/
def expandIntents (g : RelGraph) (fuel : Nat) (st : ExpState)
    (its : List IntentRec) : Option ExpState :=
  match its with
  | [] => some st
  | it :: rest =>
    match expandFrom g fuel st it.oneSideModel with
    | none => none
    | some st' =>
        expandIntents g fuel
          { st' with reachableByIntents :=
              st'.reachableByIntents ++ [it.oneSideModel] } rest
termination_by (fuel, its.length + 1)

end



/-- State of the depth-first search: the per-model visit marks (0 fresh,
1 in progress, 2 complete; fresh models carry 0) and the output array. -/
structure DfsState where
  vs : Nat → Nat
  result : List Nat

mutual

/-- Embedding of the inner visit function of sortRelationGraph: the
three-color depth-first search.  A result of some (Except.error ()) is
the thrown cycle-handling error; the model is marked in progress, its
intent neighbours are visited, it is marked complete, and it is appended
to the output when the filter admits it. -/
def visitModel (g : RelGraph) (filt : Nat → Bool) (fuel : Nat)
    (st : DfsState) (model : Nat) : Option (Except Unit DfsState) :=
  match fuel with
  | 0 => none
  | fuel + 1 =>
    if st.vs model = 2 then some (.ok st)
    else if st.vs model = 1 then some (.error ())
    else
      let st1 : DfsState :=
        { st with vs := fun x => if x = model then 1 else st.vs x }
      match visitIntents g filt fuel st1 (g.intents model) with
      | none => none
      | some (.error e) => some (.error e)
      | some (.ok st2) =>
        let st3 : DfsState :=
          { st2 with vs := fun x => if x = model then 2 else st2.vs x }
        some (.ok (if filt model then
          { st3 with result := st3.result ++ [model] } else st3))
termination_by (fuel, 0)

/-- The forEach over a model's intents inside visit. -/
def visitIntents (g : RelGraph) (filt : Nat → Bool) (fuel : Nat)
    (st : DfsState) (its : List IntentRec) : Option (Except Unit DfsState) :=
  match its with
  | [] => some (.ok st)
  | it :: rest =>
    match visitModel g filt fuel st it.oneSideModel with
    | none => none
    | some (.error e) => some (.error e)
    | some (.ok st') => visitIntents g filt fuel st' rest
termination_by (fuel, its.length + 1)

end



/-- The top-level forEach that runs visit over every entry model. -/
def visitEntries (g : RelGraph) (filt : Nat → Bool) (fuel : Nat)
    (st : DfsState) (ms : List Nat) : Option (Except Unit DfsState) :=
  match ms with
  | [] => some (.ok st)
  | m :: rest =>
    match visitModel g filt fuel st m with
    | none => none
    | some (.error e) => some (.error e)
    | some (.ok st') => visitEntries g filt fuel st' rest

/-- The top-level forEach that expands every model of (a copy of) the
input list. -/
def expandEntries (g : RelGraph) (fuel : Nat) (st : ExpState)
    (ms : List Nat) : Option ExpState :=
  match ms with
  | [] => some st
  | m :: rest =>
    match expandFrom g fuel st m with
    | none => none
    | some st' => expandEntries g fuel st' rest

/-- Embedding of uniqueElements from utils.js: keep the first occurrence
of every element. -/
def uniqueElems (seen : List Nat) : List Nat → List Nat
  | [] => []
  | x :: xs =>
      if x ∈ seen then uniqueElems seen xs
      else x :: uniqueElems (seen ++ [x]) xs

/-- Embedding of sortRelationGraph.  The input array is expanded in place
across both intent directions, reduced to the models unreachable across
an intent edge, and depth-first searched; the reversed postorder, with
duplicates removed, is returned together with the final visit marks
(which persist on the models in the source).  A result of none is a
computation that exhausts the fuel (the source recursion is unguarded on
intent cycles), and some (Except.error ()) is the thrown
cycle-handling-not-implemented error. -/
def sortRelationGraph (g : RelGraph) (fuel : Nat) (models0 : List Nat)
    (vs0 : Nat → Nat) (filt : Nat → Bool) :
    Option (Except Unit (List Nat × (Nat → Nat))) :=
  match expandEntries g fuel ⟨models0, []⟩ models0 with
  | none => none
  | some st =>
    let entry := st.models.filter (fun m => m ∉ st.reachableByIntents)
    match visitEntries g filt fuel ⟨vs0, []⟩ entry with
    | none => none
    | some (.error e) => some (.error e)
    | some (.ok dfs) =>
        some (.ok (uniqueElems [] dfs.result.reverse, dfs.vs))

/-- The deferred foreign-key assignments performed by the creation loop
of Session.commit: when model m is created, every intent registered on m
assigns the (now existing) value of m's destination attribute into the
one-side model's source attribute.  The value the destination attribute
holds after m's own insert is supplied by dstVal; it is determined by m
alone (an explicitly assigned value, or the in-database generated
default). -/
def replayIntentAssignments (g : RelGraph) (dstVal : Nat → String → JSValue) :
    List Nat → List (Nat × String × JSValue)
  | [] => []
  | m :: rest =>
      (g.intents m).map (fun it =>
        (it.oneSideModel, it.sourceAttribute, dstVal m it.destinationAttribute))
      ++ replayIntentAssignments g dstVal rest

/-- The final value a foreign-key attribute holds after a sequence of
side-effect assignments: the last write wins. -/
def finalAssignment (assigns : List (Nat × String × JSValue)) (h : Nat)
    (src : String) : Option JSValue :=
  (assigns.filter (fun a => a.1 = h ∧ a.2.1 = src)).getLast?.map (·.2.2)

/-! ## Properties of the graph expansion -/

/-- The one-side models a model's intents point at: its dependents in the
creation-order graph. -/
def oneSides (g : RelGraph) (m : Nat) : List Nat :=
  (g.intents m).map (·.oneSideModel)

/-- Monotone growth between two expansion states: both accumulators are
extended by appending. -/
def ExpGrow (st st' : ExpState) : Prop :=
  (∃ t, st'.models = st.models ++ t) ∧
  (∃ t, st'.reachableByIntents = st.reachableByIntents ++ t)

/-- A model is fully processed in a state: it is registered, its inbound
neighbours are registered, and its intent targets are registered and
recorded as reachable by intents. -/
def ClosedIn (g : RelGraph) (st : ExpState) (m : Nat) : Prop :=
  m ∈ st.models ∧ (∀ a ∈ g.inbound m, a ∈ st.models) ∧
  (∀ it ∈ g.intents m, it.oneSideModel ∈ st.models ∧
    it.oneSideModel ∈ st.reachableByIntents)

/-- Reachability from a root set across inbound edges and intent edges,
in either mixture: the models the expansion discovers. -/
inductive UReach (g : RelGraph) (roots : Nat → Prop) : Nat → Prop where
  | root {m : Nat} : roots m → UReach g roots m
  | inb {m x : Nat} : UReach g roots m → x ∈ g.inbound m → UReach g roots x
  | one {m : Nat} {it : IntentRec} : UReach g roots m →
      it ∈ g.intents m → UReach g roots it.oneSideModel

/-- New reachable-by-intents entries always name an intent target of some
registered model. -/
def RbSound (g : RelGraph) (st st' : ExpState) : Prop :=
  ∀ x ∈ st'.reachableByIntents, x ∈ st.reachableByIntents ∨
    ∃ mm ∈ st'.models, x ∈ oneSides g mm

/-- New registered models are fully processed by the end of the call. -/
def ModelsSound (g : RelGraph) (st st' : ExpState) : Prop :=
  ∀ x ∈ st'.models, x ∈ st.models ∨ ClosedIn g st' x

/-- Every registered model is reachable from the roots. -/
def AllU (g : RelGraph) (roots : Nat → Prop) (st : ExpState) : Prop :=
  ∀ x ∈ st.models, UReach g roots x

/-- Postcondition bundle of expandFrom. -/
def FromHalf (g : RelGraph) (roots : Nat → Prop) (fuel : Nat) : Prop :=
  ∀ st m st', expandFrom g fuel st m = some st' →
    ExpGrow st st' ∧ ModelsSound g st st' ∧ RbSound g st st' ∧
    ClosedIn g st' m ∧
    (UReach g roots m → AllU g roots st → AllU g roots st')

/-- Postcondition bundle of expandInbound. -/
def InbHalf (g : RelGraph) (roots : Nat → Prop) (fuel : Nat) : Prop :=
  ∀ st ms st', expandInbound g fuel st ms = some st' →
    ExpGrow st st' ∧ ModelsSound g st st' ∧ RbSound g st st' ∧
    (∀ a ∈ ms, a ∈ st'.models) ∧
    ((∀ a ∈ ms, UReach g roots a) → AllU g roots st → AllU g roots st')

/-- Postcondition bundle of expandIntents. -/
def IntHalf (g : RelGraph) (roots : Nat → Prop) (fuel : Nat) : Prop :=
  ∀ st its st', expandIntents g fuel st its = some st' →
    ExpGrow st st' ∧ ModelsSound g st st' ∧
    ((∀ it ∈ its, ∃ mm ∈ st.models, it ∈ g.intents mm) →
      RbSound g st st') ∧
    (∀ it ∈ its, it.oneSideModel ∈ st'.models ∧
      it.oneSideModel ∈ st'.reachableByIntents) ∧
    ((∀ it ∈ its, UReach g roots it.oneSideModel) →
      AllU g roots st → AllU g roots st')

/-! ## Properties of the depth-first search -/

/-- Reachability along intent edges only (from a model to the one-side
models depending on it, transitively). -/
inductive IReach (g : RelGraph) (m : Nat) : Nat → Prop where
  | refl : IReach g m m
  | step {x : Nat} {it : IntentRec} : IReach g m x → it ∈ g.intents x →
      IReach g m it.oneSideModel

/-- The invariant of the depth-first search state under an all-true
filter: the completed marks are exactly the output members, the output
has no duplicates, and the output lists every model after all of its
intent targets. -/
def DfsInv (g : RelGraph) (st : DfsState) : Prop :=
  (∀ x, st.vs x = 2 ↔ x ∈ st.result) ∧
  st.result.Nodup ∧
  (∀ x ∈ st.result, ∀ it ∈ g.intents x, it.oneSideModel ∈ st.result ∧
    ∃ l1 l2, st.result = l1 ++ x :: l2 ∧ it.oneSideModel ∈ l1)

/-- Postcondition bundle of a successful visit call. -/
def VisitPost (g : RelGraph) (st st' : DfsState) (m : Nat) : Prop :=
  (∃ t, st'.result = st.result ++ t) ∧
  (∀ x, st.vs x = 2 → st'.vs x = 2) ∧
  (∀ x, st.vs x = 1 → st'.vs x = 1) ∧
  st'.vs m = 2 ∧
  (DfsInv g st → DfsInv g st') ∧
  (∀ x, st'.vs x = 2 → st.vs x = 2 ∨ IReach g m x)

/-- Postcondition bundle of a successful visit over an intent list. -/
def VisitsPost (g : RelGraph) (st st' : DfsState)
    (its : List IntentRec) : Prop :=
  (∃ t, st'.result = st.result ++ t) ∧
  (∀ x, st.vs x = 2 → st'.vs x = 2) ∧
  (∀ x, st.vs x = 1 → st'.vs x = 1) ∧
  (∀ it ∈ its, st'.vs it.oneSideModel = 2) ∧
  (DfsInv g st → DfsInv g st') ∧
  (∀ x, st'.vs x = 2 → st.vs x = 2 ∨
    ∃ it ∈ its, IReach g it.oneSideModel x)

/-! ## Determinism of the deferred foreign-key resolution -/

/-- The assignments model m contributes for a given key. -/
def ownAssignments (g : RelGraph) (dstVal : Nat → String → JSValue)
    (h : Nat) (src : String) (m : Nat) : List (Nat × String × JSValue) :=
  ((g.intents m).map (fun it => (it.oneSideModel, it.sourceAttribute,
    dstVal m it.destinationAttribute))).filter
    (fun a => a.1 = h ∧ a.2.1 = src)

/-- A two-model intent cycle: models 0 and 1 each hold a relationship
intent naming the other as the one-side. -/
def cycGraph : RelGraph where
  intents := fun m =>
    if m = 0 then [⟨1, "left_id", "id"⟩]
    else if m = 1 then [⟨0, "right_id", "id"⟩] else []
  inbound := fun m => if m = 0 then [1] else if m = 1 then [0] else []

/-! ## Entities, proxies and sessions (attributes.js, relations.js, session.js)

Entities live in a heap addressed by natural-number ids, so that
JavaScript reference identity (the identity map handing back the same
object, proxies pointing at other live objects) is modelled faithfully.
The world carries the heap together with one session; a reference to a
foreign session is representable (entities store a session id), its
contents are not, which matches the claims in scope (they all concern a
single session).

Thrown errors are modelled as a World paired with an optional error:
mutations made before a throw stay visible, as they do in the source.
Functions that can reach the unbounded sortRelationGraph recursion are
additionally wrapped in Option, none meaning fuel exhaustion. -/

/-- An attribute identity: the property key bound to its type. -/
structure AttrIdentity where
  attr : String
  ty : AttrType
  deriving Repr, DecidableEq

/-- A model schema: collection name, attribute identities, and the
designated primary key attribute. -/
structure Schema where
  collection : String
  identities : List AttrIdentity
  primaryKey : String
  deriving Repr, DecidableEq

/-- A one-side relation proxy: the foreign key (source) attribute on the
host, the destination attribute, the friend model class (by collection
name), and the sentinel-or-value state: none is unloaded, some v is
loaded with v the related entity or null. -/
structure OneProxy where
  src : String
  dst : String
  friendCollection : String
  value : Option (Option Nat)
  deriving Repr, DecidableEq

/-- One configured order component of a many-side relation: attribute
identity (key and type) plus the direction string. -/
structure OrderComp where
  attr : String
  ty : AttrType
  dir : String
  deriving Repr, DecidableEq

/-- A many-side relation proxy; none is unloaded, some l is the loaded
ordered member list. -/
structure ManyProxy where
  src : String
  dst : String
  friendCollection : String
  value : Option (List Nat)
  orderComponents : Option (List OrderComp)
  deriving Repr, DecidableEq

/-- A model instance: its schema, the per-attribute proxy values, the
dirty map (attribute to previous value), the dirtying and row-bound
flags, the owning session, the relational set (intents, inbound intent
models, ephemeral relations, cached relation proxies), and the
creation-ordering visit mark. -/
structure Entity where
  schema : Schema
  values : List (String × JSValue)
  dirty : List (String × JSValue)
  dirtying : Bool
  bound : Bool
  sessionId : Option Nat
  intents : List IntentRec
  inboundIntentModels : List Nat
  ephemeralRelations : List (Nat × String)
  ones : List OneProxy
  manys : List ManyProxy
  visitState : Nat
  deriving Repr, DecidableEq

/-- An SQL token tree node. -/
inductive Tok where
  | s (t : String)
  | v (x : JSValue)
  | g (l : List Tok)
  | f

/-- Structured storage statements, the shallow form of the SQL the query
layer emits: the insert's written values and read-back columns, and the
update and delete statements with their condition tokens. -/
inductive DbOp where
  | insertOp (collection : String) (writes : List (String × JSValue))
      (reads : List String)
  | updateOp (collection : String) (sets : List (String × JSValue))
      (conds : Option (List Tok))
  | deleteOp (collection : String) (conds : Option (List Tok))
      (returningPk : String)

/-- The storage connection: statements emitted inside the open
transaction are pending until the transaction commits and are discarded
by a rollback.  The begin, commit and rollback statements themselves are
modelled as the three transitions; the data statements go through the
per-emission oracle. -/
structure Store where
  committed : List DbOp
  pending : List DbOp
  inTx : Bool
  emitCount : Nat

/-- The behaviour of the underlying database: for the n-th emission of a
given statement, either fail (a wrapped native error) or return rows. -/
structure DbBehavior where
  run : Nat → DbOp → Except Unit (List (List (String × JSValue)))

/-- Session state: identity map from state keys to entity ids (in
insertion order), the creation and deletion work queues, the registered
collections of the parent database, and the storage connection. -/
structure SessionState where
  sid : Nat
  collections : List String
  state : List (String × Nat)
  creations : List Nat
  deletions : List Nat
  store : Store

/-- The world: the entity heap, the next fresh entity id, and the
session. -/
structure World where
  heap : Nat → Option Entity
  nextId : Nat
  sess : SessionState

/-- Emit a data statement: buffered while a transaction is open. -/
def emitOp (s : Store) (op : DbOp) : Store :=
  if s.inTx then
    { s with pending := s.pending ++ [op], emitCount := s.emitCount + 1 }
  else
    { s with committed := s.committed ++ [op], emitCount := s.emitCount + 1 }

/-- The begin transaction statement. -/
def txBegin (s : Store) : Store := { s with inTx := true, pending := [] }

/-- The rollback statement: pending effects are discarded. -/
def txRollback (s : Store) : Store := { s with inTx := false, pending := [] }

/-- The commit statement: pending effects become durable. -/
def txCommit (s : Store) : Store :=
  { s with
    inTx := false
    committed := s.committed ++ s.pending
    pending := [] }

/-- Read an attribute proxy value; attributes never assigned hold the
initial value null. -/
def Entity.getVal (e : Entity) (a : String) : JSValue :=
  match e.values.lookup a with
  | some v => v
  | none => .null

/-- Write an attribute proxy value. -/
def setValList (vals : List (String × JSValue)) (a : String) (v : JSValue) :
    List (String × JSValue) :=
  if (vals.lookup a).isSome then
    vals.map (fun p => if p.1 = a then (a, v) else p)
  else vals ++ [(a, v)]

/-- Membership in the dirty map. -/
def Entity.dirtyHas (e : Entity) (a : String) : Bool :=
  (e.dirty.lookup a).isSome

/-- Look up the attribute identity a key is proxied by, if any. -/
def Entity.identityOf (e : Entity) (a : String) : Option AttrIdentity :=
  e.schema.identities.find? (fun i => i.attr = a)

/-- Update one entity in the heap. -/
def updEnt (w : World) (id : Nat) (f : Entity → Entity) : World :=
  { w with heap := fun x => if x = id then (w.heap x).map f else w.heap x }

/-- The complete model set of the session: identity-mapped models then
the staged creations. -/
def allModels (w : World) : List Nat :=
  w.sess.state.map (·.2) ++ w.sess.creations

/-- The state key of a row of a collection; generating one for a falsy
primary key value is an internal error ("state key generated for
ephemeral model"). -/
def stateKeyFor (collection : String) (pkVal : JSValue) :
    Except SagoError String :=
  if truthy pkVal then .ok (collection ++ "_" ++ jsToString pkVal)
  else .error .internalError

/-- Remove one element the way splice(indexOf(x), 1) does: the first
occurrence when present, otherwise (indexOf yields -1) the last element
of the array. -/
def jsRemoveOne (l : List Nat) (t : Nat) : List Nat :=
  if t ∈ l then l.erase t else l.dropLast

/-! ## Attribute assignment, side-effect channel (attributes.js set) -/

/-- The entity-level pre-set hook; the base Model implementation returns
the value unchanged (no model subclass behaviour is modelled). -/
def modelAttributeWillSet (_e : Entity) (_a : String) (v : JSValue) :
    JSValue := v

/-- The set() path taken for side-effect assignments (a
SideEffectAttributeAssignment wrapper): unwrap, hook, no-op on an
unchanged value, validate non-null values, first-change-wins dirty
recording, then assign, skipping all relation management (the assignment
is itself the side effect).  Assignments to a key with no attribute
identity behave as plain JavaScript property writes. -/
def attrSideEffectSet (w : World) (eid : Nat) (a : String) (v : JSValue) :
    World × Option SagoError :=
  match w.heap eid with
  | none => (w, some .internalError)
  | some e =>
    match e.identityOf a with
    | none =>
        (updEnt w eid (fun e => { e with values := setValList e.values a v }),
          none)
    | some iden =>
      let v := modelAttributeWillSet e a v
      if jsStrictEq v (e.getVal a) then (w, none)
      else
        match (if v ≠ .null then validateOrDieT iden.ty v else none) with
        | some err => (w, some err)
        | none =>
          let w :=
            if e.dirtying && !e.dirtyHas a then
              updEnt w eid (fun e =>
                { e with dirty := e.dirty ++ [(a, e.getVal a)] })
            else w
          (updEnt w eid (fun e =>
            { e with values := setValList e.values a v }), none)

/-! ## Relation proxy machinery (relations.js) -/

/-- findOnModel for one-side proxies: match by friend class and, when
given, by foreign key attribute; more than one match is an ambiguity
error, none is null. -/
def findOneProxy (e : Entity) (friendCollection : String)
    (fkAttr : Option String) : Except SagoError (Option Nat) :=
  let found := e.ones.enum.filter (fun p =>
    p.2.friendCollection = friendCollection &&
      (fkAttr.elim true (fun a => p.2.src = a)))
  if found.length > 1 then .error .schemaError
  else .ok (found.head?.map (·.1))

/-- findOnModel for many-side proxies. -/
def findManyProxy (e : Entity) (friendCollection : String)
    (fkAttr : Option String) : Except SagoError (Option Nat) :=
  let found := e.manys.enum.filter (fun p =>
    p.2.friendCollection = friendCollection &&
      (fkAttr.elim true (fun a => p.2.src = a)))
  if found.length > 1 then .error .schemaError
  else .ok (found.head?.map (·.1))

/-- Update the one-side proxy at an index of an entity. -/
def updOneProxy (w : World) (eid idx : Nat) (f : OneProxy → OneProxy) :
    World :=
  updEnt w eid (fun e =>
    { e with ones := e.ones.enum.map (fun p =>
        if p.1 = idx then f p.2 else p.2) })

/-- Update the many-side proxy at an index of an entity. -/
def updManyProxy (w : World) (eid idx : Nat) (f : ManyProxy → ManyProxy) :
    World :=
  updEnt w eid (fun e =>
    { e with manys := e.manys.enum.map (fun p =>
        if p.1 = idx then f p.2 else p.2) })

/-- The multi-key comparator of ManySideRelationProxy resort: the
components are evaluated left to right, the per-key comparison comes
from the attribute type, a descending component negates it, and the
first non-zero value is returned. -/
def compareModels (w : World) (comps : List OrderComp) (a b : Nat) : Int :=
  match comps with
  | [] => 0
  | c :: rest =>
    let va := ((w.heap a).map (·.getVal c.attr)).getD .null
    let vb := ((w.heap b).map (·.getVal c.attr)).getD .null
    let v := compareValuesT c.ty va vb
    let v := if c.dir = "desc" then -v else v
    if v > 0 ∨ v < 0 then v else compareModels w rest a b

/-- The in-place re-sort of a loaded many-side value per the configured
order (a stable sort with the comparator above; no order configured means
nothing to do). -/
def resortMany (w : World) (eid idx : Nat) : World :=
  match w.heap eid with
  | none => w
  | some e =>
    match e.manys.get? idx with
    | none => w
    | some p =>
      match p.orderComponents with
      | none => w
      | some comps =>
        match p.value with
        | none => w
        | some l =>
          updManyProxy w eid idx (fun p =>
            { p with value := some (l.mergeSort
                (fun a b => compareModels w comps a b ≤ 0)) })

/-- setAsSideEffect on a one-side proxy: skipped when the relation is
unloaded unless the force flag is set. -/
def oneSetAsSideEffect (w : World) (eid idx : Nat) (v : Option Nat)
    (force : Bool) : World :=
  match w.heap eid with
  | none => w
  | some e =>
    match e.ones.get? idx with
    | none => w
    | some p =>
      if p.value.isNone && !force then w
      else updOneProxy w eid idx (fun p => { p with value := some v })

/-- removeAsSideEffect on a many-side proxy: skipped when unloaded. -/
def manyRemoveAsSideEffect (w : World) (eid idx : Nat) (t : Nat) : World :=
  match w.heap eid with
  | none => w
  | some e =>
    match e.manys.get? idx with
    | none => w
    | some p =>
      match p.value with
      | none => w
      | some l => updManyProxy w eid idx (fun p =>
          { p with value := some (jsRemoveOne l t) })

/-- pushAsSideEffect on a many-side proxy: skipped when unloaded,
otherwise append and re-sort. -/
def manyPushAsSideEffect (w : World) (eid idx : Nat) (t : Nat) : World :=
  match w.heap eid with
  | none => w
  | some e =>
    match e.manys.get? idx with
    | none => w
    | some p =>
      match p.value with
      | none => w
      | some l =>
        resortMany (updManyProxy w eid idx (fun p =>
          { p with value := some (l ++ [t]) })) eid idx

/-- findRemoteSideOn for a one-side proxy: the loaded many-side proxy of
the same edge on the given model (unloaded ones only when requested). -/
def findRemoteManyOn (w : World) (target : Nat) (hostCollection : String)
    (src : String) (ifUnloaded : Bool) : Except SagoError (Option Nat) :=
  match w.heap target with
  | none => .ok none
  | some te =>
    match findManyProxy te hostCollection (some src) with
    | .error e => .error e
    | .ok none => .ok none
    | .ok (some idx) =>
      match te.manys.get? idx with
      | none => .ok none
      | some p =>
        if p.value.isNone && !ifUnloaded then .ok none else .ok (some idx)

/-- findRemoteSideOn for a many-side proxy: the loaded one-side proxy of
the same edge on the given model. -/
def findRemoteOneOn (w : World) (target : Nat) (hostCollection : String)
    (src : String) (ifUnloaded : Bool) : Except SagoError (Option Nat) :=
  match w.heap target with
  | none => .ok none
  | some te =>
    match findOneProxy te hostCollection (some src) with
    | .error e => .error e
    | .ok none => .ok none
    | .ok (some idx) =>
      match te.ones.get? idx with
      | none => .ok none
      | some p =>
        if p.value.isNone && !ifUnloaded then .ok none else .ok (some idx)

/-- Read an attribute of a heap entity (null when absent). -/
def getAttrW (w : World) (m : Nat) (a : String) : JSValue :=
  ((w.heap m).map (·.getVal a)).getD .null

/-- setupForeignKeyBetween: with no destination value yet, register a
relationship intent on the many side and the inbound link on the one
side; otherwise assign the foreign key through the side-effect channel
and record the ephemeral relation on the many side. -/
def setupForeignKeyBetween (w : World) (oneSideId manySideId : Nat)
    (src dst : String) : World × Option SagoError :=
  match w.heap oneSideId, w.heap manySideId with
  | some oe, some me =>
    if oe.sessionId.isSome && me.sessionId.isSome &&
        oe.sessionId != me.sessionId then
      (w, some .modelStateError)
    else if jsStrictEq (me.getVal dst) .null then
      let w := updEnt w manySideId (fun e =>
        { e with intents := e.intents ++ [⟨oneSideId, src, dst⟩] })
      let w := updEnt w oneSideId (fun e =>
        { e with inboundIntentModels := e.inboundIntentModels ++ [manySideId] })
      (w, none)
    else
      match attrSideEffectSet w oneSideId src (me.getVal dst) with
      | (w, some err) => (w, some err)
      | (w, none) =>
        (updEnt w manySideId (fun e =>
          { e with ephemeralRelations :=
              e.ephemeralRelations ++ [(oneSideId, src)] }), none)
  | _, _ => (w, some .internalError)

/-- maybeRemoveFromRemoteSide of a one-side proxy: when it is loaded
with a model, remove the host from that model's loaded remote many-side
view. -/
def maybeRemoveFromRemoteSide (w : World) (hostId idx : Nat) :
    World × Option SagoError :=
  match w.heap hostId with
  | none => (w, some .internalError)
  | some e =>
    match e.ones.get? idx with
    | none => (w, some .internalError)
    | some p =>
      match p.value with
      | none => (w, none)
      | some none => (w, none)
      | some (some vid) =>
        match findRemoteManyOn w vid e.schema.collection p.src false with
        | .error err => (w, some err)
        | .ok none => (w, none)
        | .ok (some ridx) => (manyRemoveAsSideEffect w vid ridx hostId, none)

/-- The projection of the heap that sortRelationGraph operates on. -/
def heapGraph (w : World) : RelGraph where
  intents := fun m => ((w.heap m).map (·.intents)).getD []
  inbound := fun m => ((w.heap m).map (·.inboundIntentModels)).getD []

/-- Error-short-circuiting fold: a thrown error aborts the iteration but
keeps all mutations made before it. -/
def foldErr (f : World → α → World × Option SagoError) :
    World → List α → World × Option SagoError
  | w, [] => (w, none)
  | w, x :: rest =>
    match f w x with
    | (w, some e) => (w, some e)
    | (w, none) => foldErr f w rest

/-- Fueled variant of the error-short-circuiting fold. -/
def foldErrF (f : World → α → Option (World × Option SagoError)) :
    World → List α → Option (World × Option SagoError)
  | w, [] => some (w, none)
  | w, x :: rest =>
    match f w x with
    | none => none
    | some (w, some e) => some (w, some e)
    | some (w, none) => foldErrF f w rest

/-- The per-model binding step of Session.add: check the collection is
registered and the model free or already owned, take ownership, and
cancel any scheduled deletion. -/
def heapAddStep (w : World) (m : Nat) : World × Option SagoError :=
  match w.heap m with
  | none => (w, some .internalError)
  | some e =>
    if e.schema.collection ∉ w.sess.collections then
      (w, some .modelStateError)
    else if e.sessionId.isSome && e.sessionId != some w.sess.sid then
      (w, some .modelStateError)
    else
      let w := updEnt w m (fun e =>
        { e with sessionId := some w.sess.sid })
      if m ∈ w.sess.deletions then
        ({ w with sess := { w.sess with
            deletions := w.sess.deletions.erase m } }, none)
      else (w, none)

/-- Session.add: expand and topologically sort the relational forest of
the input set (the visit marks persist on the models), then bind each
resulting model to this session, cancel any scheduled deletion for it,
and schedule the whole set for creation. -/
def heapAdd (fuel : Nat) (w : World) (ids : List Nat) :
    Option (World × Option SagoError) :=
  match sortRelationGraph (heapGraph w) fuel ids
      (fun m => ((w.heap m).map (·.visitState)).getD 0)
      (fun m => ((w.heap m).map (fun e =>
        !e.bound || decide (m ∈ w.sess.deletions))).getD false) with
  | none => none
  | some (.error _) => some (w, some .internalError)
  | some (.ok (sorted, vsF)) =>
    let w : World :=
      { w with heap := fun x => (w.heap x).map (fun e =>
          { e with visitState := vsF x }) }
    match foldErr heapAddStep w sorted with
    | (w, some err) => some (w, some err)
    | (w, none) =>
      some ({ w with sess := { w.sess with
        creations := uniqueElems [] (w.sess.creations ++ sorted) } }, none)

/-- The per-model step of maybeJoinSession: a model already in a session
must be in the found one, a session-less model is added to it. -/
def maybeJoinStep (fuel : Nat) (s : Nat) (w : World) (m : Nat) :
    Option (World × Option SagoError) :=
  match ((w.heap m).map (·.sessionId)).getD none with
  | some s' =>
      if s' ≠ s then some (w, some .modelStateError)
      else some (w, none)
  | none =>
    if s = w.sess.sid then heapAdd fuel w [m]
    else some (w, some .internalError)

/-- maybeJoinSession: find the first session among the given models (the
host first); every model already in a session must be in that one, and
session-less models are added to it. -/
def maybeJoinSession (fuel : Nat) (w : World) (ids : List Nat) :
    Option (World × Option SagoError) :=
  let sessionFound := (ids.filterMap (fun m =>
    ((w.heap m).map (·.sessionId)).getD none)).head?
  match sessionFound with
  | none => some (w, none)
  | some s =>
    foldErrF (maybeJoinStep fuel s) w ids

/-- OneSideRelationProxy.set: requires the view loaded (except during
ephemeral construction), no-ops on an unchanged target, detaches the
host from its previous remote side, and either couples to the new model
(foreign key link, value update, push onto the loaded remote many-side,
session join) or tears the relation down to null. -/
def oneSet (fuel : Nat) (w : World) (hostId idx : Nat)
    (target : Option Nat) (asConstruction : Bool) :
    Option (World × Option SagoError) :=
  match w.heap hostId with
  | none => some (w, some .internalError)
  | some e =>
    match e.ones.get? idx with
    | none => some (w, some .internalError)
    | some p =>
      if !asConstruction && p.value.isNone then
        some (w, some .modelStateError)
      else if p.value = some target then some (w, none)
      else
        match maybeRemoveFromRemoteSide w hostId idx with
        | (w, some err) => some (w, some err)
        | (w, none) =>
          match target with
          | some tid =>
            match w.heap tid with
            | none => some (w, some .schemaError)
            | some te =>
              if te.schema.collection ≠ p.friendCollection then
                some (w, some .schemaError)
              else if e.sessionId.isSome && te.sessionId.isSome &&
                  e.sessionId != te.sessionId then
                some (w, some .modelStateError)
              else
                match setupForeignKeyBetween w hostId tid p.src p.dst with
                | (w, some err) => some (w, some err)
                | (w, none) =>
                  let w := updOneProxy w hostId idx (fun p =>
                    { p with value := some (some tid) })
                  match findRemoteManyOn w tid e.schema.collection p.src
                      false with
                  | .error err => some (w, some err)
                  | .ok ridx =>
                    let w := match ridx with
                      | some ridx => manyPushAsSideEffect w tid ridx hostId
                      | none => w
                    maybeJoinSession fuel w [hostId, tid]
          | none =>
            match attrSideEffectSet w hostId p.src .null with
            | (w, some err) => some (w, some err)
            | (w, none) =>
              some (updOneProxy w hostId idx (fun p =>
                { p with value := some none }), none)

/-- AttributeProxy.set for a public (non-side-effect) assignment: hook,
no-op on an unchanged value, validation, first-change-wins dirty
recording; a non-foreign-key attribute then stores the value, while a
foreign-key attribute with a loaded one-side view delegates to the
view's own set (repointing it when the new value resolves to an
in-session model, forcing it unloaded otherwise), and in every other
foreign-key case returns without storing the value. -/
def attrSet (fuel : Nat) (w : World) (eid : Nat) (a : String) (v : JSValue) :
    Option (World × Option SagoError) :=
  match w.heap eid with
  | none => some (w, some .internalError)
  | some e =>
    match e.identityOf a with
    | none =>
        some (updEnt w eid (fun e =>
          { e with values := setValList e.values a v }), none)
    | some iden =>
      let v := modelAttributeWillSet e a v
      if jsStrictEq v (e.getVal a) then some (w, none)
      else
        match (if v ≠ .null then validateOrDieT iden.ty v else none) with
        | some err => some (w, some err)
        | none =>
          let w :=
            if e.dirtying && !e.dirtyHas a then
              updEnt w eid (fun e =>
                { e with dirty := e.dirty ++ [(a, e.getVal a)] })
            else w
          if !iden.ty.isFK then
            some (updEnt w eid (fun e =>
              { e with values := setValList e.values a v }), none)
          else
            match iden.ty.fkDest with
            | none => some (w, some .internalError)
            | some (destColl, destAttr) =>
              match findOneProxy e destColl (some a) with
              | .error err => some (w, some err)
              | .ok optIdx =>
                let loaded := optIdx.elim false (fun idx =>
                  ((e.ones.get? idx).map (fun p => p.value.isSome)).getD false)
                match optIdx, loaded with
                | some idx, true =>
                  if truthy v then
                    match e.sessionId with
                    | none => some (w, some .typeError)
                    | some s =>
                      if s ≠ w.sess.sid then some (w, some .internalError)
                      else
                        match ((allModels w).filter (fun m =>
                            jsLooseEq (getAttrW w m destAttr) v)).head? with
                        | some mid => oneSet fuel w eid idx (some mid) false
                        | none =>
                          match maybeRemoveFromRemoteSide w eid idx with
                          | (w, some err) => some (w, some err)
                          | (w, none) =>
                            some (updOneProxy w eid idx (fun p =>
                              { p with value := none }), none)
                  else oneSet fuel w eid idx none false
                | _, _ => some (w, none)

/-- The one-side models related to a many-side model, discovered from
ephemeral relations or from assigned foreign keys directed at it. -/
def oneSideModelsForManySideModel (w : World) (mid : Nat) : List Nat :=
  match w.heap mid with
  | none => []
  | some me =>
    (allModels w).filter (fun m =>
      me.ephemeralRelations.any (fun r => r.1 = m) ||
      (match w.heap m with
       | none => false
       | some e => e.schema.identities.any (fun iden =>
           iden.ty.isFK &&
           (match iden.ty.fkDest with
            | some (dcoll, dattr) =>
                dcoll = me.schema.collection &&
                jsLooseEq (e.getVal iden.attr) (me.getVal dattr)
            | none => false))))

/-- Deletion side effects across one one-side proxy of the deleted
model: update the loaded remote many-side, then clear the near side and
the true foreign key value. -/
def applyDelOneStep (mid : Nat) (w : World) (i : Nat) :
    World × Option SagoError :=
  match w.heap mid with
  | none => (w, some .internalError)
  | some e =>
    match e.ones.get? i with
    | none => (w, some .internalError)
    | some p =>
      let removed : World × Option SagoError :=
        match p.value with
        | some (some rid) =>
          match findRemoteManyOn w rid e.schema.collection p.src false with
          | .error err => (w, some err)
          | .ok none => (w, none)
          | .ok (some ridx) => (manyRemoveAsSideEffect w rid ridx mid, none)
        | _ => (w, none)
      match removed with
      | (w, some err) => (w, some err)
      | (w, none) =>
        let w := oneSetAsSideEffect w mid i none true
        attrSideEffectSet w mid p.src .null

/-- Deletion side effects across one many-side proxy of the deleted
model: detach every related model (loaded members, or the discovered
one-side models when the view is unloaded), clearing remote one-sides
and foreign keys. -/
def applyDelManyStep (mid : Nat) (w : World) (i : Nat) :
    World × Option SagoError :=
  match w.heap mid with
  | none => (w, some .internalError)
  | some e =>
    match e.manys.get? i with
    | none => (w, some .internalError)
    | some p =>
      let relatedModels :=
        match p.value with
        | some l => l
        | none => oneSideModelsForManySideModel w mid
      foldErr (fun w rm =>
        let w := manyRemoveAsSideEffect w mid i rm
        match w.heap mid with
        | none => (w, some .internalError)
        | some e2 =>
          match findRemoteOneOn w rm e2.schema.collection p.src false with
          | .error err => (w, some err)
          | .ok none => attrSideEffectSet w rm p.src .null
          | .ok (some ridx) =>
            let w := oneSetAsSideEffect w rm ridx none false
            attrSideEffectSet w rm p.src .null) w relatedModels

/-- applyRelationalDeletionSideEffects: tear down both directions of
every relation view of the model. -/
def applyRelationalDeletionSideEffects (w : World) (mid : Nat) :
    World × Option SagoError :=
  match w.heap mid with
  | none => (w, some .internalError)
  | some e =>
    match foldErr (applyDelOneStep mid) w (List.range e.ones.length) with
    | (w, some err) => (w, some err)
    | (w, none) =>
      foldErr (applyDelManyStep mid) w (List.range e.manys.length)

/-- Session.delete: for each model, assert it belongs to this session,
apply the relational teardown immediately, detach it from the session,
and either schedule the store-level delete (bound model, removed from
the identity map) or cancel its scheduled creation (ephemeral model).
The kept models join the deletion queue. -/
def sessionDeleteLoop (w : World) : List Nat → List Nat →
    (World × List Nat) × Option SagoError
  | [], kept => ((w, kept), none)
  | m :: rest, kept =>
    match w.heap m with
    | none => ((w, kept), some .internalError)
    | some e =>
      if e.sessionId ≠ some w.sess.sid then
        ((w, kept), some .modelStateError)
      else
        match applyRelationalDeletionSideEffects w m with
        | (w, some err) => ((w, kept), some err)
        | (w, none) =>
          let w := updEnt w m (fun e => { e with sessionId := none })
          match w.heap m with
          | none => ((w, kept), some .internalError)
          | some e2 =>
            if e2.bound then
              match stateKeyFor e2.schema.collection
                  (e2.getVal e2.schema.primaryKey) with
              | .error err => ((w, kept), some err)
              | .ok key =>
                let w : World := { w with sess := { w.sess with
                  state := w.sess.state.filter (fun p => p.1 ≠ key) } }
                sessionDeleteLoop w rest (kept ++ [m])
            else
              let w : World := { w with sess := { w.sess with
                creations := jsRemoveOne w.sess.creations m } }
              sessionDeleteLoop w rest kept

/-- Session.delete itself. -/
def sessionDelete (w : World) (ids : List Nat) :
    World × Option SagoError :=
  match sessionDeleteLoop w ids [] with
  | ((w, kept), some err) => (w, some err)
  | ((w, kept), none) =>
    ({ w with sess := { w.sess with
      deletions := uniqueElems [] (w.sess.deletions ++ kept) } }, none)

/-- enforceAttributeExistance: every non-nullable attribute holding null
must be excused by an in-database default (creations only), or be a
foreign key with a pending relationship intent. -/
def enforceAttributeExistance (w : World) (mid : Nat)
    (forCreate : Bool) : Option SagoError :=
  match w.heap mid with
  | none => some .internalError
  | some e =>
    let rec loop : List AttrIdentity → Option SagoError := fun l =>
      match l with
      | [] => none
      | iden :: rest =>
        if iden.ty.nullable || !(jsStrictEq (e.getVal iden.attr) .null) then
          loop rest
        else if forCreate && iden.ty.dbDefault.isSome then loop rest
        else if !iden.ty.isFK then some .attributeValueError
        else
          let intentExists := e.inboundIntentModels.any (fun ms =>
            (((w.heap ms).map (·.intents)).getD []).any (fun it =>
              it.oneSideModel = mid && it.sourceAttribute = iden.attr))
          if intentExists then loop rest
          else some .relationalAttributeError
    loop e.schema.identities

/-- A model class: the schema plus the relation proxy declarations its
instances construct (source, destination, friend collection, and for
many-sides the configured order). -/
structure ModelClass where
  schema : Schema
  onesTemplate : List (String × String × String)
  manysTemplate : List (String × String × String × Option (List OrderComp))

/-- Reconstruct a fresh instance of a model class for a session: every
attribute proxy starts at null, dirtying is active from construction
(the source never disables it in the constructor), the instance is
row-bound to the session, and every relation proxy of a session-bound
host initializes unloaded. -/
def freshEntity (M : ModelClass) (sid : Nat) : Entity where
  schema := M.schema
  values := []
  dirty := []
  dirtying := true
  bound := true
  sessionId := some sid
  intents := []
  inboundIntentModels := []
  ephemeralRelations := []
  ones := M.onesTemplate.map (fun t => ⟨t.1, t.2.1, t.2.2, none⟩)
  manys := M.manysTemplate.map (fun t => ⟨t.1, t.2.1, t.2.2.1, none, t.2.2.2⟩)
  visitState := 0

/-- loadOneSideRelationsForModel: initialize every one-side relation of
a freshly reconstructed model whose destination value is null (to the
null relation) or resolves to exactly one loaded in-session model. -/
def loadOneSideRelationsForModel (w : World) (mid : Nat) : World :=
  match w.heap mid with
  | none => w
  | some e =>
    (List.range e.ones.length).foldl (fun w i =>
      match w.heap mid with
      | none => w
      | some e =>
        match e.ones.get? i with
        | none => w
        | some p =>
          let destinationValue := e.getVal p.src
          if jsStrictEq destinationValue .null then
            oneSetAsSideEffect w mid i none true
          else
            let found := (allModels w).filter (fun om =>
              (((w.heap om).map (fun oe =>
                oe.schema.collection = p.friendCollection &&
                jsLooseEq (oe.getVal p.dst) destinationValue)).getD false))
            if found.length = 1 then
              match found.head? with
              | some target => oneSetAsSideEffect w mid i (some target) true
              | none => w
            else w) w

/-- Session resolveModel: an already loaded row refreshes the existing
instance in place, skipping locally dirty attributes and firing the
hydration hook; otherwise a new instance is reconstructed from the row,
registered under its state key, and its one-side relations are
initialized. -/
def resolveModel (fuel : Nat) (w : World) (M : ModelClass)
    (row : List (String × JSValue)) :
    Option (World × Except SagoError Nat) :=
  let pkVal := (row.lookup M.schema.primaryKey).getD .null
  match stateKeyFor M.schema.collection pkVal with
  | .error err => some (w, .error err)
  | .ok key =>
    match w.sess.state.lookup key with
    | some mid =>
      let w := updEnt w mid (fun e => { e with dirtying := false })
      match foldErrF (fun w p =>
          match w.heap mid with
          | none => some (w, some .internalError)
          | some e =>
            if e.dirtyHas p.1 then some (w, none)
            else attrSet fuel w mid p.1 p.2) w row with
      | none => none
      | some (w, some err) => some (w, .error err)
      | some (w, none) =>
        let w := updEnt w mid (fun e => { e with dirtying := true })
        some (w, .ok mid)
    | none =>
      let mid := w.nextId
      let w : World := { w with
        heap := fun x => if x = mid then some (freshEntity M w.sess.sid)
          else w.heap x
        nextId := w.nextId + 1 }
      match foldErr (fun w p =>
          if M.schema.identities.any (fun iden => iden.attr = p.1) then
            attrSideEffectSet w mid p.1 p.2
          else (w, some .attributeKeyError)) w row with
      | (w, some err) => some (w, .error err)
      | (w, none) =>
        let w : World := { w with sess := { w.sess with
          state := w.sess.state ++ [(key, mid)] } }
        let w := loadOneSideRelationsForModel w mid
        some (w, .ok mid)

/-! ## The query builder (query.js)

The SQL token trees a query accumulates: literal fragments, parameter
values (FormatValue wrappers), nested groups, and falsy entries (dropped
at token-processing time); return columns are modelled by their
attribute names. -/

/-- The essence of a query, accumulated by chaining. -/
structure QEssence where
  conditions : Option (List Tok) := none
  modifiers : List Tok := []
  returns : Option (List String) := none

/-- A query object: host schema, essence, and the one-of modifier
flags. -/
structure QueryState where
  schema : Schema
  essence : QEssence := {}
  hasOrder : Bool := false
  hasLimit : Bool := false

/-- A value of a where-condition template: a plain value or a
comparator-value pair. -/
inductive CondVal where
  | plain (v : JSValue)
  | cmp (c : String) (v : JSValue)
  deriving Repr, DecidableEq

/-- The reduce inside Query.where: resolve each attribute against the
schema, validate the value, rewrite null comparisons, and produce the
condition tokens separated by the conjunctive. -/
def whereTokens (schema : Schema) (conjunctive : String) :
    Nat → List (String × CondVal) → Except SagoError (List Tok)
  | _, [] => .ok []
  | remaining, (attr, cv) :: rest =>
    match schema.identities.find? (fun i => i.attr = attr) with
    | none => .error .schemaError
    | some iden =>
      let (comparator, value) :=
        match cv with
        | .plain v => ("=", v)
        | .cmp c v => (c, v)
      match validateOrDieT iden.ty value with
      | some err => .error err
      | none =>
        let rewritten : Except SagoError String :=
          if value = .null then
            if comparator = "is" || comparator = "=" then .ok "is"
            else if comparator = "is not" || comparator = "!=" then
              .ok "is not"
            else .error .parameterError
          else .ok comparator
        match rewritten with
        | .error err => .error err
        | .ok comparator =>
          match whereTokens schema conjunctive (remaining - 1) rest with
          | .error err => .error err
          | .ok toks =>
            .ok ([Tok.s attr, Tok.s comparator, Tok.v value,
              if remaining > 1 then Tok.s conjunctive else Tok.f] ++ toks)

/-- Query.where: validate the conjunctive and the template, then nest
the produced tokens next to the existing conditions.  The receiver
itself is mutated and returned (mutateEssence assigns this.essence and
returns this). -/
def whereQ (q : QueryState) (template : List (String × CondVal))
    (conjunctive : String) : QueryState × Option SagoError :=
  if conjunctive ≠ "and" ∧ conjunctive ≠ "or" then (q, some .queryError)
  else
    match whereTokens q.schema conjunctive template.length template with
    | .error err => (q, some err)
    | .ok added =>
      let oldBoxed : Tok :=
        match q.essence.conditions with
        | none => Tok.f
        | some l => Tok.g l
      ({ q with essence := { q.essence with
          conditions := some [oldBoxed, Tok.g added] } }, none)

/-- Query.order with a resolved component list (the internal-caller
form); a null template removes any order, otherwise the one-order lock
is taken before the components are used. -/
def orderQ (q : QueryState) (template : Option (List (String × String))) :
    QueryState × Option SagoError :=
  match template with
  | none =>
    let q := { q with hasOrder := false }
    ({ q with essence := { q.essence with
        modifiers := q.essence.modifiers.filter (fun m =>
          match m with
          | Tok.g (Tok.s t :: _) => t ≠ "order by"
          | _ => true) } }, none)
  | some comps =>
    if q.hasOrder then (q, some .queryError)
    else
      let q := { q with hasOrder := true }
      let resolved : Except SagoError (List Tok) :=
        comps.foldr (fun c acc =>
          match acc with
          | .error err => .error err
          | .ok toks =>
            if (q.schema.identities.find? (fun i => i.attr = c.1)).isNone then
              .error .parameterError
            else if c.2 ≠ "asc" ∧ c.2 ≠ "desc" then .error .parameterError
            else .ok (Tok.s c.1 :: Tok.s c.2 :: toks)) (.ok [])
      match resolved with
      | .error err => (q, some err)
      | .ok ordering =>
        ({ q with essence := { q.essence with
            modifiers := q.essence.modifiers ++
              [Tok.g (Tok.s "order by" :: ordering)] } }, none)

/-- Query.limit: the one-limit lock is taken before the value is
checked, so an invalid limit still marks the receiver limited. -/
def limitQ (q : QueryState) (n : JSValue) : QueryState × Option SagoError :=
  if q.hasLimit then (q, some .queryError)
  else
    let q := { q with hasLimit := true }
    match n with
    | .num x =>
        if x < 0 then (q, some .queryError)
        else ({ q with essence := { q.essence with
            modifiers := q.essence.modifiers ++
              [Tok.g [Tok.s "limit", Tok.v n]] } }, none)
    | _ => (q, some .queryError)

/-- Query.return: resolve every attribute reference and record the
requested return columns. -/
def returnQ (q : QueryState) (attrs : List String) :
    QueryState × Option SagoError :=
  if attrs.all (fun a =>
      (q.schema.identities.find? (fun i => i.attr = a)).isSome) then
    ({ q with essence := { q.essence with returns := some attrs } }, none)
  else (q, some .schemaError)

/-- Emit a statement through the session cursor against the database
behaviour: the statement joins the open transaction's pending set and
the oracle decides failure (a wrapped native error) or the returned
rows. -/
def runEmit (w : World) (db : DbBehavior) (op : DbOp) :
    World × Except SagoError (List (List (String × JSValue))) :=
  let n := w.sess.store.emitCount
  let w : World :=
    { w with sess := { w.sess with store := emitOp w.sess.store op } }
  match db.run n op with
  | .error _ => (w, .error .nativeQueryError)
  | .ok rows => (w, .ok rows)

/-- Template validation shared by Query.update and Query.insert: every
attribute must resolve in the host schema and its value must
validate. -/
def validateTemplate (schema : Schema) :
    List (String × JSValue) → Option SagoError
  | [] => none
  | (attr, v) :: rest =>
    match schema.identities.find? (fun i => i.attr = attr) with
    | none => some .schemaError
    | some iden =>
      match validateOrDieT iden.ty v with
      | some err => some err
      | none => validateTemplate schema rest

/-- Query.insert: validate the row template, check the essence carries
nothing but return columns, emit, and hand back the first returned row
or null (modelled as none). -/
def queryInsert (w : World) (db : DbBehavior) (q : QueryState)
    (rowTemplate : List (String × JSValue)) :
    World × Except SagoError (Option (List (String × JSValue))) :=
  match validateTemplate q.schema rowTemplate with
  | some err => (w, .error err)
  | none =>
    if q.essence.conditions.isSome || !q.essence.modifiers.isEmpty then
      (w, .error .queryError)
    else
      match runEmit w db (.insertOp q.schema.collection rowTemplate
          ((q.essence.returns).getD [])) with
      | (w, .error err) => (w, .error err)
      | (w, .ok rows) => (w, .ok rows.head?)

/-- Query.update: validate the update template, check the essence, and
emit the update with the accumulated conditions. -/
def queryUpdate (w : World) (db : DbBehavior) (q : QueryState)
    (updateTemplate : List (String × JSValue)) :
    World × Option SagoError :=
  match validateTemplate q.schema updateTemplate with
  | some err => (w, some err)
  | none =>
    if !q.essence.modifiers.isEmpty then (w, some .queryError)
    else
      match runEmit w db (.updateOp q.schema.collection updateTemplate
          q.essence.conditions) with
      | (w, .error err) => (w, some err)
      | (w, .ok _) => (w, none)

/-- Query.delete with side-effect application suppressed (the form the
session's own deletion pipeline uses): check the essence and emit,
returning the primary key of every deleted row. -/
def queryDeleteNoSideEffects (w : World) (db : DbBehavior) (q : QueryState) :
    World × Option SagoError :=
  if !q.essence.modifiers.isEmpty then (w, some .queryError)
  else
    match runEmit w db (.deleteOp q.schema.collection q.essence.conditions
        q.schema.primaryKey) with
    | (w, .error err) => (w, some err)
    | (w, .ok _) => (w, none)

/-! ## The session emit pipeline (session.js) -/

/-- Register a model under a state key (overwriting semantics of a
JavaScript object property assignment). -/
def stateSet (st : List (String × Nat)) (k : String) (v : Nat) :
    List (String × Nat) :=
  if (st.lookup k).isSome then
    st.map (fun p => if p.1 = k then (k, v) else p)
  else st ++ [(k, v)]

/-- emitModelUpdate: nothing to do without dirty attributes; otherwise
enforce non-null constraints, emit one update covering exactly the dirty
attributes keyed by primary key, and clear the dirty set. -/
def emitModelUpdate (w : World) (db : DbBehavior) (mid : Nat) :
    World × Option SagoError :=
  match w.heap mid with
  | none => (w, some .internalError)
  | some e =>
    let dirtyAttrs := e.dirty.map (·.1)
    if dirtyAttrs = [] then (w, none)
    else
      match enforceAttributeExistance w mid false with
      | some err => (w, some err)
      | none =>
        let write := dirtyAttrs.map (fun a => (a, e.getVal a))
        let q0 : QueryState := { schema := e.schema }
        match whereQ q0 [(e.schema.primaryKey,
            .plain (e.getVal e.schema.primaryKey))] "and" with
        | (_, some err) => (w, some err)
        | (q1, none) =>
          match queryUpdate w db q1 write with
          | (w, some err) => (w, some err)
          | (w, none) =>
            (updEnt w mid (fun e =>
              { e with dirty := e.dirty.filter (fun p =>
                  p.1 ∉ dirtyAttrs) }), none)

/-- emitModelCreate: enforce constraints, partition the attributes into
explicitly set (written) and defaulted (read back), insert, merge the
returned values onto the model, clear the dirty set, register and bind
the model, satisfy its registered relationship intents through the
side-effect channel, and reset its relational set. -/
def emitModelCreate (fuel : Nat) (w : World) (db : DbBehavior) (mid : Nat) :
    Option (World × Option SagoError) :=
  match w.heap mid with
  | none => some (w, some .internalError)
  | some e =>
    match enforceAttributeExistance w mid true with
    | some err => some (w, some err)
    | none =>
      let reads := (e.schema.identities.filter (fun iden =>
        !e.dirtyHas iden.attr)).map (·.attr)
      let writes := (e.schema.identities.filter (fun iden =>
        e.dirtyHas iden.attr)).map (fun iden => (iden.attr,
          e.getVal iden.attr))
      let q0 : QueryState := { schema := e.schema }
      match returnQ q0 reads with
      | (_, some err) => some (w, some err)
      | (q1, none) =>
        match queryInsert w db q1 writes with
        | (w, .error err) => some (w, some err)
        | (w, .ok none) => some (w, some .typeError)
        | (w, .ok (some returned)) =>
          match foldErrF (fun w p => attrSet fuel w mid p.1 p.2) w
              returned with
          | none => none
          | some (w, some err) => some (w, some err)
          | some (w, none) =>
            let w := updEnt w mid (fun e => { e with dirty := [] })
            match w.heap mid with
            | none => some (w, some .internalError)
            | some e2 =>
              match stateKeyFor e2.schema.collection
                  (e2.getVal e2.schema.primaryKey) with
              | .error err => some (w, some err)
              | .ok key =>
                let w : World := { w with sess := { w.sess with
                  state := stateSet w.sess.state key mid } }
                let w := updEnt w mid (fun e => { e with bound := true })
                match w.heap mid with
                | none => some (w, some .internalError)
                | some e3 =>
                  match foldErr (fun w it =>
                      attrSideEffectSet w it.oneSideModel
                        it.sourceAttribute
                        (getAttrW w mid it.destinationAttribute)) w
                      e3.intents with
                  | (w, some err) => some (w, some err)
                  | (w, none) =>
                    some (updEnt w mid (fun e => { e with
                      intents := []
                      inboundIntentModels := []
                      ephemeralRelations := [] }), none)

/-- emitModelDelete: unregister and unbind the model, emit the delete
keyed by primary key with side-effect application suppressed, then
apply the relational deletion side effects explicitly. -/
def emitModelDelete (w : World) (db : DbBehavior) (mid : Nat) :
    World × Option SagoError :=
  match w.heap mid with
  | none => (w, some .internalError)
  | some e =>
    match stateKeyFor e.schema.collection (e.getVal e.schema.primaryKey) with
    | .error err => (w, some err)
    | .ok key =>
      let w : World := { w with sess := { w.sess with
        state := w.sess.state.filter (fun p => p.1 ≠ key) } }
      let w := updEnt w mid (fun e => { e with bound := false })
      let q0 : QueryState := { schema := e.schema }
      match whereQ q0 [(e.schema.primaryKey,
          .plain (getAttrW w mid e.schema.primaryKey))] "and" with
      | (_, some err) => (w, some err)
      | (q1, none) =>
        match queryDeleteNoSideEffects w db q1 with
        | (w, some err) => (w, some err)
        | (w, none) => applyRelationalDeletionSideEffects w mid

/-- Session.commit: open one transaction; emit the creations in
dependency order, then the eager updates of one-side models referencing
about-to-be-deleted models, then the deletions, then the updates of the
remaining identity-mapped models; any failure rolls the transaction back
and re-raises the error, and only on success is the transaction
committed and are the two work queues cleared. -/
def commitSession (fuel : Nat) (w : World) (db : DbBehavior) :
    Option (World × Option SagoError) :=
  let w : World :=
    { w with sess := { w.sess with store := txBegin w.sess.store } }
  let body : Option (World × Option SagoError) :=
    match foldErrF (fun w m => emitModelCreate fuel w db m) w
        w.sess.creations with
    | none => none
    | some (w, some err) => some (w, some err)
    | some (w, none) =>
      let eagerUpdateSet := (w.sess.deletions.map (fun m =>
        oneSideModelsForManySideModel w m)).flatten
      match foldErr (fun w m => emitModelUpdate w db m) w eagerUpdateSet with
      | (w, some err) => some (w, some err)
      | (w, none) =>
        match foldErr (fun w m => emitModelDelete w db m) w
            w.sess.deletions with
        | (w, some err) => some (w, some err)
        | (w, none) =>
          let updateSet := w.sess.state.map (·.2)
          some (foldErr (fun w m => emitModelUpdate w db m) w updateSet)
  match body with
  | none => none
  | some (w, some err) =>
    some ({ w with sess := { w.sess with
      store := txRollback w.sess.store } }, some err)
  | some (w, none) =>
    let w : World :=
      { w with sess := { w.sess with store := txCommit w.sess.store } }
    some ({ w with sess := { w.sess with creations := [], deletions := [] } },
      none)

def c7UuidType : AttrType :=
  { kind := .uuidT
    pk := true
    dbDefault := some "uuid_generate_v4()" }

/-- The name attribute type of the deleted entity. -/
def c7NameType : AttrType :=
  { kind := .strT
    length := some 40 }

/-- The schema of the entity that is deleted and then written to. -/
def c7Schema : Schema :=
  { collection := "ingredient_types"
    identities := [⟨"id", c7UuidType⟩, ⟨"name", c7NameType⟩]
    primaryKey := "id" }

/-- A bound, session-attached entity. -/
def c7Entity : Entity :=
  { schema := c7Schema
    values := [("id", .str "aaaabbbbccccddddeeeeffff00001111"),
               ("name", .str "fish")]
    dirty := []
    dirtying := true
    bound := true
    sessionId := some 7
    intents := []
    inboundIntentModels := []
    ephemeralRelations := []
    ones := []
    manys := []
    visitState := 0 }

/-- A world whose session holds that entity in its identity map. -/
def c7World : World :=
  { heap := fun x => if x = 1 then some c7Entity else none
    nextId := 2
    sess := { sid := 7
              collections := ["ingredient_types"]
              state := [("ingredient_types_aaaabbbbccccddddeeeeffff00001111",
                1)]
              creations := []
              deletions := []
              store := { committed := []
                         pending := []
                         inTx := false
                         emitCount := 0 } } }

/-- The claim's quantification domain for the round-trip property,
following the specification's words: a value in the native
representation of the type that the type accepts (for datetime, a Date
holding a real instant). -/
def validNativeValue (t : AttrType) (v : JSValue) : Prop :=
  match t.kind, v with
  | .base nt, _ => typeofStr v = nt ∧ validateT t v = true
  | .strT, .str _ => validateT t v = true
  | .uuidT, .str _ => validateT t v = true
  | .datetimeT, .date d => validDate d = true
  | _, _ => False

/-- A real instant at the end of a leap-year February used to exercise
the round trip. -/
def c9Date : DateRec := ⟨2020, 2, 29, 23, 59, 59, 999⟩

/-- The stock datetime attribute type. -/
def c9Type : AttrType := { kind := .datetimeT }

/-- The 36-character UUID format, per the specification's words. -/
def is36UuidFormat (s : String) : Prop :=
  s.data.length = 36 ∧ s.data.all isHexDashChar = true

/-- The 32-character UUID format, per the specification's words. -/
def is32UuidFormat (s : String) : Prop :=
  s.data.length = 32 ∧ s.data.all isHexChar = true

/-- The stock uuid attribute type. -/
def c10Type : AttrType := { kind := .uuidT }

/-- Native-representation mismatch, per the specification's words: the
value's JavaScript type differs from the declared native type of the
attribute. -/
def nativeMismatch (t : AttrType) (v : JSValue) : Prop :=
  match t.kind with
  | .base nt => typeofStr v ≠ nt
  | .strT => typeofStr v ≠ "string"
  | .uuidT => typeofStr v ≠ "string"
  | .datetimeT => ∀ d, v ≠ .date d

/-- A non-nullable integer attribute and an entity carrying it. -/
def c5Type : AttrType := { kind := .base "number" }

/-- Schema with one non-nullable, non-foreign-key integer attribute. -/
def c5Schema : Schema :=
  { collection := "counters"
    identities := [⟨"count", c5Type⟩]
    primaryKey := "count" }

def c5Entity : Entity :=
  { schema := c5Schema
    values := [("count", .num 3)]
    dirty := []
    dirtying := true
    bound := true
    sessionId := some 0
    intents := []
    inboundIntentModels := []
    ephemeralRelations := []
    ones := []
    manys := []
    visitState := 0 }

def c5World : World :=
  { heap := fun x => if x = 1 then some c5Entity else none
    nextId := 2
    sess := { sid := 0
              collections := ["counters"]
              state := [("counters_3", 1)]
              creations := []
              deletions := []
              store := { committed := []
                         pending := []
                         inTx := false
                         emitCount := 0 } } }

/-! ## C8: the many-side re-sort comparator -/

/-- The comparator the specification describes, in its own words: a
per-key comparison that yields 0 on equal values so that ties fall
through to the next order component, with a total tie yielding 0
(stability).  Declared only to be compared against the comparator
translated from the source. -/
def specCompareValues (a b : JSValue) : Int :=
  if a = b then 0 else if jsGt a b then 1 else -1

/-- The multi-key model comparator the specification describes: evaluate
components left to right, short-circuit at the first non-zero per-key
result, return 0 on a total tie. -/
def specCompareModels (w : World) (comps : List OrderComp) (a b : Nat) :
    Int :=
  match comps with
  | [] => 0
  | c :: rest =>
    let va := ((w.heap a).map (fun e => e.getVal c.attr)).getD .null
    let vb := ((w.heap b).map (fun e => e.getVal c.attr)).getD .null
    let v := specCompareValues va vb
    let v := if c.dir = "desc" then -v else v
    if v ≠ 0 then v else specCompareModels w rest a b

/-- A number-typed attribute used by the comparator counterexample. -/
def c8TypeN : AttrType := { kind := .base "number" }

/-- Schema with two number attributes x and y. -/
def c8Schema : Schema :=
  { collection := "points"
    identities := [⟨"x", c8TypeN⟩, ⟨"y", c8TypeN⟩]
    primaryKey := "x" }

/-- Two order components: by x ascending, then by y ascending. -/
def c8Comps : List OrderComp :=
  [⟨"x", c8TypeN, "asc"⟩, ⟨"y", c8TypeN, "asc"⟩]

/-- A member entity with x equal to 1 and y equal to 1. -/
def c8EntA : Entity :=
  { schema := c8Schema
    values := [("x", .num 1), ("y", .num 1)]
    dirty := []
    dirtying := true
    bound := true
    sessionId := some 0
    intents := []
    inboundIntentModels := []
    ephemeralRelations := []
    ones := []
    manys := []
    visitState := 0 }

/-- A member entity with x equal to 1 and y equal to 2 (tied with the
first entity on the leading order component, differing on the second). -/
def c8EntB : Entity :=
  { c8EntA with values := [("x", .num 1), ("y", .num 2)] }

/-- A world holding the two member entities at ids 1 and 2. -/
def c8World : World :=
  { heap := fun n =>
      if n = 1 then some c8EntA else if n = 2 then some c8EntB else none
    nextId := 3
    sess := { sid := 0
              collections := ["points"]
              state := []
              creations := []
              deletions := []
              store := { committed := []
                         pending := []
                         inTx := false
                         emitCount := 0 } } }

/-! ## C6: query builder chaining -/

/-- A heap of query objects: JavaScript queries are handled by
reference, so a handle to a query is an index into this store. -/
abbrev QStore := Nat → Option QueryState

/-- Query.where through a handle: run where on the referenced query and
store the result back under the same index, returning that index
(mutateEssence reassigns this.essence on the receiver and returns this,
so the query that comes back is the receiver itself). -/
def storeWhere (st : QStore) (qid : Nat) (t : List (String × CondVal))
    (conj : String) : QStore × Nat × Option SagoError :=
  match st qid with
  | none => (st, qid, some .internalError)
  | some q =>
    let r := whereQ q t conj
    (fun i => if i = qid then some r.1 else st i, qid, r.2)

/-- Query.order through a handle, updating the receiver in place. -/
def storeOrder (st : QStore) (qid : Nat)
    (t : Option (List (String × String))) :
    QStore × Nat × Option SagoError :=
  match st qid with
  | none => (st, qid, some .internalError)
  | some q =>
    let r := orderQ q t
    (fun i => if i = qid then some r.1 else st i, qid, r.2)

/-- Query.limit through a handle, updating the receiver in place. -/
def storeLimit (st : QStore) (qid : Nat) (n : JSValue) :
    QStore × Nat × Option SagoError :=
  match st qid with
  | none => (st, qid, some .internalError)
  | some q =>
    let r := limitQ q n
    (fun i => if i = qid then some r.1 else st i, qid, r.2)

/-- Query.return through a handle, updating the receiver in place. -/
def storeReturn (st : QStore) (qid : Nat) (rets : List String) :
    QStore × Nat × Option SagoError :=
  match st qid with
  | none => (st, qid, some .internalError)
  | some q =>
    let r := returnQ q rets
    (fun i => if i = qid then some r.1 else st i, qid, r.2)

/-- A number-typed attribute for the query counterexample. -/
def c6Type : AttrType := { kind := .base "number" }

/-- A one-attribute schema hosting the query. -/
def c6Schema : Schema :=
  { collection := "things"
    identities := [⟨"x", c6Type⟩]
    primaryKey := "x" }

/-- A freshly constructed query on that schema: empty essence, no
one-of flags taken. -/
def c6Q0 : QueryState := { schema := c6Schema }

/-- A store holding the fresh query under handle 0. -/
def c6Store : QStore := fun i => if i = 0 then some c6Q0 else none

/-! ## C4: public assignment to a foreign-key attribute -/

/-- The world after the dirty-recording step of a public set(): under
first-change-wins, when the model is dirtying and the attribute is not
yet dirty, the previous value is recorded. -/
def c4DirtyWorld (w : World) (eid : Nat) (a : String) (e : Entity) :
    World :=
  if e.dirtying && !e.dirtyHas a then
    updEnt w eid (fun e2 =>
      { e2 with dirty := e2.dirty ++ [(a, e2.getVal a)] })
  else w

/-- The parents primary-key attribute. -/
def c4ParentType : AttrType := { kind := .base "number", pk := true }

/-- The childs primary-key attribute. -/
def c4ChildIdType : AttrType := { kind := .base "number", pk := true }

/-- The childs foreign-key attribute pointing at parents.id. -/
def c4FkType : AttrType :=
  { kind := .base "number"
    nullable := true
    fkDest := some ("parents", "id") }

/-- The parents schema. -/
def c4ParentSchema : Schema :=
  { collection := "parents"
    identities := [⟨"id", c4ParentType⟩]
    primaryKey := "id" }

/-- The childs schema. -/
def c4ChildSchema : Schema :=
  { collection := "childs"
    identities := [⟨"id", c4ChildIdType⟩, ⟨"parent_id", c4FkType⟩]
    primaryKey := "id" }

/-- A child whose foreign key currently holds 5 and whose one-side
relation view is loaded, pointing at the parent. -/
def c4Child : Entity :=
  { schema := c4ChildSchema
    values := [("id", .num 10), ("parent_id", .num 5)]
    dirty := []
    dirtying := true
    bound := true
    sessionId := some 0
    intents := []
    inboundIntentModels := []
    ephemeralRelations := []
    ones := [⟨"parent_id", "id", "parents", some (some 2)⟩]
    manys := []
    visitState := 0 }

/-- The parent row with primary key 5. -/
def c4Parent : Entity :=
  { schema := c4ParentSchema
    values := [("id", .num 5)]
    dirty := []
    dirtying := true
    bound := true
    sessionId := some 0
    intents := []
    inboundIntentModels := []
    ephemeralRelations := []
    ones := []
    manys := []
    visitState := 0 }

/-- A world with the child at 1 and the parent at 2, both in the
session's identity map. -/
def c4World : World :=
  { heap := fun x =>
      if x = 1 then some c4Child
      else if x = 2 then some c4Parent else none
    nextId := 3
    sess := { sid := 0
              collections := ["parents", "childs"]
              state := [("parents_5", 2), ("childs_10", 1)]
              creations := []
              deletions := []
              store := { committed := []
                         pending := []
                         inTx := false
                         emitCount := 0 } } }

/-! ## C3: the identity-map refresh -/

/-- The childs primary-key attribute of the refresh counterexample. -/
def c3IdType : AttrType := { kind := .base "number", pk := true }

/-- The childs foreign-key attribute of the refresh counterexample. -/
def c3FkType : AttrType :=
  { kind := .base "number"
    nullable := true
    fkDest := some ("parents", "id") }

/-- The childs schema of the refresh counterexample. -/
def c3Schema : Schema :=
  { collection := "childs"
    identities := [⟨"id", c3IdType⟩, ⟨"parent_id", c3FkType⟩]
    primaryKey := "id" }

/-- The childs model class (no relation proxy templates, so the
one-side view of the foreign key is absent). -/
def c3M : ModelClass :=
  { schema := c3Schema
    onesTemplate := []
    manysTemplate := [] }

/-- The already-loaded child instance: clean (nothing dirty), foreign
key 5, no relation proxies. -/
def c3Child : Entity :=
  { schema := c3Schema
    values := [("id", .num 10), ("parent_id", .num 5)]
    dirty := []
    dirtying := true
    bound := true
    sessionId := some 0
    intents := []
    inboundIntentModels := []
    ephemeralRelations := []
    ones := []
    manys := []
    visitState := 0 }

/-- A world whose session's identity map already holds the child. -/
def c3World : World :=
  { heap := fun x => if x = 1 then some c3Child else none
    nextId := 2
    sess := { sid := 0
              collections := ["childs"]
              state := [("childs_10", 1)]
              creations := []
              deletions := []
              store := { committed := []
                         pending := []
                         inTx := false
                         emitCount := 0 } } }

/-- The child with its primary-key attribute overwritten in memory
(recorded in the dirty map). -/
def c3DirtyChild : Entity := { c3Child with dirty := [("id", .num 3)] }

/-- The refresh-witness world holding the dirty child. -/
def c3DirtyWorld : World :=
  { c3World with heap := fun x => if x = 1 then some c3DirtyChild
      else none }

/-! ## C1: commit atomicity and step order -/

/-- The storage-effect summary of one commit step made inside the open
transaction: committed statements and the transaction flag are
untouched, and the step only appends pending statements. -/
def StoreExt (s t : Store) : Prop :=
  t.committed = s.committed ∧ t.inTx = s.inTx ∧
    ∃ l, t.pending = s.pending ++ l

/-- A database oracle that accepts every statement and returns no
rows. -/
def c1Db : DbBehavior := ⟨fun _ _ => .ok []⟩

/-- An empty session world for the commit witness. -/
def c1World : World :=
  { heap := fun _ => none
    nextId := 0
    sess := { sid := 0
              collections := []
              state := []
              creations := []
              deletions := []
              store := { committed := []
                         pending := []
                         inTx := false
                         emitCount := 0 } } }

/-- The world a successful commit of the empty session produces. -/
def c1Out : World :=
  match commitSession 1 c1World c1Db with
  | some (u, _) => u
  | none => c1World

/-! ## C2: creation ordering, determinism, and the cycle behaviour -/

/-- The acyclic witness graph: model 0 carries one intent whose
one-side (foreign-key holder) is model 1. -/
def c2Graph : RelGraph where
  intents := fun m => if m = 0 then [⟨1, "parent_id", "id"⟩] else []
  inbound := fun m => if m = 1 then [0] else []

/-- A rank decreasing along the witness graph's intent edges. -/
def c2Rank : Nat → Nat := fun m => m

/-- Destination values for the replayed assignments of the witness. -/
def c2DstVal : Nat → String → JSValue := fun m _ => .num m

/-- The sort run on the input order 0 then 1. -/
def c2Run1 : Option (Except Unit (List Nat × (Nat → Nat))) :=
  sortRelationGraph c2Graph 10 [0, 1] (fun _ => 0) (fun _ => true)

/-- The sort run on the reversed input order 1 then 0. -/
def c2Run2 : Option (Except Unit (List Nat × (Nat → Nat))) :=
  sortRelationGraph c2Graph 10 [1, 0] (fun _ => 0) (fun _ => true)

/-- Two many-side models (0 and 2) each holding an intent that targets
the same foreign key, model 1's parent_id: the duplicated-owner graph a
re-assigned one-side relation leaves behind, since stale intents are
never removed. -/
def c2DupGraph : RelGraph where
  intents := fun m =>
    if m = 0 then [⟨1, "parent_id", "id"⟩]
    else if m = 2 then [⟨1, "parent_id", "id"⟩] else []
  inbound := fun m => if m = 1 then [0, 2] else []

/-- The duplicated-owner sort run on the input order 0 then 2. -/
def c2DupRun1 : Option (Except Unit (List Nat × (Nat → Nat))) :=
  sortRelationGraph c2DupGraph 10 [0, 2] (fun _ => 0) (fun _ => true)

/-- The duplicated-owner sort run on the input order 2 then 0. -/
def c2DupRun2 : Option (Except Unit (List Nat × (Nat → Nat))) :=
  sortRelationGraph c2DupGraph 10 [2, 0] (fun _ => 0) (fun _ => true)

/-- Rendering a digit always yields a digit character. -/
theorem digitChar_isDigit (n : Nat) : (digitChar (n % 10)).isDigit = true := by
  have h : n % 10 < 10 := Nat.mod_lt _ (by omega)
  interval_cases h' : n % 10 <;> rfl

/-- Reading back a rendered digit recovers it. -/
theorem digitVal_digitChar (n : Nat) : digitVal (digitChar (n % 10)) = n % 10 := by
  have h : n % 10 < 10 := Nat.mod_lt _ (by omega)
  interval_cases h' : n % 10 <;> rfl

theorem parseISO_formatISO (d : DateRec) (h : validDate d = true) :
    parseISO (formatISO d) = some d := by
  have hb : d.year ≤ 9999 ∧ 1 ≤ d.month ∧ d.month ≤ 12 ∧ 1 ≤ d.day ∧
      d.day ≤ daysInMonth d.year d.month ∧ d.hour ≤ 23 ∧ d.minute ≤ 59 ∧
      d.second ≤ 59 ∧ d.milli ≤ 999 := by
    simp only [validDate, Bool.and_eq_true, decide_eq_true_eq] at h
    tauto
  simp only [formatISO, pad4, pad2, pad3, List.cons_append, List.nil_append,
    List.append_assoc]
  simp only [parseISO]
  simp only [List.all_cons, List.all_nil, digitChar_isDigit, Bool.and_self,
    Bool.and_true, if_true]
  obtain ⟨h1, h2, h3, h4, h5, h6, h7, h8, h9⟩ := hb
  have e1 : digitVal (digitChar (d.year / 1000 % 10)) * 1000 +
      digitVal (digitChar (d.year / 100 % 10)) * 100 +
      digitVal (digitChar (d.year / 10 % 10)) * 10 +
      digitVal (digitChar (d.year % 10)) = d.year := by
    rw [digitVal_digitChar, digitVal_digitChar, digitVal_digitChar,
      digitVal_digitChar]
    omega
  have hdm : daysInMonth d.year d.month ≤ 31 := by
    unfold daysInMonth
    repeat' split
    all_goals omega
  have emonth : digitVal (digitChar (d.month / 10 % 10)) * 10 +
      digitVal (digitChar (d.month % 10)) = d.month := by
    rw [digitVal_digitChar, digitVal_digitChar]
    omega
  have eday : digitVal (digitChar (d.day / 10 % 10)) * 10 +
      digitVal (digitChar (d.day % 10)) = d.day := by
    rw [digitVal_digitChar, digitVal_digitChar]
    omega
  have ehour : digitVal (digitChar (d.hour / 10 % 10)) * 10 +
      digitVal (digitChar (d.hour % 10)) = d.hour := by
    rw [digitVal_digitChar, digitVal_digitChar]
    omega
  have eminute : digitVal (digitChar (d.minute / 10 % 10)) * 10 +
      digitVal (digitChar (d.minute % 10)) = d.minute := by
    rw [digitVal_digitChar, digitVal_digitChar]
    omega
  have esecond : digitVal (digitChar (d.second / 10 % 10)) * 10 +
      digitVal (digitChar (d.second % 10)) = d.second := by
    rw [digitVal_digitChar, digitVal_digitChar]
    omega
  have emilli : digitVal (digitChar (d.milli / 100 % 10)) * 100 +
      digitVal (digitChar (d.milli / 10 % 10)) * 10 +
      digitVal (digitChar (d.milli % 10)) = d.milli := by
    rw [digitVal_digitChar, digitVal_digitChar, digitVal_digitChar]
    omega
  simp only [e1, emonth, eday, ehour, eminute, esecond, emilli]
  show (if validDate d = true then some d else none) = some d
  rw [h]
  simp

theorem expGrow_refl (st : ExpState) : ExpGrow st st :=
  ⟨⟨[], by simp⟩, ⟨[], by simp⟩⟩

theorem expGrow_trans {a b c : ExpState} (h1 : ExpGrow a b)
    (h2 : ExpGrow b c) : ExpGrow a c := by
  obtain ⟨⟨t1, ht1⟩, ⟨u1, hu1⟩⟩ := h1
  obtain ⟨⟨t2, ht2⟩, ⟨u2, hu2⟩⟩ := h2
  exact ⟨⟨t1 ++ t2, by rw [ht2, ht1, List.append_assoc]⟩,
    ⟨u1 ++ u2, by rw [hu2, hu1, List.append_assoc]⟩⟩

theorem expGrow_models_mem {a b : ExpState} (h : ExpGrow a b) {x : Nat}
    (hx : x ∈ a.models) : x ∈ b.models := by
  obtain ⟨⟨t, ht⟩, _⟩ := h
  rw [ht]; exact List.mem_append_left _ hx

theorem expGrow_rb_mem {a b : ExpState} (h : ExpGrow a b) {x : Nat}
    (hx : x ∈ a.reachableByIntents) : x ∈ b.reachableByIntents := by
  obtain ⟨_, ⟨t, ht⟩⟩ := h
  rw [ht]; exact List.mem_append_left _ hx

theorem closedIn_mono {g : RelGraph} {a b : ExpState} {m : Nat}
    (h : ClosedIn g a m) (hg : ExpGrow a b) : ClosedIn g b m := by
  obtain ⟨h1, h2, h3⟩ := h
  exact ⟨expGrow_models_mem hg h1, fun x hx => expGrow_models_mem hg (h2 x hx),
    fun it hit => ⟨expGrow_models_mem hg (h3 it hit).1,
      expGrow_rb_mem hg (h3 it hit).2⟩⟩

theorem modelsSound_comp {g : RelGraph} {a b c : ExpState}
    (h1 : ModelsSound g a b) (h2 : ModelsSound g b c) (hg : ExpGrow b c) :
    ModelsSound g a c := by
  intro x hx
  rcases h2 x hx with hb | hcl
  · rcases h1 x hb with ha | hcl
    · exact Or.inl ha
    · exact Or.inr (closedIn_mono hcl hg)
  · exact Or.inr hcl

theorem rbSound_comp {g : RelGraph} {a b c : ExpState}
    (h1 : RbSound g a b) (h2 : RbSound g b c) (hg : ExpGrow b c) :
    RbSound g a c := by
  intro x hx
  rcases h2 x hx with hb | ⟨mm, hmm, hx2⟩
  · rcases h1 x hb with ha | ⟨mm, hmm, hx2⟩
    · exact Or.inl ha
    · exact Or.inr ⟨mm, expGrow_models_mem hg hmm, hx2⟩
  · exact Or.inr ⟨mm, hmm, hx2⟩

theorem expand_inb_of_from {g : RelGraph} {roots : Nat → Prop} {fuel : Nat}
    (hfrom : FromHalf g roots fuel) : InbHalf g roots fuel := by
  intro st ms
  induction ms generalizing st with
  | nil =>
    intro st' h
    simp only [expandInbound] at h
    cases h
    exact ⟨expGrow_refl _, fun x hx => Or.inl hx, fun x hx => Or.inl hx,
      by simp, fun _ hU => hU⟩
  | cons a rest ih =>
    intro st' h
    simp only [expandInbound] at h
    by_cases ha : a ∈ st.models
    · simp only [ha, if_true] at h
      obtain ⟨hg, hms, hrb, hpres, hU⟩ := ih st st' h
      exact ⟨hg, hms, hrb,
        fun b hb => by
          rcases List.mem_cons.mp hb with rfl | hb
          · exact expGrow_models_mem hg ha
          · exact hpres b hb,
        fun hall hAll => hU (fun b hb => hall b (List.mem_cons_of_mem _ hb))
          hAll⟩
    · simp only [ha, if_false] at h
      rcases hf : expandFrom g fuel st a with _ | stA
      · rw [hf] at h; cases h
      · rw [hf] at h
        dsimp only at h
        obtain ⟨hg1, hms1, hrb1, hcl1, hU1⟩ := hfrom st a stA hf
        obtain ⟨hg2, hms2, hrb2, hpres2, hU2⟩ := ih stA st' h
        refine ⟨expGrow_trans hg1 hg2, modelsSound_comp hms1 hms2 hg2,
          rbSound_comp hrb1 hrb2 hg2, ?_, ?_⟩
        · intro b hb
          rcases List.mem_cons.mp hb with rfl | hb
          · exact expGrow_models_mem hg2 hcl1.1
          · exact hpres2 b hb
        · intro hall hAll
          exact hU2 (fun b hb => hall b (List.mem_cons_of_mem _ hb))
            (hU1 (hall a (List.mem_cons_self a rest)) hAll)

theorem expand_int_of_from {g : RelGraph} {roots : Nat → Prop} {fuel : Nat}
    (hfrom : FromHalf g roots fuel) : IntHalf g roots fuel := by
  intro st its
  induction its generalizing st with
  | nil =>
    intro st' h
    simp only [expandIntents] at h
    cases h
    exact ⟨expGrow_refl _, fun x hx => Or.inl hx,
      fun _ x hx => Or.inl hx, by simp, fun _ hU => hU⟩
  | cons it rest ih =>
    intro st' h
    simp only [expandIntents] at h
    rcases hf : expandFrom g fuel st it.oneSideModel with _ | stA
    · rw [hf] at h; cases h
    · rw [hf] at h
      dsimp only at h
      obtain ⟨hg1, hms1, hrb1, hcl1, hU1⟩ := hfrom st it.oneSideModel stA hf
      set stB : ExpState :=
        { stA with reachableByIntents :=
            stA.reachableByIntents ++ [it.oneSideModel] } with hstB
      have hgAB : ExpGrow stA stB :=
        ⟨⟨[], by simp [hstB]⟩, ⟨[it.oneSideModel], by simp [hstB]⟩⟩
      obtain ⟨hg2, hms2, hrb2, hpres2, hU2⟩ := ih stB st' h
      have hgrow : ExpGrow st st' :=
        expGrow_trans hg1 (expGrow_trans hgAB hg2)
      have hmodelsAB : ModelsSound g stA stB := fun x hx => Or.inl hx
      refine ⟨hgrow,
        modelsSound_comp hms1 (modelsSound_comp hmodelsAB hms2 hg2)
          (expGrow_trans hgAB hg2), ?_, ?_, ?_⟩
      · intro hown
        have hownB : ∀ it' ∈ rest, ∃ mm ∈ stB.models, it' ∈ g.intents mm := by
          intro it' hit'
          obtain ⟨mm, hmm, hin⟩ := hown it' (List.mem_cons_of_mem _ hit')
          exact ⟨mm, expGrow_models_mem (expGrow_trans hg1 hgAB) hmm, hin⟩
        intro x hx
        rcases hrb2 hownB x hx with hB | ⟨mm, hmm, hx2⟩
        · have hBrb : x ∈ stA.reachableByIntents ++ [it.oneSideModel] := hB
          rcases List.mem_append.mp hBrb with hA | hone
          · rcases hrb1 x hA with hst | ⟨mm, hmm, hx2⟩
            · exact Or.inl hst
            · exact Or.inr ⟨mm,
                expGrow_models_mem (expGrow_trans hgAB hg2) hmm, hx2⟩
          · have hx1 : x = it.oneSideModel := by simpa using hone
            obtain ⟨mm, hmm, hin⟩ := hown it (List.mem_cons_self it rest)
            refine Or.inr ⟨mm, expGrow_models_mem hgrow hmm, ?_⟩
            rw [hx1]
            exact List.mem_map.mpr ⟨it, hin, rfl⟩
        · exact Or.inr ⟨mm, hmm, hx2⟩
      · intro it' hit'
        rcases List.mem_cons.mp hit' with rfl | hit'
        · refine ⟨expGrow_models_mem (expGrow_trans hgAB hg2) hcl1.1, ?_⟩
          exact expGrow_rb_mem hg2 (by simp [hstB])
        · exact hpres2 it' hit'
      · intro hall hAll
        exact hU2 (fun it' hit' => hall it' (List.mem_cons_of_mem _ hit'))
          (hU1 (hall it (List.mem_cons_self it rest)) hAll)

theorem expand_from_succ {g : RelGraph} {roots : Nat → Prop} {fuel : Nat}
    (hinb : InbHalf g roots fuel) (hint : IntHalf g roots fuel) :
    FromHalf g roots (fuel + 1) := by
  intro st m st' h
  simp only [expandFrom] at h
  set st1 : ExpState :=
    (if m ∈ st.models then st else { st with models := st.models ++ [m] })
    with hst1
  have hg01 : ExpGrow st st1 := by
    by_cases hm : m ∈ st.models
    · simp only [hst1, hm, if_true]; exact expGrow_refl st
    · simp only [hst1, hm, if_false]
      exact ⟨⟨[m], rfl⟩, ⟨[], by simp⟩⟩
  have hm1 : m ∈ st1.models := by
    by_cases hm : m ∈ st.models <;> simp [hst1, hm]
  rcases hi : expandInbound g fuel st1 (g.inbound m) with _ | st2
  · rw [hi] at h; cases h
  · rw [hi] at h
    dsimp only at h
    obtain ⟨hg1, hms1, hrb1, hpres1, hU1⟩ := hinb st1 (g.inbound m) st2 hi
    obtain ⟨hg2, hms2, hrb2cond, hpres2, hU2⟩ := hint st2 (g.intents m) st' h
    have hgrow : ExpGrow st st' := expGrow_trans hg01 (expGrow_trans hg1 hg2)
    have hclm : ClosedIn g st' m := by
      refine ⟨expGrow_models_mem (expGrow_trans hg1 hg2) hm1, ?_, hpres2⟩
      intro a ha
      exact expGrow_models_mem hg2 (hpres1 a ha)
    have hrb2 : RbSound g st2 st' := by
      refine hrb2cond ?_
      intro it hit
      exact ⟨m, expGrow_models_mem hg1 hm1, hit⟩
    refine ⟨hgrow, ?_, ?_, hclm, ?_⟩
    · intro x hx
      rcases hms2 x hx with hx2 | hcl
      · rcases hms1 x hx2 with hx1 | hcl
        · by_cases hm : m ∈ st.models
          · simp only [hst1, hm, if_true] at hx1
            exact Or.inl hx1
          · simp only [hst1, hm, if_false] at hx1
            rcases List.mem_append.mp hx1 with hx0 | hxm
            · exact Or.inl hx0
            · have : x = m := by simpa using hxm
              subst this
              exact Or.inr hclm
        · exact Or.inr (closedIn_mono hcl hg2)
      · exact Or.inr hcl
    · have hrb01 : st1.reachableByIntents = st.reachableByIntents := by
        by_cases hm : m ∈ st.models <;> simp [hst1, hm]
      intro x hx
      rcases hrb2 x hx with hx2 | ⟨mm, hmm, hxx⟩
      · rcases hrb1 x hx2 with hx1 | ⟨mm, hmm, hxx⟩
        · rw [hrb01] at hx1
          exact Or.inl hx1
        · exact Or.inr ⟨mm, expGrow_models_mem hg2 hmm, hxx⟩
      · exact Or.inr ⟨mm, hmm, hxx⟩
    · intro hU hAll
      have hAll1 : AllU g roots st1 := by
        intro x hx
        by_cases hm : m ∈ st.models
        · simp only [hst1, hm, if_true] at hx
          exact hAll x hx
        · simp only [hst1, hm, if_false] at hx
          rcases List.mem_append.mp hx with hx0 | hxm
          · exact hAll x hx0
          · have : x = m := by simpa using hxm
            subst this
            exact hU
      have hAll2 : AllU g roots st2 :=
        hU1 (fun a ha => UReach.inb hU ha) hAll1
      exact hU2 (fun it hit => UReach.one hU hit) hAll2

theorem expand_spec (g : RelGraph) (roots : Nat → Prop) : ∀ fuel,
    FromHalf g roots fuel ∧ InbHalf g roots fuel ∧ IntHalf g roots fuel := by
  intro fuel
  induction fuel with
  | zero =>
    have hfrom : FromHalf g roots 0 := by
      intro st m st' h
      simp [expandFrom] at h
    exact ⟨hfrom, expand_inb_of_from hfrom, expand_int_of_from hfrom⟩
  | succ fuel ih =>
    have hfrom : FromHalf g roots (fuel + 1) :=
      expand_from_succ ih.2.1 ih.2.2
    exact ⟨hfrom, expand_inb_of_from hfrom, expand_int_of_from hfrom⟩

/-- Postcondition of the top-level expansion pass: growth, soundness of
both accumulators, and full processing of every entry. -/
theorem expandEntries_spec {g : RelGraph} {roots : Nat → Prop} {fuel : Nat} :
    ∀ st ms st', expandEntries g fuel st ms = some st' →
      ExpGrow st st' ∧ ModelsSound g st st' ∧ RbSound g st st' ∧
      (∀ a ∈ ms, ClosedIn g st' a) ∧
      ((∀ a ∈ ms, UReach g roots a) → AllU g roots st → AllU g roots st') := by
  intro st ms
  induction ms generalizing st with
  | nil =>
    intro st' h
    simp only [expandEntries] at h
    cases h
    exact ⟨expGrow_refl _, fun x hx => Or.inl hx, fun x hx => Or.inl hx,
      by simp, fun _ hU => hU⟩
  | cons a rest ih =>
    intro st' h
    simp only [expandEntries] at h
    rcases hf : expandFrom g fuel st a with _ | stA
    · rw [hf] at h; cases h
    · rw [hf] at h
      dsimp only at h
      obtain ⟨hg1, hms1, hrb1, hcl1, hU1⟩ :=
        ((expand_spec g roots fuel).1 : FromHalf g roots fuel) st a stA hf
      obtain ⟨hg2, hms2, hrb2, hcl2, hU2⟩ := ih stA st' h
      refine ⟨expGrow_trans hg1 hg2, modelsSound_comp hms1 hms2 hg2,
        rbSound_comp hrb1 hrb2 hg2, ?_, ?_⟩
      · intro b hb
        rcases List.mem_cons.mp hb with rfl | hb
        · exact closedIn_mono hcl1 hg2
        · exact hcl2 b hb
      · intro hall hAll
        exact hU2 (fun b hb => hall b (List.mem_cons_of_mem _ hb))
          (hU1 (hall a (List.mem_cons_self a rest)) hAll)

/-- Characterization of a completed expansion run: the registered models
are exactly the models reachable from the input set across both edge
directions, every one of them is fully processed, and the
reachable-by-intents accumulator holds exactly the intent targets of
registered models. -/
theorem expand_characterization {g : RelGraph} {ms : List Nat} {fuel : Nat}
    {st' : ExpState} (h : expandEntries g fuel ⟨ms, []⟩ ms = some st') :
    (∀ x, x ∈ st'.models ↔ UReach g (· ∈ ms) x) ∧
    (∀ x ∈ st'.models, ClosedIn g st' x) ∧
    (∀ x, x ∈ st'.reachableByIntents ↔
      ∃ mm ∈ st'.models, x ∈ oneSides g mm) := by
  obtain ⟨hg, hms, hrb, hcl, hU⟩ :=
    @expandEntries_spec g (· ∈ ms) fuel _ _ _ h
  have hclosed : ∀ x ∈ st'.models, ClosedIn g st' x := by
    intro x hx
    rcases hms x hx with hx0 | hc
    · exact hcl x hx0
    · exact hc
  refine ⟨?_, hclosed, ?_⟩
  · intro x
    constructor
    · intro hx
      exact hU (fun a ha => UReach.root ha) (fun a ha => UReach.root ha) x hx
    · intro hr
      induction hr with
      | root hm => exact (hcl _ hm).1
      | inb hm hin ih2 => exact ((hclosed _ ih2).2.1 _ hin)
      | one hm hit ih2 => exact ((hclosed _ ih2).2.2 _ hit).1
  · intro x
    constructor
    · intro hx
      rcases hrb x hx with hx0 | hex
      · simp at hx0
      · exact hex
    · rintro ⟨mm, hmm, hx⟩
      obtain ⟨it, hit, rfl⟩ := List.mem_map.mp hx
      exact ((hclosed _ hmm).2.2 _ hit).2

theorem ireach_trans {g : RelGraph} {a b c : Nat} (h1 : IReach g a b)
    (h2 : IReach g b c) : IReach g a c := by
  induction h2 with
  | refl => exact h1
  | step hx hit ih => exact IReach.step ih hit

theorem visitsPost_of_visit {g : RelGraph} {fuel : Nat}
    (hv : ∀ st m r, visitModel g (fun _ => true) fuel st m = some (.ok r) →
      VisitPost g st r m) :
    ∀ st its r, visitIntents g (fun _ => true) fuel st its = some (.ok r) →
      VisitsPost g st r its := by
  intro st its
  induction its generalizing st with
  | nil =>
    intro r h
    simp only [visitIntents] at h
    cases h
    exact ⟨⟨[], by simp⟩, fun x hx => hx, fun x hx => hx, by simp,
      fun hi => hi, fun x hx => Or.inl hx⟩
  | cons it rest ih =>
    intro r h
    simp only [visitIntents] at h
    rcases hf : visitModel g (fun _ => true) fuel st it.oneSideModel with
      _ | er
    · rw [hf] at h; cases h
    · rw [hf] at h
      rcases er with e | stA
      · dsimp only at h; cases h
      · dsimp only at h
        obtain ⟨⟨t1, ht1⟩, h21, h11, hm1, hinv1, hsnd1⟩ := hv st _ _ hf
        obtain ⟨⟨t2, ht2⟩, h22, h12, hm2, hinv2, hsnd2⟩ := ih stA r h
        refine ⟨⟨t1 ++ t2, by rw [ht2, ht1, List.append_assoc]⟩,
          fun x hx => h22 x (h21 x hx), fun x hx => h12 x (h11 x hx),
          ?_, fun hi => hinv2 (hinv1 hi), ?_⟩
        · intro it' hit'
          rcases List.mem_cons.mp hit' with rfl | hit'
          · exact h22 _ hm1
          · exact hm2 it' hit'
        · intro x hx
          rcases hsnd2 x hx with hA | ⟨it', hit', hr⟩
          · rcases hsnd1 x hA with h0 | hr
            · exact Or.inl h0
            · exact Or.inr ⟨it, List.mem_cons_self it rest, hr⟩
          · exact Or.inr ⟨it', List.mem_cons_of_mem _ hit', hr⟩

theorem visit_ok_post (g : RelGraph) : ∀ fuel st m r,
    visitModel g (fun _ => true) fuel st m = some (.ok r) →
    VisitPost g st r m := by
  intro fuel
  induction fuel with
  | zero =>
    intro st m r h
    simp [visitModel] at h
  | succ fuel ih =>
    intro st m r h
    simp only [visitModel] at h
    by_cases h2 : st.vs m = 2
    · simp only [h2, if_true] at h
      cases h
      exact ⟨⟨[], by simp⟩, fun x hx => hx, fun x hx => hx, h2,
        fun hi => hi, fun x hx => Or.inl hx⟩
    · simp only [h2, if_false] at h
      by_cases h1 : st.vs m = 1
      · simp [h1] at h
      · simp only [h1, if_false] at h
        set st1 : DfsState :=
          { st with vs := fun x => if x = m then 1 else st.vs x } with hst1
        rcases hvi : visitIntents g (fun _ => true) fuel st1
            (g.intents m) with _ | er
        · rw [hvi] at h; cases h
        · rw [hvi] at h
          rcases er with e | st2
          · dsimp only at h; cases h
          · dsimp only at h
            simp only [Option.some.injEq, Except.ok.injEq] at h
            obtain ⟨⟨t, ht⟩, h21, h11, hmarked, hinv, hsnd⟩ :=
              visitsPost_of_visit ih st1 (g.intents m) st2 hvi
            have hvm1 : st2.vs m = 1 := h11 m (by simp [hst1])
            have hfr : r =
                { vs := fun x => if x = m then 2 else st2.vs x,
                  result := st2.result ++ [m] } := by
              rw [← h, if_pos trivial]
            subst hfr
            have hres1 : st1.result = st.result := by rw [hst1]
            refine ⟨⟨t ++ [m], ?_⟩, ?_, ?_, by simp, ?_, ?_⟩
            · show st2.result ++ [m] = st.result ++ (t ++ [m])
              rw [ht, hres1, List.append_assoc]
            · intro x hx
              show (if x = m then 2 else st2.vs x) = 2
              by_cases hxm : x = m
              · simp [hxm]
              · simp only [hxm, if_false]
                refine h21 x ?_
                show (if x = m then 1 else st.vs x) = 2
                simp [hxm, hx]
            · intro x hx
              have hxm : x ≠ m := fun he => h1 (he ▸ hx)
              show (if x = m then 2 else st2.vs x) = 1
              simp only [hxm, if_false]
              refine h11 x ?_
              show (if x = m then 1 else st.vs x) = 1
              simp [hxm, hx]
            · intro hi
              obtain ⟨hi1, hi2, hi3⟩ := hi
              have inv1 : DfsInv g st1 := by
                refine ⟨?_, by rw [hres1]; exact hi2, ?_⟩
                · intro x
                  show (if x = m then 1 else st.vs x) = 2 ↔ x ∈ st.result
                  by_cases hxm : x = m
                  · subst hxm
                    simp only [if_true, reduceIte]
                    constructor
                    · intro hc; cases hc
                    · intro hc; exact absurd ((hi1 x).mpr hc) h2
                  · simp only [hxm, if_false]
                    exact hi1 x
                · rw [hres1]; exact hi3
              obtain ⟨hj1, hj2, hj3⟩ := hinv inv1
              have hmnot : m ∉ st2.result := fun hc =>
                by rw [(hj1 m).mpr hc] at hvm1; cases hvm1
              refine ⟨?_, ?_, ?_⟩
              · intro x
                show (if x = m then 2 else st2.vs x) = 2 ↔
                  x ∈ st2.result ++ [m]
                by_cases hxm : x = m
                · subst hxm
                  simp
                · simp only [hxm, if_false, List.mem_append,
                    List.mem_singleton, hxm, or_false]
                  exact hj1 x
              · show (st2.result ++ [m]).Nodup
                simp [List.nodup_append, hj2, hmnot]
              · intro x hx it hit
                show it.oneSideModel ∈ st2.result ++ [m] ∧ _
                rcases List.mem_append.mp hx with hx2 | hxm
                · obtain ⟨hmem, l1, l2, hsplit, hin⟩ := hj3 x hx2 it hit
                  refine ⟨List.mem_append_left _ hmem, l1, l2 ++ [m], ?_, hin⟩
                  rw [hsplit, List.append_assoc]
                  simp
                · have hxm : x = m := by simpa using hxm
                  subst hxm
                  have hos : st2.vs it.oneSideModel = 2 := hmarked it hit
                  have hmem : it.oneSideModel ∈ st2.result := (hj1 _).mp hos
                  exact ⟨List.mem_append_left _ hmem, st2.result, [],
                    by simp, hmem⟩
            · intro x hx
              by_cases hxm : x = m
              · exact Or.inr (hxm ▸ IReach.refl)
              · have hx2 : st2.vs x = 2 := by
                  have : (if x = m then 2 else st2.vs x) = 2 := hx
                  simpa [hxm] using this
                rcases hsnd x hx2 with hA | ⟨it, hit, hr⟩
                · left
                  have : (if x = m then 1 else st.vs x) = 2 := hA
                  simpa [hxm] using this
                · exact Or.inr (ireach_trans (IReach.step IReach.refl hit) hr)

/-- Postcondition of the fold of visit over the entry models. -/
theorem visitEntries_post (g : RelGraph) (fuel : Nat) :
    ∀ st ms r, visitEntries g (fun _ => true) fuel st ms = some (.ok r) →
    (∀ x, st.vs x = 2 → r.vs x = 2) ∧
    (DfsInv g st → DfsInv g r) ∧
    (∀ a ∈ ms, r.vs a = 2) ∧
    (∀ x, r.vs x = 2 → st.vs x = 2 ∨ ∃ a ∈ ms, IReach g a x) := by
  intro st ms
  induction ms generalizing st with
  | nil =>
    intro r h
    simp only [visitEntries] at h
    cases h
    exact ⟨fun x hx => hx, fun hi => hi, by simp, fun x hx => Or.inl hx⟩
  | cons a rest ih =>
    intro r h
    simp only [visitEntries] at h
    rcases hf : visitModel g (fun _ => true) fuel st a with _ | er
    · rw [hf] at h; cases h
    · rw [hf] at h
      rcases er with e | stA
      · dsimp only at h; cases h
      · dsimp only at h
        obtain ⟨_, h21, _, hm1, hinv1, hsnd1⟩ := visit_ok_post g fuel st a stA hf
        obtain ⟨h22, hinv2, hm2, hsnd2⟩ := ih stA r h
        refine ⟨fun x hx => h22 x (h21 x hx), fun hi => hinv2 (hinv1 hi),
          ?_, ?_⟩
        · intro b hb
          rcases List.mem_cons.mp hb with rfl | hb
          · exact h22 _ hm1
          · exact hm2 b hb
        · intro x hx
          rcases hsnd2 x hx with hA | ⟨b, hb, hr⟩
          · rcases hsnd1 x hA with h0 | hr
            · exact Or.inl h0
            · exact Or.inr ⟨a, List.mem_cons_self a rest, hr⟩
          · exact Or.inr ⟨b, List.mem_cons_of_mem _ hb, hr⟩

/-- On a duplicate-free list disjoint from the seen set, uniqueElements is
the identity. -/
theorem uniqueElems_of_nodup :
    ∀ (l : List Nat) (seen : List Nat), l.Nodup →
      (∀ x ∈ l, x ∉ seen) → uniqueElems seen l = l := by
  intro l
  induction l with
  | nil => intro seen _ _; rfl
  | cons a rest ih =>
    intro seen hnd hdis
    have ha : a ∉ seen := hdis a (List.mem_cons_self a rest)
    simp only [uniqueElems, ha, if_false]
    congr 1
    refine ih (seen ++ [a]) (List.Nodup.of_cons hnd) ?_
    intro x hx
    simp only [List.mem_append, List.mem_singleton]
    rintro (hs | rfl)
    · exact hdis x (List.mem_cons_of_mem _ hx) hs
    · exact (List.nodup_cons.mp hnd).1 hx

/-- A model reachable along intent edges from a registered model of a
fully processed expansion state is itself registered. -/
theorem ireach_mem_of_closed {g : RelGraph} {st : ExpState}
    (hclosed : ∀ x ∈ st.models, ClosedIn g st x) {a x : Nat}
    (ha : a ∈ st.models) (hr : IReach g a x) : x ∈ st.models := by
  induction hr with
  | refl => exact ha
  | step hx hit ih => exact ((hclosed _ ih).2.2 _ hit).1

/-- Specification of a successful sortRelationGraph run over fresh models
with the all-true filter (the shape Session.add uses for a batch of
purely ephemeral models): the output has no duplicates, lists exactly the
models reachable from the input set, and places every model strictly
before all one-side models that its intents point at.  The rank function
witnesses acyclicity of the intent graph. -/
theorem sort_ok_spec (g : RelGraph) (rank : Nat → Nat)
    (hrank : ∀ m it, it ∈ g.intents m → rank m < rank it.oneSideModel)
    {fuel : Nat} {ms order : List Nat} {vsF : Nat → Nat}
    (h : sortRelationGraph g fuel ms (fun _ => 0) (fun _ => true) =
      some (.ok (order, vsF))) :
    order.Nodup ∧
    (∀ x, x ∈ order ↔ UReach g (· ∈ ms) x) ∧
    (∀ x ∈ order, ∀ it ∈ g.intents x, it.oneSideModel ∈ order ∧
      ∃ l1 l2, order = l1 ++ x :: l2 ∧ it.oneSideModel ∈ l2) := by
  simp only [sortRelationGraph] at h
  rcases hE : expandEntries g fuel ⟨ms, []⟩ ms with _ | stE
  · rw [hE] at h; cases h
  · rw [hE] at h
    dsimp only at h
    rcases hV : visitEntries g (fun _ => true) fuel ⟨fun _ => 0, []⟩
        (stE.models.filter (fun m => m ∉ stE.reachableByIntents)) with
      _ | er
    · rw [hV] at h; cases h
    · rw [hV] at h
      rcases er with e | dfs
      · dsimp only at h; cases h
      · dsimp only at h
        simp only [Option.some.injEq, Except.ok.injEq, Prod.mk.injEq] at h
        obtain ⟨horder, hvsF⟩ := h
        obtain ⟨hmem, hclosed, hrbc⟩ := expand_characterization hE
        obtain ⟨h22, hinv, hentry, hsnd⟩ := visitEntries_post g fuel _ _ _ hV
        have hinv0 : DfsInv g ⟨fun _ => 0, []⟩ := by
          refine ⟨fun x => ?_, List.nodup_nil, by simp⟩
          simp
        obtain ⟨hi1, hi2, hi3⟩ := hinv hinv0
        have hresmod : ∀ x, x ∈ dfs.result ↔ x ∈ stE.models := by
          intro x
          constructor
          · intro hx
            have hx2 := (hi1 x).mpr hx
            rcases hsnd x hx2 with h0 | ⟨a, ha, hr⟩
            · cases h0
            · have ham : a ∈ stE.models := (List.mem_filter.mp ha).1
              exact ireach_mem_of_closed hclosed ham hr
          · intro hx
            have key : ∀ n x, rank x < n → x ∈ stE.models →
                dfs.vs x = 2 := by
              intro n
              induction n with
              | zero => intro x hx _; omega
              | succ n ihn =>
                intro x hrk hxm
                by_cases hrb : x ∈ stE.reachableByIntents
                · obtain ⟨mm, hmm, hos⟩ := (hrbc x).mp hrb
                  obtain ⟨it, hit, rfl⟩ := List.mem_map.mp hos
                  have hmm2 : dfs.vs mm = 2 :=
                    ihn mm (by have := hrank mm it hit; omega) hmm
                  have hmmres : mm ∈ dfs.result := (hi1 mm).mp hmm2
                  have := (hi3 mm hmmres it hit).1
                  exact (hi1 _).mpr this
                · have hxe : x ∈ stE.models.filter
                      (fun m => m ∉ stE.reachableByIntents) := by
                    simp only [List.mem_filter, decide_eq_true_eq]
                    exact ⟨hxm, hrb⟩
                  exact hentry x hxe
            exact (hi1 x).mp (key (rank x + 1) x (by omega) hx)
        have hrevnd : dfs.result.reverse.Nodup := by
          simpa using hi2
        have horder2 : order = dfs.result.reverse := by
          rw [← horder]
          exact (uniqueElems_of_nodup _ [] hrevnd (by simp)).symm ▸ rfl
        have hordermem : ∀ x, x ∈ order ↔ x ∈ dfs.result := by
          intro x
          rw [horder2, List.mem_reverse]
        refine ⟨by rw [horder2]; exact hrevnd, ?_, ?_⟩
        · intro x
          rw [hordermem x, hresmod x]
          exact hmem x
        · intro x hx it hit
          have hxr : x ∈ dfs.result := (hordermem x).mp hx
          obtain ⟨hmemr, l1, l2, hsplit, hin⟩ := hi3 x hxr it hit
          refine ⟨(hordermem _).mpr hmemr, l2.reverse, l1.reverse, ?_, ?_⟩
          · rw [horder2, hsplit]
            simp
          · simpa using hin

theorem replay_filter_cons (g : RelGraph) (dstVal : Nat → String → JSValue)
    (h : Nat) (src : String) (m : Nat) (rest : List Nat) :
    (replayIntentAssignments g dstVal (m :: rest)).filter
      (fun a => a.1 = h ∧ a.2.1 = src) =
    ownAssignments g dstVal h src m ++
      (replayIntentAssignments g dstVal rest).filter
        (fun a => a.1 = h ∧ a.2.1 = src) := by
  simp [replayIntentAssignments, ownAssignments, List.filter_append]

theorem ownAssignments_eq_nil {g : RelGraph}
    {dstVal : Nat → String → JSValue} {h : Nat} {src : String} {m : Nat}
    (hno : ¬∃ it ∈ g.intents m, it.oneSideModel = h ∧
      it.sourceAttribute = src) :
    ownAssignments g dstVal h src m = [] := by
  unfold ownAssignments
  rw [List.filter_eq_nil]
  intro a ha
  obtain ⟨it, hit, rfl⟩ := List.mem_map.mp ha
  simp only [decide_eq_true_eq, not_and]
  intro h1 h2
  exact hno ⟨it, hit, h1, h2⟩

theorem replay_filter_no_owner {g : RelGraph}
    {dstVal : Nat → String → JSValue} {h : Nat} {src : String} :
    ∀ {o : List Nat},
    (∀ m ∈ o, ¬∃ it ∈ g.intents m, it.oneSideModel = h ∧
      it.sourceAttribute = src) →
    (replayIntentAssignments g dstVal o).filter
      (fun a => a.1 = h ∧ a.2.1 = src) = [] := by
  intro o
  induction o with
  | nil => intro _; rfl
  | cons m rest ih =>
    intro hno
    rw [replay_filter_cons,
      ownAssignments_eq_nil (hno m (List.mem_cons_self m rest)),
      List.nil_append]
    exact ih (fun m' hm' => hno m' (List.mem_cons_of_mem _ hm'))

theorem replay_filter_owner {g : RelGraph}
    {dstVal : Nat → String → JSValue} {h : Nat} {src : String} {m0 : Nat} :
    ∀ {o : List Nat}, o.Nodup →
    (∀ m ∈ o, ∀ it ∈ g.intents m, it.oneSideModel = h →
      it.sourceAttribute = src → m = m0) →
    (replayIntentAssignments g dstVal o).filter
      (fun a => a.1 = h ∧ a.2.1 = src) =
    if m0 ∈ o then ownAssignments g dstVal h src m0 else [] := by
  intro o
  induction o with
  | nil => intro _ _; simp [replayIntentAssignments]
  | cons m rest ih =>
    intro hnd howner
    rw [replay_filter_cons]
    by_cases hm : m = m0
    · subst hm
      have hm0rest : m ∉ rest := (List.nodup_cons.mp hnd).1
      have hnorest : ∀ m' ∈ rest, ¬∃ it ∈ g.intents m',
          it.oneSideModel = h ∧ it.sourceAttribute = src := by
        intro m' hm' ⟨it, hit, h1, h2⟩
        exact hm0rest (howner m' (List.mem_cons_of_mem _ hm') it hit h1 h2
          ▸ hm')
      rw [replay_filter_no_owner hnorest]
      simp
    · have hmno : ¬∃ it ∈ g.intents m, it.oneSideModel = h ∧
          it.sourceAttribute = src := by
        rintro ⟨it, hit, h1, h2⟩
        exact hm (howner m (List.mem_cons_self m rest) it hit h1 h2)
      rw [ownAssignments_eq_nil hmno, List.nil_append,
        ih (List.Nodup.of_cons hnd)
          (fun m' hm' => howner m' (List.mem_cons_of_mem _ hm'))]
      by_cases h0 : m0 ∈ rest
      · simp [h0, List.mem_cons]
      · have hne : ¬(m0 = m) := fun he => hm he.symm
        simp [h0, List.mem_cons, hne]

/-- Reachability only depends on the root set up to extensional
equivalence. -/
theorem ureach_mono {g : RelGraph} {r1 r2 : Nat → Prop}
    (h : ∀ x, r1 x → r2 x) {x : Nat} (hr : UReach g r1 x) :
    UReach g r2 x := by
  induction hr with
  | root hm => exact UReach.root (h _ hm)
  | inb hm hin ih => exact UReach.inb ih hin
  | one hm hit ih => exact UReach.one ih hit

/-- Once both cycle members are registered, the expansion exhausts every
fuel budget: the unguarded recursion across intent edges never
terminates. -/
theorem cyc_expandFrom_none : ∀ fuel (st : ExpState), 0 ∈ st.models →
    1 ∈ st.models → expandFrom cycGraph fuel st 0 = none ∧
      expandFrom cycGraph fuel st 1 = none := by
  intro fuel
  induction fuel with
  | zero => intro st _ _; exact ⟨by simp [expandFrom], by simp [expandFrom]⟩
  | succ fuel ih =>
    intro st h0 h1
    constructor
    · simp only [expandFrom, h0, if_true]
      rw [show cycGraph.inbound 0 = [1] from rfl]
      have hinb : expandInbound cycGraph fuel st [1] = some st := by
        simp [expandInbound, h1]
      rw [hinb]
      dsimp only
      rw [show cycGraph.intents 0 = [⟨1, "left_id", "id"⟩] from rfl]
      simp only [expandIntents]
      rw [(ih st h0 h1).2]
    · simp only [expandFrom, h1, if_true]
      rw [show cycGraph.inbound 1 = [0] from rfl]
      have hinb : expandInbound cycGraph fuel st [0] = some st := by
        simp [expandInbound, h0]
      rw [hinb]
      dsimp only
      rw [show cycGraph.intents 1 = [⟨0, "right_id", "id"⟩] from rfl]
      simp only [expandIntents]
      rw [(ih st h0 h1).1]

/-- Adding the cycle members to a session diverges at every fuel budget:
the expansion pass of sortRelationGraph never terminates, so neither an
order nor the cycle-detection error is ever produced. -/
theorem cyc_sort_none : ∀ fuel (vs0 : Nat → Nat) (filt : Nat → Bool),
    sortRelationGraph cycGraph fuel [0] vs0 filt = none := by
  intro fuel vs0 filt
  simp only [sortRelationGraph]
  rcases fuel with _ | fuel
  · simp [expandEntries, expandFrom]
  · have hfrom : expandFrom cycGraph (fuel + 1) ⟨[0], []⟩ 0 = none := by
      simp only [expandFrom]
      rw [if_pos (by simp)]
      rw [show cycGraph.inbound 0 = [1] from rfl]
      have h1n : (1 : Nat) ∉ ({ models := [0], reachableByIntents := [] } :
          ExpState).models := by simp
      have hf1 : expandFrom cycGraph fuel ⟨[0], []⟩ 1 = none := by
        rcases fuel with _ | fuel
        · simp [expandFrom]
        · simp only [expandFrom]
          rw [if_neg (by simp)]
          rw [show cycGraph.inbound 1 = [0] from rfl]
          have hinb : expandInbound cycGraph fuel
              ⟨[0] ++ [1], []⟩ [0] = some ⟨[0] ++ [1], []⟩ := by
            simp [expandInbound]
          rw [hinb]
          dsimp only
          rw [show cycGraph.intents 1 = [⟨0, "right_id", "id"⟩] from rfl]
          simp only [expandIntents]
          rw [(cyc_expandFrom_none fuel ⟨[0] ++ [1], []⟩ (by simp)
            (by simp)).1]
      simp only [expandInbound]
      rw [if_neg h1n, hf1]
    simp only [expandEntries]
    rw [hfrom]

/-- C7, the divergence between the code and both the claim and the
library's own test suite: Session.delete succeeds on the bound entity
(no error, the deletion is queued), yet a subsequent attribute write on
the deleted entity is accepted — set() returns without any error, in
particular without ModelStateError, and the stored value changes to the
newly assigned one.  Revision A's Session.delete only clears the
entity's session pointer and never installs a write lock, and
AttributeProxy.set never consults the deletion state. -/
theorem sago_C7_delete_then_write_accepted :
    (sessionDelete c7World [1]).2 = none ∧
    (sessionDelete c7World [1]).1.sess.deletions = [1] ∧
    (match attrSet 0 (sessionDelete c7World [1]).1 1 "name"
        (.str "cool") with
      | some (w, e) => (getAttrW w 1 "name", e)
      | none => (.null, some .internalError)) = (.str "cool", none) := by
  decide

/-- C9.  Serialization round trip: for every stock attribute type and
every valid non-null native value of that type, serialize succeeds and
deserialize of the result returns the original value. -/
theorem sago_C9_roundtrip (t : AttrType) (v : JSValue)
    (hv : validNativeValue t v) (_hnn : v ≠ .null) :
    ∃ s, serializeT t v = .ok s ∧ deserializeT t s = .ok v := by
  rcases ht : t.kind with nt | _ | _ | _
  · refine ⟨v, by simp [serializeT, ht], ?_⟩
    have hval : validateT t v = true := by
      unfold validNativeValue at hv
      rw [ht] at hv
      exact hv.2
    simp only [deserializeT, ht, validateOrDieT, hval, if_true]
  · unfold validNativeValue at hv
    rw [ht] at hv
    rcases v with _ | _ | b | q | s | d <;> try exact hv.elim
    refine ⟨.str s, by simp [serializeT, ht], ?_⟩
    simp only [deserializeT, ht, validateOrDieT]
    by_cases htr : truthy (.str s)
    · have hlen : validateLength t s = true := by
        have := hv
        simp only [validateT, ht, htr, Bool.not_true, Bool.false_or,
          typeofStr] at this
        simpa using this
      simp [htr, typeofStr, hlen]
    · simp [htr]
  · unfold validNativeValue at hv
    rw [ht] at hv
    rcases v with _ | _ | b | q | s | d <;> try exact hv.elim
    refine ⟨.str s, by simp [serializeT, ht], ?_⟩
    simp only [deserializeT, ht, validateOrDieT]
    by_cases htr : truthy (.str s)
    · have hfmt : uuidPatternTest s = true := by
        have := hv
        simp only [validateT, ht, htr, Bool.not_true, Bool.false_or,
          typeofStr] at this
        simpa using this
      simp [htr, typeofStr, hfmt]
    · simp [htr]
  · unfold validNativeValue at hv
    rw [ht] at hv
    rcases v with _ | _ | b | q | s | d <;> try exact hv.elim
    refine ⟨.str (formatISO d), by simp [serializeT, ht], ?_⟩
    simp only [deserializeT, ht]
    rw [parseISO_formatISO d hv]

/-- C9 witness: the round trip at the concrete leap-day datetime
value. -/
theorem sago_C9_witness :
    validNativeValue c9Type (.date c9Date) ∧
    ∃ s, serializeT c9Type (.date c9Date) = .ok s ∧
      deserializeT c9Type s = .ok (.date c9Date) := by
  have hv : validNativeValue c9Type (.date c9Date) := by
    show validDate c9Date = true
    decide
  exact ⟨hv, sago_C9_roundtrip c9Type _ hv (by decide)⟩

/-- C10.  UUID validation over-acceptance: the validation pattern
anchors its start only to the 36-character alternative and its end only
to the 32-character alternative, so any string whose last 32 characters
are lowercase hex digits passes validate and validateOrDie regardless
of total length; in particular a 33-character all-hex string that is in
neither UUID format is accepted. -/
theorem sago_C10_uuid_overacceptance :
    (∀ s : String, 32 ≤ s.data.length →
      (s.data.drop (s.data.length - 32)).all isHexChar = true →
      validateT c10Type (.str s) = true ∧
        validateOrDieT c10Type (.str s) = none) ∧
    (∃ s : String, ¬is36UuidFormat s ∧ ¬is32UuidFormat s ∧
      validateT c10Type (.str s) = true ∧
      validateOrDieT c10Type (.str s) = none) := by
  constructor
  · intro s hlen hhex
    have hne : s ≠ "" := by
      intro he
      rw [he] at hlen
      simp at hlen
    have htr : truthy (.str s) = true := by simp [truthy, hne]
    have hpat : uuidPatternTest s = true := by
      unfold uuidPatternTest
      rw [Bool.or_eq_true]
      right
      rw [Bool.and_eq_true, decide_eq_true_eq]
      exact ⟨hlen, hhex⟩
    constructor
    · simp [validateT, c10Type, typeofStr, hpat]
    · simp [validateOrDieT, c10Type, htr, typeofStr, hpat]
  · refine ⟨"aaaaaaaaaaaaaaaaaaaaaaaaaaaaaaaaa", ?_, ?_, ?_, ?_⟩
    · intro ⟨hl, _⟩
      simp at hl
    · intro ⟨hl, _⟩
      simp at hl
    · decide
    · decide

/-- C10 witness: a 44-character string that is in neither UUID format
but whose last 32 characters are lowercase hex digits passes both
validate and validateOrDie. -/
theorem sago_C10_witness :
    validateT c10Type
      (.str "not-a-uuid-aaaaaaaaaaaaaaaaaaaaaaaaaaaaaaaa") = true ∧
    validateOrDieT c10Type
      (.str "not-a-uuid-aaaaaaaaaaaaaaaaaaaaaaaaaaaaaaaa") = none :=
  sago_C10_uuid_overacceptance.1
    "not-a-uuid-aaaaaaaaaaaaaaaaaaaaaaaaaaaaaaaa" (by decide) (by decide)

/-- C5, refutation of the claim as stated: assigning the boolean false (a
falsy value whose native type mismatches the declared number type) to
the non-nullable, non-foreign-key count attribute raises nothing and
stores the value. -/
theorem sago_C5_counterexample :
    c5Type.nullable = false ∧ c5Type.isFK = false ∧
    nativeMismatch c5Type (.bool false) ∧ (JSValue.bool false) ≠ .null ∧
    (match attrSet 0 c5World 1 "count" (.bool false) with
      | some (w, e) => (getAttrW w 1 "count", e)
      | none => (.null, some .internalError)) =
      (.bool false, none) := by
  refine ⟨rfl, rfl, ?_, by decide, by decide⟩
  intro h
  simp [typeofStr] at h

/-- C5, the amended claim: for every non-nullable, non-foreign-key attribute
and every truthy value whose native representation mismatches the
declared type and differs from the current attribute value, the
assignment always fails with AttributeTypeError and leaves the world
(in particular the stored value and the dirty set) completely
unchanged; falsy mismatching values are exempt because validation lets
every falsy value through. -/
theorem sago_C5_mismatch_rejected (fuel : Nat) (w : World) (eid : Nat)
    (e : Entity) (a : String) (iden : AttrIdentity) (v : JSValue)
    (he : w.heap eid = some e) (hid : e.identityOf a = some iden)
    (_hnn : iden.ty.nullable = false) (hfk : iden.ty.isFK = false)
    (hmm : nativeMismatch iden.ty v) (htr : truthy v = true)
    (hne : jsStrictEq v (e.getVal a) = false) :
    attrSet fuel w eid a v = some (w, some .attributeTypeError) := by
  have hvd : validateOrDieT iden.ty v = some .attributeTypeError := by
    unfold nativeMismatch at hmm
    rcases hk : iden.ty.kind with nt | _ | _ | _ <;> rw [hk] at hmm
    · have : validateT iden.ty v = false := by
        simp only [validateT, hk, htr, Bool.not_true, Bool.false_or]
        simpa using hmm
      simp [validateOrDieT, hk, this]
    · have hts : typeofStr v ≠ "string" := hmm
      simp [validateOrDieT, hk, htr, hts]
    · have hts : typeofStr v ≠ "string" := hmm
      simp [validateOrDieT, hk, htr, hts]
    · have : validateT iden.ty v = false := by
        rcases v with _ | _ | b | q | s | d
        · exact absurd htr (by simp [truthy])
        · exact absurd htr (by simp [truthy])
        · simp [validateT, hk, htr]
        · simp [validateT, hk, htr]
        · simp [validateT, hk, htr]
        · exact absurd rfl (hmm d)
      simp [validateOrDieT, hk, this]
  have hvn : v ≠ .null := by
    intro he2
    rw [he2] at htr
    simp [truthy] at htr
  simp only [attrSet, he, hid, modelAttributeWillSet, hne,
    Bool.false_eq_true, if_false, hvd]
  rw [if_pos hvn]

/-- C5 witness: the truthy string value x assigned to
the number-typed count attribute is rejected with AttributeTypeError and
the world is unchanged. -/
theorem sago_C5_witness_amended :
    attrSet 0 c5World 1 "count" (.str "x") =
      some (c5World, some .attributeTypeError) :=
  sago_C5_mismatch_rejected 0 c5World 1 c5Entity "count" ⟨"count", c5Type⟩
    (.str "x") (by rfl) (by rfl) rfl rfl
    (show "string" ≠ "number" by decide) (by decide) (by decide)

/-- C8, refutation of the claim as stated: on two members tied on the
leading order component, the comparator from the source short-circuits
at that first component anyway, answering -1 in both argument orders
(it never yields a 0 that would fall through to the next component and
it is not antisymmetric, so the sort is not stable), while the
comparator written from the specification's words falls through to the
second component and answers 1 and -1 antisymmetrically. -/
theorem sago_C8_counterexample :
    getAttrW c8World 1 "x" = getAttrW c8World 2 "x" ∧
    compareModels c8World c8Comps 1 2 = -1 ∧
    compareModels c8World c8Comps 2 1 = -1 ∧
    specCompareModels c8World c8Comps 1 2 = -1 ∧
    specCompareModels c8World c8Comps 2 1 = 1 := by decide

/-- C8, the amended claim: on any non-empty order component list the
comparator always decides at the first component, returning that
component's per-key comparison (direction-adjusted), and this per-key
comparison is always 1 or -1, never 0: later components are never
consulted and no tie can fall through. -/
theorem sago_C8_first_component_decides (w : World) (c : OrderComp)
    (rest : List OrderComp) (a b : Nat) :
    (compareModels w (c :: rest) a b = 1 ∨
      compareModels w (c :: rest) a b = -1) ∧
    compareModels w (c :: rest) a b =
      (if c.dir = "desc"
        then -(compareValuesT c.ty
          (((w.heap a).map (fun e => e.getVal c.attr)).getD .null)
          (((w.heap b).map (fun e => e.getVal c.attr)).getD .null))
        else compareValuesT c.ty
          (((w.heap a).map (fun e => e.getVal c.attr)).getD .null)
          (((w.heap b).map (fun e => e.getVal c.attr)).getD .null)) := by
  have hpm : ∀ t va vb, compareValuesT t va vb = 1 ∨
      compareValuesT t va vb = -1 := by
    intro t va vb
    unfold compareValuesT
    by_cases h : jsGt va vb = true
    · exact Or.inl (by simp [h])
    · exact Or.inr (by simp [h])
  unfold compareModels
  dsimp only
  rcases hpm c.ty (((w.heap a).map (fun e => e.getVal c.attr)).getD .null)
      (((w.heap b).map (fun e => e.getVal c.attr)).getD .null) with hv | hv <;>
    rw [hv] <;> by_cases hd : c.dir = "desc" <;> simp [hd]

/-- C6, refutation of the claim as stated: order() hands back the very
receiver (the same handle, not a new query value), and the receiver
behind the original handle now carries the order modifier and the
taken one-of flag, so a previously built query is not reusable
unaffected by later chaining. -/
theorem sago_C6_counterexample :
    (storeOrder c6Store 0 (some [("x", "asc")])).2.1 = 0 ∧
    (storeOrder c6Store 0 (some [("x", "asc")])).2.2 = none ∧
    c6Q0.hasOrder = false ∧
    c6Q0.essence.modifiers.length = 0 ∧
    ((storeOrder c6Store 0 (some [("x", "asc")])).1 0).map
      (fun q => q.hasOrder) = some true ∧
    ((storeOrder c6Store 0 (some [("x", "asc")])).1 0).map
      (fun q => q.essence.modifiers.length) = some 1 := by decide

/-- C6, the amended claim: every mutator (where, order, limit, return)
returns its receiver, whose essence has been reassigned in place with
the accumulated condition tokens, order and limit modifiers, or return
columns, so every handle to the query observes the effects of later
chaining; order and limit each take a one-of lock on the receiver and
a second use fails with QueryError. -/
theorem sago_C6_mutators_in_place (st : QStore) (qid : Nat)
    (q : QueryState) (hq : st qid = some q) (t : List (String × CondVal))
    (conj : String) (comps : List (String × String)) (n : JSValue)
    (rets : List String) :
    (storeWhere st qid t conj).2.1 = qid ∧
    (storeWhere st qid t conj).1 qid = some (whereQ q t conj).1 ∧
    (storeOrder st qid (some comps)).2.1 = qid ∧
    (storeOrder st qid (some comps)).1 qid =
      some (orderQ q (some comps)).1 ∧
    (storeLimit st qid n).2.1 = qid ∧
    (storeLimit st qid n).1 qid = some (limitQ q n).1 ∧
    (storeReturn st qid rets).2.1 = qid ∧
    (storeReturn st qid rets).1 qid = some (returnQ q rets).1 ∧
    (q.hasOrder = true → (orderQ q (some comps)).2 = some .queryError) ∧
    (q.hasLimit = true → (limitQ q n).2 = some .queryError) := by
  refine ⟨?_, ?_, ?_, ?_, ?_, ?_, ?_, ?_, ?_, ?_⟩
  · simp [storeWhere, hq]
  · simp [storeWhere, hq]
  · simp [storeOrder, hq]
  · simp [storeOrder, hq]
  · simp [storeLimit, hq]
  · simp [storeLimit, hq]
  · simp [storeReturn, hq]
  · simp [storeReturn, hq]
  · intro h
    simp [orderQ, h]
  · intro h
    simp [limitQ, h]

/-- C6 witness: the in-place mutation theorem at the concrete
fresh query under handle 0. -/
theorem sago_C6_witness :
    (storeWhere c6Store 0 [("x", .plain (.num 1))] "and").2.1 = 0 ∧
    (storeOrder c6Store 0 (some [("x", "asc")])).1 0 =
      some (orderQ c6Q0 (some [("x", "asc")])).1 := by
  have h := sago_C6_mutators_in_place c6Store 0 c6Q0 rfl
    [("x", .plain (.num 1))] "and" [("x", "asc")] (.num 2) ["x"]
  exact ⟨h.1, h.2.2.2.1⟩

/-- C4, refutation of the claim as stated: the code gates the relation
management on the truthiness of the value, not on it being non-null, so
assigning the non-null falsy number 0 to the foreign key while the
one-side view is loaded runs the view's set(null): the call returns
without error and the stored value changes from 5 to null — not left
unchanged as the claim asserts for a non-null value matching no
in-session entity. -/
theorem sago_C4_counterexample :
    c4FkType.isFK = true ∧ (JSValue.num 0) ≠ .null ∧
    truthy (.num 0) = false ∧
    getAttrW c4World 1 "parent_id" = .num 5 ∧
    (match attrSet 1 c4World 1 "parent_id" (.num 0) with
      | some (w, e) => (getAttrW w 1 "parent_id", e,
          ((w.heap 1).map (fun e2 => e2.dirtyHas "parent_id")).getD false)
      | none => (.null, some .internalError, false)) =
      (.null, none, true) := by decide

/-- An entity update that leaves the attribute values untouched leaves
every read attribute value untouched. -/
theorem updEnt_getVal_of_values (w : World) (x : Nat) (g : Entity → Entity)
    (hg : ∀ e2, (g e2).values = e2.values) (m : Nat) (a : String) :
    getAttrW (updEnt w x g) m a = getAttrW w m a := by
  unfold getAttrW updEnt
  dsimp only
  by_cases h : m = x
  · subst h
    rw [if_pos rfl]
    cases hm : w.heap m with
    | none => rfl
    | some e2 => simp [Entity.getVal, hg]
  · rw [if_neg h]

theorem updOneProxy_getVal (w : World) (eid idx : Nat)
    (f : OneProxy → OneProxy) (m : Nat) (a : String) :
    getAttrW (updOneProxy w eid idx f) m a = getAttrW w m a := by
  unfold updOneProxy
  apply updEnt_getVal_of_values
  intro e2
  rfl

theorem updManyProxy_getVal (w : World) (eid idx : Nat)
    (f : ManyProxy → ManyProxy) (m : Nat) (a : String) :
    getAttrW (updManyProxy w eid idx f) m a = getAttrW w m a := by
  unfold updManyProxy
  apply updEnt_getVal_of_values
  intro e2
  rfl

theorem manyRemoveAsSideEffect_getVal (w : World) (eid idx t m : Nat)
    (a : String) :
    getAttrW (manyRemoveAsSideEffect w eid idx t) m a = getAttrW w m a := by
  unfold manyRemoveAsSideEffect
  repeat' split
  all_goals first
    | rfl
    | exact updManyProxy_getVal _ _ _ _ _ _

/-- Detaching the host from its remote many-side view touches no
attribute value of any entity. -/
theorem maybeRemoveFromRemoteSide_getVal (w : World) (hostId idx m : Nat)
    (a : String) :
    getAttrW ((maybeRemoveFromRemoteSide w hostId idx).1) m a =
      getAttrW w m a := by
  unfold maybeRemoveFromRemoteSide
  repeat' split
  all_goals first
    | rfl
    | exact manyRemoveAsSideEffect_getVal _ _ _ _ _ _

/-- The dirty-recording step touches no attribute value. -/
theorem c4DirtyWorld_getVal (w : World) (eid : Nat) (a : String)
    (e : Entity) (m : Nat) (b : String) :
    getAttrW (c4DirtyWorld w eid a e) m b = getAttrW w m b := by
  unfold c4DirtyWorld
  split
  · apply updEnt_getVal_of_values
    intro e2
    rfl
  · rfl

/-- C4, the amended claim: a public set(v) on a foreign-key attribute (the
value changing, validation passing) records the previous value dirty
under first-change-wins and then branches on the loaded state of the
one-side view and on the truthiness of v, not on v being non-null: with
the view missing or unloaded it returns with the stored value unchanged
(whatever v was); with the view loaded and v falsy — null or any other
falsy value — it delegates to the view's set(null); with the view
loaded, v truthy and resolved against the session's models, it
delegates to the view's set on the first match. -/
theorem sago_C4_fk_set_behavior (fuel : Nat) (w : World) (eid : Nat)
    (e : Entity) (a : String) (iden : AttrIdentity) (v : JSValue)
    (destColl destAttr : String) (optIdx : Option Nat)
    (he : w.heap eid = some e) (hid : e.identityOf a = some iden)
    (hfk : iden.ty.fkDest = some (destColl, destAttr))
    (hne : jsStrictEq v (e.getVal a) = false)
    (hvv : v ≠ .null → validateOrDieT iden.ty v = none)
    (hpx : findOneProxy e destColl (some a) = .ok optIdx) :
    (optIdx.elim false (fun idx =>
        ((e.ones.get? idx).map (fun p => p.value.isSome)).getD false) =
          false →
      attrSet fuel w eid a v = some (c4DirtyWorld w eid a e, none) ∧
      getAttrW (c4DirtyWorld w eid a e) eid a = getAttrW w eid a) ∧
    (∀ idx, optIdx = some idx →
      ((e.ones.get? idx).map (fun p => p.value.isSome)).getD false = true →
      truthy v = false →
      attrSet fuel w eid a v =
        oneSet fuel (c4DirtyWorld w eid a e) eid idx none false) ∧
    (∀ idx, optIdx = some idx →
      ((e.ones.get? idx).map (fun p => p.value.isSome)).getD false = true →
      truthy v = true → e.sessionId = some w.sess.sid →
      ∀ mid, ((allModels (c4DirtyWorld w eid a e)).filter (fun m =>
          jsLooseEq (getAttrW (c4DirtyWorld w eid a e) m destAttr)
            v)).head? = some mid →
      attrSet fuel w eid a v =
        oneSet fuel (c4DirtyWorld w eid a e) eid idx (some mid) false) ∧
    (∀ idx, optIdx = some idx →
      ((e.ones.get? idx).map (fun p => p.value.isSome)).getD false = true →
      truthy v = true → e.sessionId = some w.sess.sid →
      ((allModels (c4DirtyWorld w eid a e)).filter (fun m =>
          jsLooseEq (getAttrW (c4DirtyWorld w eid a e) m destAttr)
            v)).head? = none →
      attrSet fuel w eid a v =
        (match maybeRemoveFromRemoteSide (c4DirtyWorld w eid a e) eid
            idx with
          | (w2, some err) => some (w2, some err)
          | (w2, none) =>
            some (updOneProxy w2 eid idx (fun p =>
              { p with value := none }), none)) ∧
      (∀ r, attrSet fuel w eid a v = some r →
        getAttrW (r.1) eid a = getAttrW w eid a)) := by
  have hfkb : iden.ty.isFK = true := by simp [AttrType.isFK, hfk]
  have hv : (if v ≠ .null then validateOrDieT iden.ty v else none) = none := by
    by_cases h0 : v = .null
    · simp [h0]
    · simp [h0, hvv h0]
  have hsess : (c4DirtyWorld w eid a e).sess = w.sess := by
    unfold c4DirtyWorld
    split <;> rfl
  refine ⟨fun hnl => ⟨?_, ?_⟩, fun idx hix hld htr => ?_,
    fun idx hix hld htr hs mid hmid => ?_,
    fun idx hix hld htr hs hnone => ?_⟩
  · simp only [attrSet, he, hid, modelAttributeWillSet, hne,
      Bool.false_eq_true, if_false, hv, hfkb, hfk, hpx, c4DirtyWorld]
    rcases optIdx with _ | idx
    · rfl
    · simp only [Option.elim, List.get?_eq_getElem?] at hnl
      simp [hnl]
  · unfold c4DirtyWorld
    split
    · next hd =>
      simp [getAttrW, updEnt, he, Entity.getVal]
    · rfl
  · subst hix
    simp only [List.get?_eq_getElem?] at hld
    simp only [attrSet, he, hid, modelAttributeWillSet, hne,
      Bool.false_eq_true, if_false, hv, hfkb, hfk, hpx, c4DirtyWorld,
      Option.elim, Bool.not_true, List.get?_eq_getElem?]
    rw [hld]
    simp only [htr, Bool.false_eq_true, if_false]
  · subst hix
    have hsess2 : (if (e.dirtying && !e.dirtyHas a) = true then
        updEnt w eid (fun e2 =>
          { e2 with dirty := e2.dirty ++ [(a, e2.getVal a)] }) else w).sess =
        w.sess := hsess
    simp only [List.get?_eq_getElem?] at hld
    simp only [c4DirtyWorld] at hmid
    simp only [attrSet, he, hid, modelAttributeWillSet, hne,
      Bool.false_eq_true, if_false, hv, hfkb, hfk, hpx, c4DirtyWorld,
      Option.elim, Bool.not_true, List.get?_eq_getElem?]
    rw [hld]
    simp only [htr, if_true, hs, hsess2, ne_eq, not_true_eq_false,
      if_false, hmid]
  · subst hix
    have hsess2 : (if (e.dirtying && !e.dirtyHas a) = true then
        updEnt w eid (fun e2 =>
          { e2 with dirty := e2.dirty ++ [(a, e2.getVal a)] }) else w).sess =
        w.sess := hsess
    simp only [List.get?_eq_getElem?] at hld
    have heqn : attrSet fuel w eid a v =
        (match maybeRemoveFromRemoteSide (c4DirtyWorld w eid a e) eid
            idx with
          | (w2, some err) => some (w2, some err)
          | (w2, none) =>
            some (updOneProxy w2 eid idx (fun p =>
              { p with value := none }), none)) := by
      simp only [c4DirtyWorld] at hnone
      simp only [attrSet, he, hid, modelAttributeWillSet, hne,
        Bool.false_eq_true, if_false, hv, hfkb, hfk, hpx, c4DirtyWorld,
        Option.elim, Bool.not_true, List.get?_eq_getElem?]
      rw [hld]
      simp only [htr, if_true, hs, hsess2, ne_eq, not_true_eq_false,
        if_false, hnone]
    refine ⟨heqn, ?_⟩
    intro r hr
    rw [heqn] at hr
    rcases hmr : maybeRemoveFromRemoteSide (c4DirtyWorld w eid a e) eid
        idx with ⟨w2, e2⟩
    have hw2 : getAttrW w2 eid a = getAttrW w eid a :=
      ((congrArg (fun p => getAttrW p.1 eid a) hmr).symm.trans
        (maybeRemoveFromRemoteSide_getVal _ _ _ _ _)).trans
        (c4DirtyWorld_getVal w eid a e eid a)
    rw [hmr] at hr
    rcases e2 with _ | err
    · dsimp only at hr
      simp only [Option.some.injEq] at hr
      rw [← hr]
      dsimp only
      exact (updOneProxy_getVal _ _ _ _ _ _).trans hw2
    · dsimp only at hr
      simp only [Option.some.injEq] at hr
      rw [← hr]
      exact hw2

/-- C4 witness: the amended foreign-key behaviour at the
concrete child and the falsy value 0: the call delegates to the loaded
one-side view's set(null). -/
theorem sago_C4_witness :
    attrSet 1 c4World 1 "parent_id" (.num 0) =
      oneSet 1 (c4DirtyWorld c4World 1 "parent_id" c4Child) 1 0 none
        false := by
  have h := sago_C4_fk_set_behavior 1 c4World 1 c4Child "parent_id"
    ⟨"parent_id", c4FkType⟩ (.num 0) "parents" "id" (some 0)
    (by rfl) (by rfl) rfl (by decide) (fun _ => by decide) (by rfl)
  exact h.2.1 0 rfl (by decide) (by decide)

/-- Looking up the written attribute after setValList always finds the
newly written value. -/
theorem setValList_lookup (vals : List (String × JSValue)) (a : String)
    (v : JSValue) : (setValList vals a v).lookup a = some v := by
  unfold setValList
  by_cases h : (vals.lookup a).isSome
  · rw [if_pos h]
    induction vals with
    | nil => simp at h
    | cons p rest ih =>
      rcases p with ⟨pk, pv⟩
      by_cases hp : pk = a
      · subst hp
        simp only [List.map]
        simp [List.lookup]
      · have hp2 : (a == pk) = false := by
          simp only [beq_eq_false_iff_ne, ne_eq]
          exact fun hc => hp hc.symm
        simp only [List.lookup, hp2] at h
        simp only [List.map]
        rw [if_neg hp]
        simp only [List.lookup, hp2]
        exact ih h
  · rw [if_neg h]
    induction vals with
    | nil => simp [List.lookup]
    | cons p rest ih =>
      rcases p with ⟨pk, pv⟩
      have hp2 : (a == pk) = false := by
        by_contra hc
        rw [Bool.not_eq_false, beq_iff_eq] at hc
        subst hc
        simp [List.lookup] at h
      simp only [List.lookup, hp2] at h
      simp only [List.cons_append, List.lookup, hp2]
      exact ih h

/-- C3, refutation of the claim as stated: refreshing the identity-mapped
child from the row (id 10, parent_id 7) does return the existing
instance without constructing a second object, but the non-dirty
foreign-key attribute parent_id does not take the row's value 7 — the
refresh assigns through the public set() path, whose foreign-key branch
leaves the stored value untouched when the one-side view is absent, so
the attribute silently keeps its stale value 5. -/
theorem sago_C3_counterexample :
    c3Child.dirtyHas "parent_id" = false ∧
    (match resolveModel 1 c3World c3M
        [("id", .num 10), ("parent_id", .num 7)] with
      | some (w', .ok m) =>
          some (m, w'.nextId, getAttrW w' 1 "parent_id")
      | _ => none) = some (1, 2, .num 5) := by decide

/-- C3, the amended claim, per refreshed attribute, with the row's
primary key decoupled from the refreshed attribute: resolving a row
already present in the identity map returns the existing instance and
allocates nothing, a dirty attribute keeps its locally overwritten
value, a non-dirty non-foreign-key attribute takes the row's value, but
a non-dirty foreign-key attribute whose one-side view is absent or
unloaded keeps its old value (the refresh writes through the public
set() path). -/
theorem sago_C3_refresh_per_attribute (fuel : Nat) (w : World)
    (M : ModelClass) (k : String) (v pkv : JSValue) (key : String)
    (mid : Nat) (e : Entity) (pkIden : AttrIdentity)
    (hkey : stateKeyFor M.schema.collection pkv = .ok key)
    (hstate : w.sess.state.lookup key = some mid)
    (he : w.heap mid = some e) (hdty : e.dirtying = true)
    (hpkid : e.identityOf M.schema.primaryKey = some pkIden)
    (hpke : jsStrictEq pkv (e.getVal M.schema.primaryKey) = true) :
    (e.dirtyHas k = true →
      (match resolveModel fuel w M
          [(M.schema.primaryKey, pkv), (k, v)] with
        | some (w', .ok m) => some (m, w'.nextId, getAttrW w' mid k)
        | _ => none) = some (mid, w.nextId, e.getVal k)) ∧
    (∀ iden, e.dirtyHas k = false → e.identityOf k = some iden →
      iden.ty.isFK = false → jsStrictEq v (e.getVal k) = false →
      (v ≠ .null → validateOrDieT iden.ty v = none) →
      (match resolveModel fuel w M
          [(M.schema.primaryKey, pkv), (k, v)] with
        | some (w', .ok m) => some (m, w'.nextId, getAttrW w' mid k)
        | _ => none) = some (mid, w.nextId, v)) ∧
    (∀ iden dc da optIdx, e.dirtyHas k = false →
      e.identityOf k = some iden →
      iden.ty.fkDest = some (dc, da) → jsStrictEq v (e.getVal k) = false →
      (v ≠ .null → validateOrDieT iden.ty v = none) →
      findOneProxy e dc (some k) = .ok optIdx →
      optIdx.elim false (fun idx =>
        ((e.ones.get? idx).map (fun p => p.value.isSome)).getD false) =
          false →
      (match resolveModel fuel w M
          [(M.schema.primaryKey, pkv), (k, v)] with
        | some (w', .ok m) => some (m, w'.nextId, getAttrW w' mid k)
        | _ => none) = some (mid, w.nextId, e.getVal k)) := by
  have hheap1 : (updEnt w mid (fun e2 =>
      { e2 with dirtying := false })).heap mid =
      some { e with dirtying := false } := by
    simp [updEnt, he]
  have hlk : (([(M.schema.primaryKey, pkv), (k, v)] :
      List (String × JSValue)).lookup M.schema.primaryKey).getD .null =
      pkv := by
    simp [List.lookup]
  have hstep1 : (if Entity.dirtyHas { e with dirtying := false }
        M.schema.primaryKey then
        some (updEnt w mid (fun e2 => { e2 with dirtying := false }),
          (none : Option SagoError))
      else attrSet fuel (updEnt w mid (fun e2 =>
        { e2 with dirtying := false })) mid M.schema.primaryKey pkv) =
      some (updEnt w mid (fun e2 => { e2 with dirtying := false }),
        none) := by
    by_cases hdp : Entity.dirtyHas { e with dirtying := false }
        M.schema.primaryKey = true
    · rw [if_pos hdp]
    · rw [if_neg hdp]
      have hpkid1 : Entity.identityOf { e with dirtying := false }
          M.schema.primaryKey = some pkIden := hpkid
      have hpke1 : jsStrictEq pkv (Entity.getVal
          { e with dirtying := false } M.schema.primaryKey) = true := hpke
      simp only [attrSet, hheap1, hpkid1, modelAttributeWillSet]
      rw [if_pos hpke1]
  refine ⟨fun hd => ?_, fun iden hd hid hfk hne hvv => ?_,
    fun iden dc da optIdx hd hid hfk hne hvv hpx hload => ?_⟩
  · have hd1 : Entity.dirtyHas { e with dirtying := false } k = true := hd
    simp only [resolveModel, hlk, hkey, hstate, foldErrF, hheap1, hstep1,
      hd1]
    simp [getAttrW, updEnt, he, Entity.getVal]
  · have hd1 : Entity.dirtyHas { e with dirtying := false } k = false := hd
    have hid1 : Entity.identityOf { e with dirtying := false } k =
        some iden := hid
    have hne1 : jsStrictEq v (Entity.getVal { e with dirtying := false } k) =
        false := hne
    have hv : (if v ≠ JSValue.null then validateOrDieT iden.ty v
        else none) = none := by
      by_cases h0 : v = .null
      · simp [h0]
      · simp [h0, hvv h0]
    simp only [resolveModel, hlk, hkey, hstate, foldErrF, hheap1, hstep1,
      hd1, Bool.false_eq_true, if_false]
    simp only [attrSet, hheap1, hid1, modelAttributeWillSet, hne1, hv,
      hfk, Bool.not_false, if_true, foldErrF]
    simp only [show Entity.dirtying { e with dirtying := false } = false
      from rfl, Bool.false_and, Bool.false_eq_true, if_false, foldErrF]
    simp only [updEnt, getAttrW, he]
    simp [Entity.getVal, setValList_lookup]
  · have hd1 : Entity.dirtyHas { e with dirtying := false } k = false := hd
    have hid1 : Entity.identityOf { e with dirtying := false } k =
        some iden := hid
    have hne1 : jsStrictEq v (Entity.getVal { e with dirtying := false } k) =
        false := hne
    have hpx1 : findOneProxy { e with dirtying := false } dc (some k) =
        .ok optIdx := hpx
    have hfkb : iden.ty.isFK = true := by simp [AttrType.isFK, hfk]
    have hv : (if v ≠ JSValue.null then validateOrDieT iden.ty v
        else none) = none := by
      by_cases h0 : v = .null
      · simp [h0]
      · simp [h0, hvv h0]
    rcases optIdx with _ | idx
    · simp only [resolveModel, hlk, hkey, hstate, foldErrF, hheap1,
        hstep1, hd1, Bool.false_eq_true, if_false]
      simp only [attrSet, hheap1, hid1, modelAttributeWillSet, hne1, hv,
        hfkb, hfk, hpx1, Bool.not_true, Bool.false_eq_true, if_false,
        Option.elim, foldErrF]
      simp only [show Entity.dirtying { e with dirtying := false } = false
        from rfl, Bool.false_and, Bool.false_eq_true, if_false, foldErrF]
      simp only [updEnt, getAttrW, he]
      simp [Entity.getVal]
    · have hld : ((e.ones.get? idx).map
          (fun p => p.value.isSome)).getD false = false := by
        simpa [Option.elim] using hload
      simp only [resolveModel, hlk, hkey, hstate, foldErrF, hheap1,
        hstep1, hd1, Bool.false_eq_true, if_false]
      simp only [attrSet, hheap1, hid1, modelAttributeWillSet, hne1, hv,
        hfkb, hfk, hpx1, Bool.not_true, Bool.false_eq_true, if_false,
        Option.elim, hld, foldErrF]
      simp only [show Entity.dirtying { e with dirtying := false } = false
        from rfl, Bool.false_and, Bool.false_eq_true, if_false, foldErrF]
      simp only [updEnt, getAttrW, he]
      simp [Entity.getVal]

/-- C3 witness: the per-attribute refresh at the concrete clean child:
the non-dirty foreign-key attribute parent_id has an absent one-side
view, so the refresh row value 7 is dropped and the stored value 5
kept, while the existing instance is returned without allocating. -/
theorem sago_C3_witness :
    (match resolveModel 1 c3World c3M
        [("id", .num 10), ("parent_id", .num 7)] with
      | some (w', .ok m) => some (m, w'.nextId, getAttrW w' 1 "parent_id")
      | _ => none) = some (1, 2, .num 5) := by
  have h := sago_C3_refresh_per_attribute 1 c3World c3M "parent_id"
    (.num 7) (.num 10) "childs_10" 1 c3Child ⟨"id", c3IdType⟩
    (by rfl) (by rfl) (by rfl) (by rfl) (by rfl) (by rfl)
  exact h.2.2 ⟨"parent_id", c3FkType⟩ "parents" "id" none (by rfl)
    (by rfl) (by rfl) (by rfl) (fun _ => by rfl) (by rfl) (by rfl)

theorem storeExt_refl (s : Store) : StoreExt s s :=
  ⟨rfl, rfl, [], by simp⟩

theorem storeExt_of_eq {s t : Store} (h : t = s) : StoreExt s t :=
  ⟨by rw [h], by rw [h], [], by rw [h]; simp⟩

theorem storeExt_trans {s t u : Store} (h1 : StoreExt s t)
    (h2 : StoreExt t u) : StoreExt s u := by
  obtain ⟨c1, i1, l1, p1⟩ := h1
  obtain ⟨c2, i2, l2, p2⟩ := h2
  exact ⟨c2.trans c1, i2.trans i1, l1 ++ l2,
    by rw [p2, p1, List.append_assoc]⟩

theorem updEnt_sess (w : World) (id : Nat) (f : Entity → Entity) :
    (updEnt w id f).sess = w.sess := rfl

theorem updOneProxy_sess (w : World) (eid idx : Nat)
    (f : OneProxy → OneProxy) : (updOneProxy w eid idx f).sess = w.sess :=
  rfl

theorem updManyProxy_sess (w : World) (eid idx : Nat)
    (f : ManyProxy → ManyProxy) :
    (updManyProxy w eid idx f).sess = w.sess := rfl

theorem resortMany_sess (w : World) (eid idx : Nat) :
    (resortMany w eid idx).sess = w.sess := by
  unfold resortMany
  repeat' split
  all_goals rfl

theorem oneSetAsSideEffect_sess (w : World) (eid idx : Nat)
    (v : Option Nat) (force : Bool) :
    (oneSetAsSideEffect w eid idx v force).sess = w.sess := by
  unfold oneSetAsSideEffect
  repeat' split
  all_goals rfl

theorem manyRemoveAsSideEffect_sess (w : World) (eid idx t : Nat) :
    (manyRemoveAsSideEffect w eid idx t).sess = w.sess := by
  unfold manyRemoveAsSideEffect
  repeat' split
  all_goals rfl

theorem manyPushAsSideEffect_sess (w : World) (eid idx t : Nat) :
    (manyPushAsSideEffect w eid idx t).sess = w.sess := by
  unfold manyPushAsSideEffect
  repeat' split
  all_goals simp [resortMany_sess, updManyProxy_sess]

theorem attrSideEffectSet_sess (w : World) (eid : Nat) (a : String)
    (v : JSValue) : ((attrSideEffectSet w eid a v).1).sess = w.sess := by
  unfold attrSideEffectSet
  dsimp only
  repeat' split
  all_goals rfl

theorem maybeRemoveFromRemoteSide_sess (w : World) (hostId idx : Nat) :
    ((maybeRemoveFromRemoteSide w hostId idx).1).sess = w.sess := by
  unfold maybeRemoveFromRemoteSide
  repeat' split
  all_goals simp [manyRemoveAsSideEffect_sess]

theorem setupForeignKeyBetween_sess (w : World) (o m : Nat)
    (src dst : String) :
    ((setupForeignKeyBetween w o m src dst).1).sess = w.sess := by
  unfold setupForeignKeyBetween
  repeat' split
  all_goals first
    | rfl
    | (rename_i heq
       exact (congrArg (fun p => p.1.sess) heq).symm.trans
         (attrSideEffectSet_sess _ _ _ _))

/-- A projection of the world preserved by every step is preserved by
the error-short-circuiting fold. -/
theorem foldErr_pres {α β : Type} (g : World → β)
    (f : World → α → World × Option SagoError)
    (hf : ∀ w x, g ((f w x).1) = g w) :
    ∀ w (l : List α), g ((foldErr f w l).1) = g w := by
  intro w l
  induction l generalizing w with
  | nil => rfl
  | cons x rest ih =>
    unfold foldErr
    split
    · rename_i heq
      exact (congrArg (fun p => g p.1) heq).symm.trans (hf w x)
    · rename_i heq
      exact (ih _).trans
        ((congrArg (fun p => g p.1) heq).symm.trans (hf w x))

/-- The fueled analogue of the preservation property. -/
theorem foldErrF_pres {α β : Type} (g : World → β)
    (f : World → α → Option (World × Option SagoError))
    (hf : ∀ w x r, f w x = some r → g r.1 = g w) :
    ∀ w (l : List α) r, foldErrF f w l = some r → g r.1 = g w := by
  intro w l
  induction l generalizing w with
  | nil =>
    intro r h
    simp only [foldErrF, Option.some.injEq] at h
    rw [← h]
  | cons x rest ih =>
    intro r h
    unfold foldErrF at h
    split at h
    · exact absurd h (by simp)
    · rename_i heq
      simp only [Option.some.injEq] at h
      rw [← h]
      exact hf w x _ heq
    · rename_i heq
      exact (ih _ r h).trans (hf w x _ heq)

theorem heapAddStep_store (w : World) (m : Nat) :
    ((heapAddStep w m).1).sess.store = w.sess.store := by
  unfold heapAddStep
  dsimp only
  repeat' split
  all_goals rfl

theorem heapAdd_store (fuel : Nat) (w : World) (ids : List Nat)
    (r : World × Option SagoError) (h : heapAdd fuel w ids = some r) :
    (r.1).sess.store = w.sess.store := by
  unfold heapAdd at h
  split at h
  · exact absurd h (by simp)
  · simp only [Option.some.injEq] at h
    rw [← h]
  · dsimp only at h
    split at h
    · rename_i heq
      simp only [Option.some.injEq] at h
      rw [← h]
      exact (congrArg (fun p => p.1.sess.store) heq).symm.trans
        (foldErr_pres (fun u => u.sess.store) heapAddStep
          heapAddStep_store _ _)
    · rename_i heq
      simp only [Option.some.injEq] at h
      rw [← h]
      exact (congrArg (fun p => p.1.sess.store) heq).symm.trans
        (foldErr_pres (fun u => u.sess.store) heapAddStep
          heapAddStep_store _ _)

theorem maybeJoinStep_store (fuel : Nat) (s : Nat) (w : World) (m : Nat)
    (r : World × Option SagoError) (h : maybeJoinStep fuel s w m = some r) :
    (r.1).sess.store = w.sess.store := by
  unfold maybeJoinStep at h
  split at h
  · split at h <;>
      (simp only [Option.some.injEq] at h; rw [← h])
  · split at h
    · exact heapAdd_store fuel w [m] r h
    · simp only [Option.some.injEq] at h
      rw [← h]

theorem maybeJoinSession_store (fuel : Nat) (w : World) (ids : List Nat)
    (r : World × Option SagoError) (h : maybeJoinSession fuel w ids = some r) :
    (r.1).sess.store = w.sess.store := by
  unfold maybeJoinSession at h
  dsimp only at h
  split at h
  · simp only [Option.some.injEq] at h
    rw [← h]
  · exact foldErrF_pres (fun u => u.sess.store) _
      (fun u m r2 h2 => maybeJoinStep_store fuel _ u m r2 h2) _ _ _ h

theorem oneSet_store (fuel : Nat) (w : World) (hostId idx : Nat)
    (target : Option Nat) (asC : Bool) (r : World × Option SagoError)
    (h : oneSet fuel w hostId idx target asC = some r) :
    (r.1).sess.store = w.sess.store := by
  unfold oneSet at h
  split at h
  · simp only [Option.some.injEq] at h
    rw [← h]
  · split at h
    · simp only [Option.some.injEq] at h
      rw [← h]
    · split at h
      · simp only [Option.some.injEq] at h
        rw [← h]
      · split at h
        · simp only [Option.some.injEq] at h
          rw [← h]
        · split at h
          · rename_i w2 err heq
            simp only [Option.some.injEq] at h
            rw [← h]
            exact congrArg (fun u => u.store)
              ((congrArg (fun p => p.1.sess) heq).symm.trans
                (maybeRemoveFromRemoteSide_sess w hostId idx))
          · rename_i w2 heq
            have hw2 : w2.sess.store = w.sess.store :=
              congrArg (fun u => u.store)
                ((congrArg (fun p => p.1.sess) heq).symm.trans
                  (maybeRemoveFromRemoteSide_sess w hostId idx))
            split at h
            · split at h
              · simp only [Option.some.injEq] at h
                rw [← h]
                exact hw2
              · split at h
                · simp only [Option.some.injEq] at h
                  rw [← h]
                  exact hw2
                · split at h
                  · simp only [Option.some.injEq] at h
                    rw [← h]
                    exact hw2
                  · split at h
                    · rename_i w3 err heq2
                      simp only [Option.some.injEq] at h
                      rw [← h]
                      exact (congrArg (fun u => u.store)
                        ((congrArg (fun p => p.1.sess) heq2).symm.trans
                          (setupForeignKeyBetween_sess _ _ _ _ _))).trans hw2
                    · rename_i w3 heq2
                      have hw3 : w3.sess.store = w.sess.store :=
                        ((congrArg (fun u => u.store)
                          ((congrArg (fun p => p.1.sess) heq2).symm.trans
                            (setupForeignKeyBetween_sess _ _ _ _ _)))).trans
                          hw2
                      dsimp only at h
                      split at h
                      · simp only [Option.some.injEq] at h
                        rw [← h]
                        exact hw3
                      · rename_i ridx heq3
                        refine (maybeJoinSession_store fuel _ _ r h).trans ?_
                        cases ridx with
                        | none =>
                          dsimp only
                          exact hw3
                        | some ridx2 =>
                          dsimp only
                          refine Eq.trans (congrArg (fun u => u.store)
                            (manyPushAsSideEffect_sess _ _ _ _)) ?_
                          exact hw3
            · split at h
              · rename_i w3 err heq2
                simp only [Option.some.injEq] at h
                rw [← h]
                exact (congrArg (fun u => u.store)
                  ((congrArg (fun p => p.1.sess) heq2).symm.trans
                    (attrSideEffectSet_sess _ _ _ _))).trans hw2
              · rename_i w3 heq2
                simp only [Option.some.injEq] at h
                rw [← h]
                exact (congrArg (fun u => u.store)
                  ((congrArg (fun p => p.1.sess) heq2).symm.trans
                    (attrSideEffectSet_sess _ _ _ _))).trans hw2

theorem attrSet_store (fuel : Nat) (w : World) (eid : Nat) (a : String)
    (v : JSValue) (r : World × Option SagoError)
    (h : attrSet fuel w eid a v = some r) :
    (r.1).sess.store = w.sess.store := by
  unfold attrSet at h
  dsimp only at h
  repeat' split at h
  all_goals first
    | (refine (oneSet_store _ _ _ _ _ _ r h).trans ?_
       first
         | rfl
         | (split <;> rfl))
    | (rename_i heq2
       simp only [Option.some.injEq] at h
       rw [← h]
       refine Eq.trans (congrArg (fun u => u.store)
         (Eq.trans (congrArg (fun p => p.1.sess) heq2).symm
           (maybeRemoveFromRemoteSide_sess _ _ _))) ?_
       first
         | rfl
         | (split <;> rfl))
    | (simp only [Option.some.injEq] at h
       rw [← h]
       first
         | rfl
         | (split <;> rfl))
    | (simp only [Option.some.injEq] at h
       rw [← h])

theorem applyDelOneStep_sess (mid : Nat) (w : World) (i : Nat) :
    ((applyDelOneStep mid w i).1).sess = w.sess := by
  unfold applyDelOneStep
  dsimp only
  split
  · rfl
  · split
    · rfl
    · split
      · rename_i w2 err heq
        have hw2 : w2.sess = w.sess := by
          split at heq
          all_goals try split at heq
          all_goals
            (simp only [Prod.mk.injEq, Option.some.injEq] at heq
             try rw [← heq.1]
             try simp [manyRemoveAsSideEffect_sess])
        exact hw2
      · rename_i w2 heq
        have hw2 : w2.sess = w.sess := by
          split at heq
          all_goals try split at heq
          all_goals
            (simp only [Prod.mk.injEq, Option.some.injEq] at heq
             try rw [← heq.1]
             try simp [manyRemoveAsSideEffect_sess])
        refine Eq.trans (attrSideEffectSet_sess _ _ _ _) ?_
        refine Eq.trans (oneSetAsSideEffect_sess _ _ _ _ _) hw2

theorem applyDelManyStep_sess (mid : Nat) (w : World) (i : Nat) :
    ((applyDelManyStep mid w i).1).sess = w.sess := by
  unfold applyDelManyStep
  dsimp only
  split
  · rfl
  · split
    · rfl
    · refine foldErr_pres (fun u => u.sess) _ ?_ _ _
      intro u rm
      dsimp only
      repeat' split
      all_goals
        simp [attrSideEffectSet_sess, oneSetAsSideEffect_sess,
          manyRemoveAsSideEffect_sess]

theorem applyRelationalDeletionSideEffects_sess (w : World) (mid : Nat) :
    ((applyRelationalDeletionSideEffects w mid).1).sess = w.sess := by
  unfold applyRelationalDeletionSideEffects
  split
  · rfl
  · split
    · rename_i w2 err heq
      exact (congrArg (fun p => p.1.sess) heq).symm.trans
        (foldErr_pres (fun u => u.sess) _
          (fun u x => applyDelOneStep_sess mid u x) _ _)
    · rename_i w2 heq
      refine Eq.trans (foldErr_pres (fun u => u.sess) _
        (fun u x => applyDelManyStep_sess mid u x) _ _) ?_
      exact (congrArg (fun p => p.1.sess) heq).symm.trans
        (foldErr_pres (fun u => u.sess) _
          (fun u x => applyDelOneStep_sess mid u x) _ _)

theorem emitOp_ext (s : Store) (op : DbOp) (h : s.inTx = true) :
    StoreExt s (emitOp s op) := by
  unfold emitOp
  rw [if_pos h]
  exact ⟨rfl, rfl, [op], rfl⟩

theorem runEmit_ext (w : World) (db : DbBehavior) (op : DbOp)
    (h : w.sess.store.inTx = true) :
    StoreExt w.sess.store (((runEmit w db op).1).sess.store) := by
  unfold runEmit
  dsimp only
  split <;> exact emitOp_ext _ _ h

theorem queryInsert_ext (w : World) (db : DbBehavior) (q : QueryState)
    (rowTemplate : List (String × JSValue))
    (h : w.sess.store.inTx = true) :
    StoreExt w.sess.store
      (((queryInsert w db q rowTemplate).1).sess.store) := by
  unfold queryInsert
  repeat' split
  all_goals first
    | exact storeExt_refl _
    | (rename_i heq
       have hx := runEmit_ext w db (.insertOp q.schema.collection
         rowTemplate ((q.essence.returns).getD [])) h
       rw [heq] at hx
       exact hx)

theorem queryUpdate_ext (w : World) (db : DbBehavior) (q : QueryState)
    (updateTemplate : List (String × JSValue))
    (h : w.sess.store.inTx = true) :
    StoreExt w.sess.store
      (((queryUpdate w db q updateTemplate).1).sess.store) := by
  unfold queryUpdate
  repeat' split
  all_goals first
    | exact storeExt_refl _
    | (rename_i heq
       have hx := runEmit_ext w db (.updateOp q.schema.collection
         updateTemplate q.essence.conditions) h
       rw [heq] at hx
       exact hx)

theorem queryDeleteNoSideEffects_ext (w : World) (db : DbBehavior)
    (q : QueryState) (h : w.sess.store.inTx = true) :
    StoreExt w.sess.store
      (((queryDeleteNoSideEffects w db q).1).sess.store) := by
  unfold queryDeleteNoSideEffects
  repeat' split
  all_goals first
    | exact storeExt_refl _
    | (rename_i heq
       have hx := runEmit_ext w db (.deleteOp q.schema.collection
         q.essence.conditions q.schema.primaryKey) h
       rw [heq] at hx
       exact hx)

theorem foldErr_ext {α : Type} (f : World → α → World × Option SagoError)
    (hf : ∀ u x, u.sess.store.inTx = true →
      StoreExt u.sess.store (((f u x).1).sess.store)) :
    ∀ w (l : List α), w.sess.store.inTx = true →
      StoreExt w.sess.store (((foldErr f w l).1).sess.store) := by
  intro w l
  induction l generalizing w with
  | nil => intro _; exact storeExt_refl _
  | cons x rest ih =>
    intro h
    unfold foldErr
    split
    · rename_i heq
      have hx := hf w x h
      rw [heq] at hx
      exact hx
    · rename_i heq
      have hx := hf w x h
      rw [heq] at hx
      refine storeExt_trans hx (ih _ ?_)
      rw [hx.2.1]
      exact h

theorem foldErrF_ext {α : Type}
    (f : World → α → Option (World × Option SagoError))
    (hf : ∀ u x r, u.sess.store.inTx = true → f u x = some r →
      StoreExt u.sess.store ((r.1).sess.store)) :
    ∀ w (l : List α) r, w.sess.store.inTx = true →
      foldErrF f w l = some r →
      StoreExt w.sess.store ((r.1).sess.store) := by
  intro w l
  induction l generalizing w with
  | nil =>
    intro r _ hr
    simp only [foldErrF, Option.some.injEq] at hr
    rw [← hr]
    exact storeExt_refl _
  | cons x rest ih =>
    intro r h hr
    unfold foldErrF at hr
    split at hr
    · exact absurd hr (by simp)
    · rename_i heq
      simp only [Option.some.injEq] at hr
      rw [← hr]
      exact hf w x _ h heq
    · rename_i heq
      have hx := hf w x _ h heq
      refine storeExt_trans hx (ih _ r ?_ hr)
      rw [hx.2.1]
      exact h

theorem emitModelUpdate_ext (w : World) (db : DbBehavior) (mid : Nat)
    (hTx : w.sess.store.inTx = true) :
    StoreExt w.sess.store (((emitModelUpdate w db mid).1).sess.store) := by
  unfold emitModelUpdate
  dsimp only
  split
  · exact storeExt_refl _
  · rename_i e heqe
    split
    · exact storeExt_refl _
    · split
      · exact storeExt_refl _
      · split
        · exact storeExt_refl _
        · rename_i q1 heqw
          split
          · rename_i w2 err heq
            have hx := queryUpdate_ext w db q1
              ((e.dirty.map (fun p => p.1)).map
                (fun a => (a, e.getVal a))) hTx
            rw [heq] at hx
            exact hx
          · rename_i w2 heq
            have hx := queryUpdate_ext w db q1
              ((e.dirty.map (fun p => p.1)).map
                (fun a => (a, e.getVal a))) hTx
            rw [heq] at hx
            exact hx

theorem emitModelDelete_ext (w : World) (db : DbBehavior) (mid : Nat)
    (hTx : w.sess.store.inTx = true) :
    StoreExt w.sess.store (((emitModelDelete w db mid).1).sess.store) := by
  unfold emitModelDelete
  dsimp only
  split
  · exact storeExt_refl _
  · rename_i e heqe
    split
    · exact storeExt_refl _
    · rename_i key heqk
      split
      · exact storeExt_refl _
      · rename_i q1 heqw
        split
        · rename_i w2 err heq
          have hx := queryDeleteNoSideEffects_ext
            (updEnt { w with sess := { w.sess with
                state := w.sess.state.filter (fun p => p.1 ≠ key) } }
              mid (fun e => { e with bound := false })) db q1 hTx
          rw [heq] at hx
          exact hx
        · rename_i w2 heq
          have hx := queryDeleteNoSideEffects_ext
            (updEnt { w with sess := { w.sess with
                state := w.sess.state.filter (fun p => p.1 ≠ key) } }
              mid (fun e => { e with bound := false })) db q1 hTx
          rw [heq] at hx
          refine storeExt_trans hx (storeExt_of_eq ?_)
          exact congrArg (fun u => u.store)
            (applyRelationalDeletionSideEffects_sess w2 mid)

theorem emitModelCreate_ext (fuel : Nat) (w : World) (db : DbBehavior)
    (mid : Nat) (r : World × Option SagoError)
    (hTx : w.sess.store.inTx = true)
    (h : emitModelCreate fuel w db mid = some r) :
    StoreExt w.sess.store ((r.1).sess.store) := by
  unfold emitModelCreate at h
  dsimp only at h
  split at h
  · simp only [Option.some.injEq] at h
    rw [← h]
    exact storeExt_refl _
  · rename_i e heqe
    split at h
    · simp only [Option.some.injEq] at h
      rw [← h]
      exact storeExt_refl _
    · split at h
      · simp only [Option.some.injEq] at h
        rw [← h]
        exact storeExt_refl _
      · rename_i q1 heqq
        split at h
        · rename_i w2 err heqi
          simp only [Option.some.injEq] at h
          rw [← h]
          have hx := queryInsert_ext w db q1
            ((e.schema.identities.filter (fun iden =>
              e.dirtyHas iden.attr)).map (fun iden =>
                (iden.attr, e.getVal iden.attr))) hTx
          rw [heqi] at hx
          exact hx
        · rename_i w2 heqi
          simp only [Option.some.injEq] at h
          rw [← h]
          have hx := queryInsert_ext w db q1
            ((e.schema.identities.filter (fun iden =>
              e.dirtyHas iden.attr)).map (fun iden =>
                (iden.attr, e.getVal iden.attr))) hTx
          rw [heqi] at hx
          exact hx
        · rename_i w2 returned heqi
          have hx := queryInsert_ext w db q1
            ((e.schema.identities.filter (fun iden =>
              e.dirtyHas iden.attr)).map (fun iden =>
                (iden.attr, e.getVal iden.attr))) hTx
          rw [heqi] at hx
          split at h
          · exact absurd h (by simp)
          · rename_i w3 err heqf
            simp only [Option.some.injEq] at h
            rw [← h]
            exact storeExt_trans hx (storeExt_of_eq
              (foldErrF_pres (fun u => u.sess.store) _
                (fun u p r2 h2 => attrSet_store fuel u mid p.1 p.2 r2 h2)
                _ _ _ heqf))
          · rename_i w3 heqf
            have hw3 : w3.sess.store = w2.sess.store :=
              foldErrF_pres (fun u => u.sess.store) _
                (fun u p r2 h2 => attrSet_store fuel u mid p.1 p.2 r2 h2)
                _ _ _ heqf
            split at h
            · simp only [Option.some.injEq] at h
              rw [← h]
              exact storeExt_trans hx (storeExt_of_eq hw3)
            · rename_i e2 heq2
              split at h
              · simp only [Option.some.injEq] at h
                rw [← h]
                exact storeExt_trans hx (storeExt_of_eq hw3)
              · rename_i key heqk
                split at h
                · simp only [Option.some.injEq] at h
                  rw [← h]
                  exact storeExt_trans hx (storeExt_of_eq hw3)
                · rename_i e3 heq3
                  split at h
                  · rename_i w7 err heqc
                    simp only [Option.some.injEq] at h
                    rw [← h]
                    refine storeExt_trans hx (storeExt_of_eq ?_)
                    refine Eq.trans ?_ hw3
                    exact (congrArg (fun p => p.1.sess.store) heqc).symm.trans
                      (congrArg (fun u => u.store)
                        (foldErr_pres (fun u => u.sess) _
                          (fun u (it : IntentRec) => attrSideEffectSet_sess u
                            it.oneSideModel it.sourceAttribute
                            (getAttrW u mid it.destinationAttribute)) _ _))
                  · rename_i w7 heqc
                    simp only [Option.some.injEq] at h
                    rw [← h]
                    refine storeExt_trans hx (storeExt_of_eq ?_)
                    refine Eq.trans ?_ hw3
                    exact (congrArg (fun p => p.1.sess.store) heqc).symm.trans
                      (congrArg (fun u => u.store)
                        (foldErr_pres (fun u => u.sess) _
                          (fun u (it : IntentRec) => attrSideEffectSet_sess u
                            it.oneSideModel it.sourceAttribute
                            (getAttrW u mid it.destinationAttribute)) _ _))

/-- C1.  Commit atomicity and step order: commit opens one transaction
and runs the four emission stages in order — creations, eager updates
of one-side models referencing about-to-be-deleted models, deletions,
then updates of the identity-mapped models; on any failure the
transaction is rolled back, so the durable statement list is exactly
what it was before the call, nothing is pending and no transaction is
left open, and the same error is re-raised; only on success is the
transaction committed (the emitted trace becomes durable in order) and
are the creation and deletion queues cleared. -/
theorem sago_C1_commit_atomicity (fuel : Nat) (w : World)
    (db : DbBehavior) :
    (∀ w' err, commitSession fuel w db = some (w', some err) →
      w'.sess.store.committed = w.sess.store.committed ∧
      w'.sess.store.pending = [] ∧
      w'.sess.store.inTx = false) ∧
    (∀ w', commitSession fuel w db = some (w', none) →
      (∃ w1 w2 w3 w4,
        foldErrF (fun u m => emitModelCreate fuel u db m)
          { w with sess := { w.sess with store := txBegin w.sess.store } }
          w.sess.creations = some (w1, none) ∧
        foldErr (fun u m => emitModelUpdate u db m) w1
          ((w1.sess.deletions.map (fun m =>
            oneSideModelsForManySideModel w1 m)).flatten) = (w2, none) ∧
        foldErr (fun u m => emitModelDelete u db m) w2
          w2.sess.deletions = (w3, none) ∧
        foldErr (fun u m => emitModelUpdate u db m) w3
          (w3.sess.state.map (fun p => p.2)) = (w4, none) ∧
        w' = { w4 with sess := { w4.sess with
          store := txCommit w4.sess.store
          creations := []
          deletions := [] } }) ∧
      (∃ trace, w'.sess.store.committed =
        w.sess.store.committed ++ trace) ∧
      w'.sess.store.pending = [] ∧
      w'.sess.store.inTx = false ∧
      w'.sess.creations = [] ∧ w'.sess.deletions = []) := by
  have hcreate : ∀ (u : World) x r', u.sess.store.inTx = true →
      emitModelCreate fuel u db x = some r' →
      StoreExt u.sess.store ((r'.1).sess.store) :=
    fun u x r' hu h2 => emitModelCreate_ext fuel u db x r' hu h2
  have hupd : ∀ (u : World) x, u.sess.store.inTx = true →
      StoreExt u.sess.store (((emitModelUpdate u db x).1).sess.store) :=
    fun u x hu => emitModelUpdate_ext u db x hu
  have hdel : ∀ (u : World) x, u.sess.store.inTx = true →
      StoreExt u.sess.store (((emitModelDelete u db x).1).sess.store) :=
    fun u x hu => emitModelDelete_ext u db x hu
  constructor
  · intro w' err hcs
    unfold commitSession at hcs
    dsimp only at hcs
    split at hcs
    · simp at hcs
    · rename_i w1 e1 heq1
      simp only [Option.some.injEq, Prod.mk.injEq] at hcs
      obtain ⟨hw', _⟩ := hcs
      subst hw'
      refine ⟨?_, rfl, rfl⟩
      have hx : StoreExt (txBegin w.sess.store) w1.sess.store := by
        split at heq1
        · simp at heq1
        · rename_i wA eA heqA
          simp only [Option.some.injEq, Prod.mk.injEq] at heq1
          obtain ⟨h1, _⟩ := heq1
          rw [← h1]
          exact foldErrF_ext _ hcreate _ _ _ rfl heqA
        · rename_i wA heqA
          have hxA : StoreExt (txBegin w.sess.store) wA.sess.store :=
            foldErrF_ext _ hcreate _ _ _ rfl heqA
          have hA : wA.sess.store.inTx = true := by
            rw [hxA.2.1]
            rfl
          split at heq1
          · rename_i wB eB heqB
            simp only [Option.some.injEq, Prod.mk.injEq] at heq1
            obtain ⟨h1, _⟩ := heq1
            rw [← h1]
            have hxB := foldErr_ext _ hupd wA
              ((wA.sess.deletions.map (fun m =>
                oneSideModelsForManySideModel wA m)).flatten) hA
            rw [heqB] at hxB
            exact storeExt_trans hxA hxB
          · rename_i wB heqB
            have hxB := foldErr_ext _ hupd wA
              ((wA.sess.deletions.map (fun m =>
                oneSideModelsForManySideModel wA m)).flatten) hA
            rw [heqB] at hxB
            have hxAB := storeExt_trans hxA hxB
            have hB : wB.sess.store.inTx = true := by
              rw [hxAB.2.1]
              rfl
            split at heq1
            · rename_i wC eC heqC
              simp only [Option.some.injEq, Prod.mk.injEq] at heq1
              obtain ⟨h1, _⟩ := heq1
              rw [← h1]
              have hxC := foldErr_ext _ hdel wB wB.sess.deletions hB
              rw [heqC] at hxC
              exact storeExt_trans hxAB hxC
            · rename_i wC heqC
              have hxC := foldErr_ext _ hdel wB wB.sess.deletions hB
              rw [heqC] at hxC
              have hxABC := storeExt_trans hxAB hxC
              have hC : wC.sess.store.inTx = true := by
                rw [hxABC.2.1]
                rfl
              simp only [Option.some.injEq] at heq1
              have hxD := foldErr_ext _ hupd wC
                (wC.sess.state.map (fun p => p.2)) hC
              rw [heq1] at hxD
              exact storeExt_trans hxABC hxD
      exact hx.1
    · simp at hcs
  · intro w' hcs
    unfold commitSession at hcs
    dsimp only at hcs
    split at hcs
    · simp at hcs
    · simp at hcs
    · rename_i w1 heq1
      simp only [Option.some.injEq, Prod.mk.injEq, and_true] at hcs
      subst hcs
      split at heq1
      · simp at heq1
      · simp at heq1
      · rename_i wA heqA
        have hxA : StoreExt (txBegin w.sess.store) wA.sess.store :=
          foldErrF_ext _ hcreate _ _ _ rfl heqA
        have hA : wA.sess.store.inTx = true := by
          rw [hxA.2.1]
          rfl
        split at heq1
        · simp at heq1
        · rename_i wB heqB
          have hxB := foldErr_ext _ hupd wA
            ((wA.sess.deletions.map (fun m =>
              oneSideModelsForManySideModel wA m)).flatten) hA
          rw [heqB] at hxB
          have hxAB := storeExt_trans hxA hxB
          have hB : wB.sess.store.inTx = true := by
            rw [hxAB.2.1]
            rfl
          split at heq1
          · simp at heq1
          · rename_i wC heqC
            have hxC := foldErr_ext _ hdel wB wB.sess.deletions hB
            rw [heqC] at hxC
            have hxABC := storeExt_trans hxAB hxC
            have hC : wC.sess.store.inTx = true := by
              rw [hxABC.2.1]
              rfl
            simp only [Option.some.injEq] at heq1
            have hxD := foldErr_ext _ hupd wC
              (wC.sess.state.map (fun p => p.2)) hC
            rw [heq1] at hxD
            have hx := storeExt_trans hxABC hxD
            refine ⟨⟨wA, wB, wC, w1, heqA, heqB, heqC, heq1, rfl⟩,
              ⟨w1.sess.store.pending, ?_⟩, rfl, rfl, rfl, rfl⟩
            exact congrArg (fun l => l ++ w1.sess.store.pending) hx.1

/-- C1 witness: commit atomicity on the concrete empty
session: the commit succeeds, leaves no pending statements and no open
transaction, and clears both work queues. -/
theorem sago_C1_witness :
    c1Out.sess.store.pending = [] ∧ c1Out.sess.store.inTx = false ∧
    c1Out.sess.creations = [] ∧ c1Out.sess.deletions = [] := by
  have h := (sago_C1_commit_atomicity 1 c1World c1Db).2 c1Out (by rfl)
  exact ⟨h.2.2.1, h.2.2.2.1, h.2.2.2.2.1, h.2.2.2.2.2⟩

/-- C2, refutation of two clauses of the claim as stated.  Cycle
clause: on a true two-model intent cycle the operation does not throw —
the expansion recursion never terminates at any fuel budget, so
Session.add produces neither an order nor any error (the
unimplemented-cycle-handling throw is unreachable).  Determinism
clause: when two intents target the same foreign key (models 0 and 2
both owning model 1's parent_id), the two add() orders sort to the
creation orders 2,0,1 and 0,2,1, and replaying the deferred assignments
along them leaves parent_id with different final values — the outcome
depends on the order the models were passed to add(). -/
theorem sago_C2_counterexample :
    (∀ it ∈ cycGraph.intents 0, it.oneSideModel = 1) ∧
    (∀ it ∈ cycGraph.intents 1, it.oneSideModel = 0) ∧
    (∀ fuel (vs0 : Nat → Nat) (filt : Nat → Bool),
      sortRelationGraph cycGraph fuel [0] vs0 filt = none) ∧
    (∃ v1, c2DupRun1 = some (.ok ([2, 0, 1], v1))) ∧
    (∃ v2, c2DupRun2 = some (.ok ([0, 2, 1], v2))) ∧
    finalAssignment (replayIntentAssignments c2DupGraph c2DstVal
      [2, 0, 1]) 1 "parent_id" = some (.num 0) ∧
    finalAssignment (replayIntentAssignments c2DupGraph c2DstVal
      [0, 2, 1]) 1 "parent_id" = some (.num 2) := by
  refine ⟨?_, ?_, cyc_sort_none, ?_, ?_, by rfl, by rfl⟩
  · intro it h
    rw [show cycGraph.intents 0 = [⟨1, "left_id", "id"⟩] from rfl] at h
    rw [List.mem_singleton] at h
    rw [h]
  · intro it h
    rw [show cycGraph.intents 1 = [⟨0, "right_id", "id"⟩] from rfl] at h
    rw [List.mem_singleton] at h
    rw [h]
  · simp [c2DupRun1, sortRelationGraph, expandEntries, expandFrom,
      expandInbound, expandIntents, visitEntries, visitModel,
      visitIntents, uniqueElems, c2DupGraph]
  · simp [c2DupRun2, sortRelationGraph, expandEntries, expandFrom,
      expandInbound, expandIntents, visitEntries, visitModel,
      visitIntents, uniqueElems, c2DupGraph]

/-- C2, the amended claim: on an acyclic intent graph (witnessed by a rank
function decreasing along intent edges), Session.add's expansion and
topological sort succeed and produce a duplicate-free creation order in
which every foreign-key-holding model comes strictly after its intent's
target; two runs over the same input set, in whatever order, create
exactly the same set of models, and the deferred foreign-key
assignments replayed along either order leave every uniquely-owned
foreign key with the same final value; on a true cycle the operation
diverges instead of throwing (the counterexample above). -/
theorem sago_C2_creation_order (g : RelGraph) (rank : Nat → Nat)
    (hrank : ∀ m it, it ∈ g.intents m → rank m < rank it.oneSideModel)
    (fuel₁ fuel₂ : Nat) (ms₁ ms₂ : List Nat) (order₁ order₂ : List Nat)
    (vs₁ vs₂ : Nat → Nat) (hms : ∀ x, x ∈ ms₁ ↔ x ∈ ms₂)
    (h₁ : sortRelationGraph g fuel₁ ms₁ (fun _ => 0) (fun _ => true) =
      some (.ok (order₁, vs₁)))
    (h₂ : sortRelationGraph g fuel₂ ms₂ (fun _ => 0) (fun _ => true) =
      some (.ok (order₂, vs₂)))
    (dstVal : Nat → String → JSValue) :
    order₁.Nodup ∧
    (∀ x ∈ order₁, ∀ it ∈ g.intents x, it.oneSideModel ∈ order₁ ∧
      ∃ l1 l2, order₁ = l1 ++ x :: l2 ∧ it.oneSideModel ∈ l2) ∧
    (∀ x, x ∈ order₁ ↔ x ∈ order₂) ∧
    (∀ hId src m0,
      (∀ m it, it ∈ g.intents m → it.oneSideModel = hId →
        it.sourceAttribute = src → m = m0) →
      finalAssignment (replayIntentAssignments g dstVal order₁) hId src =
      finalAssignment (replayIntentAssignments g dstVal order₂) hId
        src) := by
  obtain ⟨hnd₁, hmem₁, htopo₁⟩ := sort_ok_spec g rank hrank h₁
  obtain ⟨hnd₂, hmem₂, htopo₂⟩ := sort_ok_spec g rank hrank h₂
  have hset : ∀ x, x ∈ order₁ ↔ x ∈ order₂ := by
    intro x
    rw [hmem₁ x, hmem₂ x]
    constructor
    · exact ureach_mono (fun y hy => (hms y).mp hy)
    · exact ureach_mono (fun y hy => (hms y).mpr hy)
  refine ⟨hnd₁, htopo₁, hset, ?_⟩
  intro hId src m0 howner
  unfold finalAssignment
  rw [replay_filter_owner hnd₁
    (fun m _ it hit h1 h2 => howner m it hit h1 h2)]
  rw [replay_filter_owner hnd₂
    (fun m _ it hit h1 h2 => howner m it hit h1 h2)]
  by_cases hm : m0 ∈ order₁
  · rw [if_pos hm, if_pos ((hset m0).mp hm)]
  · rw [if_neg hm, if_neg (fun hc => hm ((hset m0).mpr hc))]

/-- C2 witness: the creation-order theorem on the concrete two-model
forest, added in both input orders: both runs order the target model 0
before the foreign-key holder 1, and the topological property holds. -/
theorem sago_C2_witness :
    ([0, 1] : List Nat).Nodup ∧
    (∀ x ∈ ([0, 1] : List Nat), ∀ it ∈ c2Graph.intents x,
      it.oneSideModel ∈ ([0, 1] : List Nat) ∧
      ∃ l1 l2, ([0, 1] : List Nat) = l1 ++ x :: l2 ∧
        it.oneSideModel ∈ l2) := by
  have hrank : ∀ m it, it ∈ c2Graph.intents m →
      c2Rank m < c2Rank it.oneSideModel := by
    intro m it h
    by_cases hm : m = 0
    · subst hm
      rw [show c2Graph.intents 0 = [⟨1, "parent_id", "id"⟩] from rfl,
        List.mem_singleton] at h
      rw [h]
      decide
    · rw [show c2Graph.intents m =
          (if m = 0 then [⟨1, "parent_id", "id"⟩] else []) from rfl,
        if_neg hm] at h
      exact absurd h (List.not_mem_nil it)
  have hms : ∀ x, x ∈ ([0, 1] : List Nat) ↔ x ∈ ([1, 0] : List Nat) := by
    intro x
    simp [List.mem_cons, or_comm]
  obtain ⟨v1, hv1⟩ : ∃ v, c2Run1 = some (.ok ([0, 1], v)) := by
    simp [c2Run1, sortRelationGraph, expandEntries, expandFrom,
      expandInbound, expandIntents, visitEntries, visitModel,
      visitIntents, uniqueElems, c2Graph]
  obtain ⟨v2, hv2⟩ : ∃ v, c2Run2 = some (.ok ([0, 1], v)) := by
    simp [c2Run2, sortRelationGraph, expandEntries, expandFrom,
      expandInbound, expandIntents, visitEntries, visitModel,
      visitIntents, uniqueElems, c2Graph]
  have h := sago_C2_creation_order c2Graph c2Rank hrank 10 10 [0, 1]
    [1, 0] [0, 1] [0, 1] v1 v2 hms hv1 hv2 c2DstVal
  exact ⟨h.1, h.2.1⟩
